import Mathlib

/-!
# Boids demo: agent store and simulation step

A shallow embedding of `src/main.c`.

* The static array `BOIDS[MAX_N_BOIDS]` is a function `Fin MAX_N_BOIDS → Boid F`; the two C
  functions that mutate it (`spawn_boid`, `update`) take the array and return the new array.
* The C `float` type is a type parameter `F` carrying the operations the code uses
  (`+ - * /`, unary minus, `<`, `<=`, decimal literals, the `libm` calls collected in `LibM`,
  and the one `double` expression of the program, `WideExpr`).  Every definition of the
  program is generic in `F`.  Statements that do not depend on arithmetic are proved for
  every `F`.
* The arithmetic of the program is `F = F32`, a model of IEEE 754 binary32 with round to
  nearest, ties to even: finite values are rationals, together with the two infinities and
  NaN.  The model assumes that `float` expressions are evaluated in `float`
  (`FLT_EVAL_METHOD == 0`) and that the compiler does not fuse multiplications and additions;
  it identifies `-0` with `+0`; `sqrtf` is correctly rounded; `cosf`, `sinf` and `atan2f`
  take the values the C standard fixes at zero and infinite arguments and are idealised as
  correctly rounded elsewhere.
* `F = ℝ` is exact arithmetic (no rounding, no overflow, no NaN), with `sqrtf`, `atan2f`,
  `cosf`, `sinf`, `fabsf` read as the real functions.  It describes the geometry the program
  approximates; statements proved for `ℝ` say so.
* `raymath.h` is a header-only dependency of the program; the few functions used
  are transcribed below under their own names.
* `GetFrameTime()` and `GetScreenToWorld2D(GetMousePosition(), CAMERA)` are inputs of `update`
  (`dt` and `mouse`); both are constant during one call.
-/

namespace Boids

/-! ## Data model -/

/-- Capacity of the static array: `#define MAX_N_BOIDS 600`. -/
def MAX_N_BOIDS : Nat := 600

/-- The raylib `Vector2` record. -/
@[ext]
structure Vector2 (F : Type) where
  x : F
  y : F

/-- The raylib `Color` record (four bytes). -/
structure Color where
  r : Nat
  g : Nat
  b : Nat
  a : Nat

/-- The raylib colour constant `RAYWHITE`. -/
def RAYWHITE : Color := ⟨245, 245, 245, 255⟩

/-- The record `struct Boid`. -/
structure Boid (F : Type) where
  is_spawned : Bool
  position : Vector2 F
  velocity : Vector2 F
  target : Vector2 F
  radius : F
  mass : F
  min_speed : F
  max_speed : F
  separation_radius : F
  group_radius : F
  separation_score : F
  target_score : F
  cohesion_score : F
  alignment_score : F
  color : Color

/-- The static array `BOIDS`. -/
abbrev Store (F : Type) := Fin MAX_N_BOIDS → Boid F

/-- Index 0 of the array. -/
def slot0 : Fin MAX_N_BOIDS := ⟨0, by decide⟩

/-- Index 1 of the array. -/
def slot1 : Fin MAX_N_BOIDS := ⟨1, by decide⟩

/-- The `libm` functions called by the program and by `raymath.h`. -/
class LibM (F : Type) where
  sqrtf : F → F
  atan2f : F → F → F
  cosf : F → F
  sinf : F → F
  fabsf : F → F

export LibM (sqrtf atan2f cosf sinf fabsf)

/-- The one expression of the program that is evaluated in `double` and then stored in a
`float`: `1.0 / (1.0 + x)` for a `float` `x` (line 126, the assignment to `influence`).
Every other `double` subexpression of the program is a literal or a single operation on
`float` values whose result is converted to `float`, which rounds like the `float`
operation. -/
class WideExpr (F : Type) where
  inv_one_add : F → F

export WideExpr (inv_one_add)

section Program

variable {F : Type} [Add F] [Sub F] [Mul F] [Div F] [Neg F] [OfScientific F] [LibM F] [WideExpr F]
  [LT F] [LE F] [∀ a b : F, Decidable (a < b)] [∀ a b : F, Decidable (a ≤ b)]

/-! ## The functions of `raymath.h` used by the program -/

/-- `Vector2Zero`. -/
def Vector2Zero : Vector2 F := ⟨0.0, 0.0⟩

/-- `Vector2Add`. -/
def Vector2Add (v1 v2 : Vector2 F) : Vector2 F := ⟨v1.x + v2.x, v1.y + v2.y⟩

/-- `Vector2Subtract`. -/
def Vector2Subtract (v1 v2 : Vector2 F) : Vector2 F := ⟨v1.x - v2.x, v1.y - v2.y⟩

/-- `Vector2Scale`. -/
def Vector2Scale (v : Vector2 F) (scale : F) : Vector2 F := ⟨v.x * scale, v.y * scale⟩

/-- `Vector2Length`: `sqrtf((v.x*v.x) + (v.y*v.y))`. -/
def Vector2Length (v : Vector2 F) : F := sqrtf (v.x * v.x + v.y * v.y)

/-- `Vector2Distance`. -/
def Vector2Distance (v1 v2 : Vector2 F) : F :=
  sqrtf ((v1.x - v2.x) * (v1.x - v2.x) + (v1.y - v2.y) * (v1.y - v2.y))

/-- `Vector2Normalize`: the zero vector unless `length > 0`, else `v` times `1.0f/length`. -/
def Vector2Normalize (v : Vector2 F) : Vector2 F :=
  let length := sqrtf (v.x * v.x + v.y * v.y)
  if 0.0 < length then
    let ilength := 1.0 / length
    ⟨v.x * ilength, v.y * ilength⟩
  else ⟨0.0, 0.0⟩

/-- `Vector2Angle`: `atan2f(det, dot)` of the two vectors. -/
def Vector2Angle (v1 v2 : Vector2 F) : F :=
  let dot := v1.x * v2.x + v1.y * v2.y
  let det := v1.x * v2.y - v1.y * v2.x
  atan2f det dot

/-- `Vector2Rotate`. -/
def Vector2Rotate (v : Vector2 F) (angle : F) : Vector2 F :=
  let cosres := cosf angle
  let sinres := sinf angle
  ⟨v.x * cosres - v.y * sinres, v.x * sinres + v.y * cosres⟩

/-- `Clamp`: `result = (value < min) ? min : value; if (result > max) result = max;`. -/
def Clamp (value min max : F) : F :=
  let result := if value < min then min else value
  if max < result then max else result

/-! ## `spawn_boid` -/

/-- The assignments of `spawn_boid` to the claimed slot, in source order. -/
def spawn_init (boid : Boid F) (position : Vector2 F) : Boid F :=
  let boid := { boid with is_spawned := true }
  let boid := { boid with position := position }
  let boid := { boid with velocity := Vector2Zero }
  let boid := { boid with target := Vector2Zero }
  let boid := { boid with radius := 1.0 }
  let boid := { boid with mass := 1.0 }
  let boid := { boid with min_speed := 50.0 }
  let boid := { boid with max_speed := 100.0 }
  let boid := { boid with separation_radius := boid.radius * 10.0 }
  let boid := { boid with group_radius := boid.separation_radius * 1.0 }
  let boid := { boid with separation_score := 15.0 }
  let boid := { boid with target_score := 0.5 }
  let boid := { boid with cohesion_score := 0.8 }
  let boid := { boid with alignment_score := 0.2 }
  { boid with color := RAYWHITE }

/-- The `for` loop of `spawn_boid`, entered with loop variable `i`: the returned `int` and the
array after the call. -/
def spawn_boid_from (position : Vector2 F) (BOIDS : Store F) (i : Nat) : Int × Store F :=
  if h : i < MAX_N_BOIDS then
    if (BOIDS ⟨i, h⟩).is_spawned then spawn_boid_from position BOIDS (i + 1)
    else ((i : Int), Function.update BOIDS ⟨i, h⟩ (spawn_init (BOIDS ⟨i, h⟩) position))
  else (-1, BOIDS)
termination_by MAX_N_BOIDS - i

/-- `spawn_boid`. -/
def spawn_boid (position : Vector2 F) (BOIDS : Store F) : Int × Store F :=
  spawn_boid_from position BOIDS 0

/-! ## `update` -/

/-- The local variables of `update` that the inner loop over `j` assigns. -/
@[ext]
structure Locals (F : Type) where
  separation_vec : Vector2 F
  group_center : Vector2 F
  group_velocity : Vector2 F
  group_mass : F

/-- The body of the inner loop of `update` for the pair `boid = &BOIDS[i]`, `other = &BOIDS[j]`
(lines 117 to 140). -/
def neighbor_body (BOIDS : Store F) (i j : Fin MAX_N_BOIDS) (loc : Locals F) : Locals F :=
  let boid := BOIDS i
  let other := BOIDS j
  if !other.is_spawned then loc
  else if i = j then loc
  else
    let distance := Vector2Distance boid.position other.position
    let direction := Vector2Normalize (Vector2Subtract boid.position other.position)
    let influence := inv_one_add (distance * distance)
    let loc :=
      if distance ≤ boid.separation_radius then
        { loc with separation_vec :=
            Vector2Add loc.separation_vec (Vector2Scale direction influence) }
      else loc
    if distance ≤ boid.group_radius then
      let loc := { loc with group_mass := loc.group_mass + other.mass }
      let loc := { loc with group_center :=
                    Vector2Add loc.group_center (Vector2Scale other.position other.mass) }
      { loc with group_velocity := Vector2Add loc.group_velocity other.velocity }
    else loc

/-- The locals after the first `n` iterations (`j = 0 .. n-1`) of the inner loop. -/
def neighbor_loop (BOIDS : Store F) (i : Fin MAX_N_BOIDS) (init : Locals F) : Nat → Locals F
  | 0 => init
  | n + 1 =>
    if h : n < MAX_N_BOIDS then neighbor_body BOIDS i ⟨n, h⟩ (neighbor_loop BOIDS i init n)
    else neighbor_loop BOIDS i init n

/-- The locals when the inner loop exits (lines 110 to 141): seeded with the boid itself, then
all `MAX_N_BOIDS` iterations. -/
def neighbors (BOIDS : Store F) (i : Fin MAX_N_BOIDS) : Locals F :=
  let boid := BOIDS i
  neighbor_loop BOIDS i
    { separation_vec := Vector2Zero
      group_center := Vector2Scale boid.position boid.mass
      group_velocity := boid.velocity
      group_mass := boid.mass } MAX_N_BOIDS

/-- The angle passed to `Vector2Rotate` on line 155 (lines 145 to 153). -/
def alignment_angle (dt : F) (BOIDS : Store F) (i : Fin MAX_N_BOIDS) : F :=
  let boid := BOIDS i
  let group_velocity := (neighbors BOIDS i).group_velocity
  let group_direction := Vector2Normalize group_velocity
  let angle := Vector2Angle boid.velocity group_direction
  let angle_step := boid.alignment_score * dt
  if angle_step < fabsf angle then
    if angle < 0.0 then -angle_step else angle_step
  else angle

/-- The value of `boid->velocity` after the alignment rotation of line 155. -/
def aligned_velocity (dt : F) (BOIDS : Store F) (i : Fin MAX_N_BOIDS) : Vector2 F :=
  Vector2Rotate (BOIDS i).velocity (alignment_angle dt BOIDS i)

/-- The value of `boid->velocity` after the force integration of line 171 (lines 109, 143 and
157 to 171).  `cohesion_force` is computed and not used, as in the source. -/
def integrated_velocity (dt : F) (BOIDS : Store F) (i : Fin MAX_N_BOIDS) : Vector2 F :=
  let boid := BOIDS i
  let target_vec := Vector2Subtract boid.target boid.position
  let loc := neighbors BOIDS i
  let separation_vec := loc.separation_vec
  let group_center := Vector2Scale loc.group_center (1.0 / loc.group_mass)
  let velocity := aligned_velocity dt BOIDS i
  let cohesion_vec := Vector2Subtract group_center boid.position
  let damping_force := Vector2Scale velocity (-1.0)
  let separation_force := Vector2Scale separation_vec boid.separation_score
  let target_force := Vector2Scale target_vec boid.target_score
  let cohesion_force := Vector2Scale cohesion_vec boid.cohesion_score
  let net_force := damping_force
  let net_force := Vector2Add net_force separation_force
  let net_force := Vector2Add net_force target_force
  let acceleration := Vector2Scale net_force (1.0 / boid.mass)
  let velocity_step := Vector2Scale acceleration dt
  Vector2Add velocity velocity_step

/-- The value of `boid->velocity` after the speed clamp of lines 173 to 175. -/
def clamped_velocity (dt : F) (BOIDS : Store F) (i : Fin MAX_N_BOIDS) : Vector2 F :=
  let boid := BOIDS i
  let velocity := integrated_velocity dt BOIDS i
  let speed := Vector2Length velocity
  let speed := Clamp speed boid.min_speed boid.max_speed
  Vector2Scale (Vector2Normalize velocity) speed

/-- One iteration of the outer loop of `update` (lines 104 to 178), for slot `i`. -/
def update_boid (dt : F) (mouse : Vector2 F) (BOIDS : Store F) (i : Fin MAX_N_BOIDS) :
    Store F :=
  if !(BOIDS i).is_spawned then BOIDS
  else
    let BOIDS := Function.update BOIDS i { BOIDS i with target := mouse }
    let velocity := clamped_velocity dt BOIDS i
    let BOIDS := Function.update BOIDS i { BOIDS i with velocity := velocity }
    let position_step := Vector2Scale (BOIDS i).velocity dt
    Function.update BOIDS i
      { BOIDS i with position := Vector2Add (BOIDS i).position position_step }

/-- The array after the first `n` iterations (`i = 0 .. n-1`) of the outer loop of `update`. -/
def update_loop (dt : F) (mouse : Vector2 F) (BOIDS : Store F) : Nat → Store F
  | 0 => BOIDS
  | n + 1 =>
    if h : n < MAX_N_BOIDS then update_boid dt mouse (update_loop dt mouse BOIDS n) ⟨n, h⟩
    else update_loop dt mouse BOIDS n

/-- `update`: the array after all `MAX_N_BOIDS` iterations; `dt` is `GetFrameTime()` and `mouse`
is `GetScreenToWorld2D(GetMousePosition(), CAMERA)`. -/
def update (dt : F) (mouse : Vector2 F) (BOIDS : Store F) : Store F :=
  update_loop dt mouse BOIDS MAX_N_BOIDS

/-- The array after `n` calls of `update` with the same `dt` and `mouse`. -/
def update_n (dt : F) (mouse : Vector2 F) (BOIDS : Store F) : Nat → Store F
  | 0 => BOIDS
  | n + 1 => update dt mouse (update_n dt mouse BOIDS n)

/-! ## Derived notions used in the statements -/

/-- The number of slots carrying a spawned boid. -/
def active_count (BOIDS : Store F) : Nat :=
  (Finset.univ.filter (fun i => (BOIDS i).is_spawned = true)).card

/-- Consecutive calls of `spawn_boid`, one per position: the returned values in call order
and the final array. -/
def spawn_all : List (Vector2 F) → Store F → List Int × Store F
  | [], BOIDS => ([], BOIDS)
  | position :: rest, BOIDS =>
    let r := spawn_boid position BOIDS
    let rs := spawn_all rest r.2
    (r.1 :: rs.1, rs.2)

/-- The array in which every slot below `i` holds its value after `update` and every other
slot holds its value before `update`. -/
def mixed_store (dt : F) (mouse : Vector2 F) (BOIDS : Store F) (i : Fin MAX_N_BOIDS) :
    Store F :=
  fun j => if j < i then update dt mouse BOIDS j else BOIDS j

/-- The array at program start: `static Boid BOIDS[MAX_N_BOIDS];` is zero-initialised. -/
def BOIDS_init : Store F :=
  fun _ =>
    { is_spawned := false
      position := ⟨0.0, 0.0⟩
      velocity := ⟨0.0, 0.0⟩
      target := ⟨0.0, 0.0⟩
      radius := 0.0
      mass := 0.0
      min_speed := 0.0
      max_speed := 0.0
      separation_radius := 0.0
      group_radius := 0.0
      separation_score := 0.0
      target_score := 0.0
      cohesion_score := 0.0
      alignment_score := 0.0
      color := ⟨0, 0, 0, 0⟩ }

/-- The slots below `k` are spawned and the slots from `k` on are not. -/
def filled_to {F : Type} (k : Nat) (BOIDS : Store F) : Prop :=
  ∀ j : Fin MAX_N_BOIDS, (BOIDS j).is_spawned = decide (j.val < k)

/-- The array `BOIDS` with the `cohesion_score` of every slot `j` replaced by `c j`. -/
def set_cohesion {F : Type} (c : Fin MAX_N_BOIDS → F) (BOIDS : Store F) : Store F :=
  fun j => { BOIDS j with cohesion_score := c j }

/-- The double-buffered reading of the step: every slot is computed from the array as it was
before the call. -/
def snapshot_update (dt : F) (mouse : Vector2 F) (BOIDS : Store F) : Store F :=
  fun i => update_boid dt mouse BOIDS i i

/-- The array during iteration `i` of the outer loop of `update`, once line 107 has stored the
target in slot `i`: the slots below `i` are already updated, the others are not. -/
def store_at (dt : F) (mouse : Vector2 F) (BOIDS : Store F) (i : Fin MAX_N_BOIDS) : Store F :=
  Function.update (mixed_store dt mouse BOIDS i) i
    { mixed_store dt mouse BOIDS i i with target := mouse }

end Program

/-! ## Exact arithmetic -/

/-- The `libm` functions over the reals; `atan2f y x` is the argument of `x + y i`. -/
noncomputable instance realLibM : LibM ℝ where
  sqrtf := Real.sqrt
  atan2f y x := Complex.arg ⟨x, y⟩
  cosf := Real.cos
  sinf := Real.sin
  fabsf x := |x|

/-- The `double` expression of line 126 over the reals. -/
noncomputable instance realWideExpr : WideExpr ℝ where
  inv_one_add x := 1 / (1 + x)

/-! ## Two boids on crossing courses (exact arithmetic) -/

/-- Slots 0 and 1 hold boids with the values written by `spawn_boid`, at `(0, 0)` and `(1, 0)`,
flying at speed 50 along x and along y; no other slot is spawned. -/
def crossing : Store ℝ :=
  fun j =>
    if j = slot0 then { spawn_init (BOIDS_init slot0) ⟨0, 0⟩ with velocity := ⟨50, 0⟩ }
    else if j = slot1 then { spawn_init (BOIDS_init slot1) ⟨1, 0⟩ with velocity := ⟨0, 50⟩ }
    else BOIDS_init j

/-! ## Two boids in line (exact arithmetic) -/

/-- Slots 0 and 1 hold boids with the values written by `spawn_boid`, at `(0, 0)` and
`(12, 0)`, both flying at `(50, 0)`; no other slot is spawned. -/
def convoy : Store ℝ :=
  fun j =>
    if j = slot0 then { spawn_init (BOIDS_init slot0) ⟨0, 0⟩ with velocity := ⟨50, 0⟩ }
    else if j = slot1 then { spawn_init (BOIDS_init slot1) ⟨12, 0⟩ with velocity := ⟨50, 0⟩ }
    else BOIDS_init j

section ProgramMore

variable {F : Type} [Add F] [Sub F] [Mul F] [Div F] [Neg F] [OfScientific F] [LibM F] [WideExpr F]
  [LT F] [LE F] [∀ a b : F, Decidable (a < b)] [∀ a b : F, Decidable (a ≤ b)]

/-- The value of the local `influence` of line 126 for `boid` at `p` and `other` at `q`. -/
def influence (p q : Vector2 F) : F :=
  let distance := Vector2Distance p q
  inv_one_add (distance * distance)

/-- The value of `group_center` after the division of line 143. -/
def group_centroid (BOIDS : Store F) (i : Fin MAX_N_BOIDS) : Vector2 F :=
  let loc := neighbors BOIDS i
  Vector2Scale loc.group_center (1.0 / loc.group_mass)

end ProgramMore

/-- The array `BOIDS` with the `mass` of every slot `j` replaced by `c j`. -/
def set_mass {F : Type} (c : Fin MAX_N_BOIDS → F) (BOIDS : Store F) : Store F :=
  fun j => { BOIDS j with mass := c j }

/-! ## Binary32 arithmetic

The type `F32` models the C type `float` as IEEE 754 binary32. Every operation computes the
exact rational result and rounds it to nearest, ties to even, with gradual underflow and
overflow to infinity. The conversion of a `double` result to `float` after a single operation
on `float` operands rounds like the `float` operation, so `+ - * /` round once; the one
compound `double` expression of the program is `inv_one_add32`. The sign of zero is not
represented. `sqrtf` is correctly rounded, as IEEE 754 requires; `cosf`, `sinf` and `atan2f`
have the values fixed by the C standard at zero and infinite arguments and are otherwise taken
to be the correctly rounded real functions (`rndR`), an idealisation of `libm`. -/

/-- The values of the C type `float` (IEEE 754 binary32). A finite value is the rational
number it denotes; `-0` is identified with `+0`. -/
inductive F32 where
  | fin (q : ℚ)
  | inf (negative : Bool)
  | nan
deriving DecidableEq

namespace F32

/-- `2 ^ k` as a rational. -/
def pow2 (k : Int) : ℚ :=
  if 0 ≤ k then ((2 ^ k.toNat : Nat) : ℚ) else 1 / ((2 ^ (-k).toNat : Nat) : ℚ)

/-- With enough fuel, `⌊log₂ n⌋` for `n ≥ 1` (and 0 for `n = 0`). -/
def nlog2_fuel : Nat → Nat → Nat
  | 0, _ => 0
  | fuel + 1, n => if n < 2 then 0 else nlog2_fuel fuel (n / 2) + 1

/-- The integer `⌊log₂ n⌋` for `n ≥ 1`. -/
def nlog2 (n : Nat) : Nat := nlog2_fuel n n

/-- The integer `⌊log₂ a⌋` for a rational `a > 0`. -/
def ilog2 (a : ℚ) : Int :=
  let k : Int := (nlog2 a.num.natAbs : Int) - (nlog2 a.den : Int)
  if pow2 k ≤ a then k else k - 1

/-- The integer nearest to a rational `a ≥ 0`, ties to the even one. -/
def round_even (a : ℚ) : Nat :=
  let f := a.num.natAbs / a.den
  let r := a.num.natAbs % a.den
  if 2 * r < a.den then f
  else if a.den < 2 * r then f + 1
  else if f % 2 = 0 then f else f + 1

/-- Round to nearest, ties to even, in the binary format with `p` significand bits whose
least quantum exponent is `qmin` (no overflow check). -/
def round_rat (p : Nat) (qmin : Int) (q : ℚ) : ℚ :=
  if q = 0 then 0
  else
    let a := if q < 0 then -q else q
    let e := max (ilog2 a - ((p : Int) - 1)) qmin
    let v := (round_even (a / pow2 e) : ℚ) * pow2 e
    if q < 0 then -v else v

/-- Rounding to binary64 of a rational in the binary64 range. -/
def round64 (q : ℚ) : ℚ := round_rat 53 (-1074) q

/-- Rounding of an exact result to binary32, overflow to infinity. -/
def rnd (q : ℚ) : F32 :=
  let v := round_rat 24 (-149) q
  if pow2 128 ≤ v then inf false
  else if v ≤ -pow2 128 then inf true
  else fin v

/-- Binary32 addition. -/
def add : F32 → F32 → F32
  | fin a, fin b => rnd (a + b)
  | fin _, inf s => inf s
  | inf s, fin _ => inf s
  | inf s, inf t => if s = t then inf s else nan
  | _, _ => nan

/-- Binary32 negation. -/
def neg : F32 → F32
  | fin a => fin (-a)
  | inf s => inf (!s)
  | nan => nan

/-- Binary32 subtraction. -/
def sub (x y : F32) : F32 := add x (neg y)

/-- Binary32 multiplication. -/
def mul : F32 → F32 → F32
  | fin a, fin b => rnd (a * b)
  | fin a, inf s => if a = 0 then nan else inf (xor s (decide (a < 0)))
  | inf s, fin b => if b = 0 then nan else inf (xor s (decide (b < 0)))
  | inf s, inf t => inf (xor s t)
  | _, _ => nan

/-- Binary32 division (a zero divisor is taken as `+0`). -/
def div : F32 → F32 → F32
  | fin a, fin b =>
    if b = 0 then (if a = 0 then nan else inf (decide (a < 0))) else rnd (a / b)
  | fin _, inf _ => fin 0
  | inf s, fin b => inf (xor s (decide (b < 0)))
  | inf _, inf _ => nan
  | _, _ => nan

/-- The comparison `<` of binary32; false when an operand is NaN. -/
def lt : F32 → F32 → Bool
  | fin a, fin b => decide (a < b)
  | fin _, inf s => !s
  | inf s, fin _ => s
  | inf s, inf t => s && !t
  | _, _ => false

/-- The comparison `<=` of binary32; false when an operand is NaN. -/
def le : F32 → F32 → Bool
  | fin a, fin b => decide (a ≤ b)
  | fin _, inf s => !s
  | inf s, fin _ => s
  | inf s, inf t => s || !t
  | _, _ => false

/-- The step `k` of the bitwise integer square root: the largest `r` extending `acc` by bits
below `k` with `r * r ≤ n`. -/
def isqrt_bits (n : Nat) : Nat → Nat → Nat
  | 0, acc => acc
  | k + 1, acc =>
    let cand := acc + 2 ^ k
    if cand * cand ≤ n then isqrt_bits n k cand else isqrt_bits n k acc

/-- The integer `⌊√n⌋` for `n < 2 ^ 64`. -/
def isqrt (n : Nat) : Nat := isqrt_bits n 32 0

/-- The correctly rounded binary32 square root of a rational `a > 0` in the binary32 range. -/
def sqrt_pos (a : ℚ) : ℚ :=
  let e : Int := (ilog2 a) / 2 - 23
  let t := a / pow2 (2 * e)
  let n := t.num.natAbs / t.den
  let s := isqrt n
  let mid : ℚ := (s : ℚ) * (s : ℚ) + (s : ℚ) + 1 / 4
  let m := if t < mid then s else if mid < t then s + 1 else if s % 2 = 0 then s else s + 1
  (m : ℚ) * pow2 e

/-- `sqrtf`. -/
def sqrt : F32 → F32
  | fin a => if a < 0 then nan else if a = 0 then fin 0 else fin (sqrt_pos a)
  | inf s => if s then nan else inf false
  | nan => nan

/-- `fabsf`. -/
def abs : F32 → F32
  | fin a => fin (if a < 0 then -a else a)
  | inf _ => inf false
  | nan => nan

/-- The expression `1.0 / (1.0 + x)` of line 126: the sum and the quotient are computed in
binary64, the quotient is then converted to binary32. -/
def inv_one_add32 : F32 → F32
  | fin a =>
    let s := round64 (1 + a)
    if s = 0 then inf false else rnd (round64 (1 / s))
  | inf _ => fin 0
  | nan => nan

/-- A decimal literal: C reads it as a `double`, which is converted to `float`. -/
def lit (m : Nat) (s : Bool) (e : Nat) : F32 :=
  rnd (round64 (OfScientific.ofScientific m s e))

/-- Rounding of a real number to binary32: nearest, ties to even, overflow to infinity. -/
noncomputable def rndR (r : ℝ) : F32 :=
  if r = 0 then fin 0
  else
    let a := |r|
    let e : Int := max (Int.log 2 a - 23) (-149)
    let x := a / (2 : ℝ) ^ e
    let f := ⌊x⌋₊
    let m : Nat :=
      if x - f < 1 / 2 then f
      else if 1 / 2 < x - f then f + 1
      else if f % 2 = 0 then f else f + 1
    let v : ℚ := (m : ℚ) * pow2 e
    if pow2 128 ≤ v then inf (decide (r < 0)) else fin (if r < 0 then -v else v)

/-- `cosf`: 1 at zero, as the C standard requires; elsewhere the correctly rounded cosine
(an idealisation: the standard does not fix the value). -/
noncomputable def cos : F32 → F32
  | fin a => if a = 0 then fin 1 else rndR (Real.cos a)
  | _ => nan

/-- `sinf`: 0 at zero, as the C standard requires; elsewhere the correctly rounded sine
(an idealisation). -/
noncomputable def sin : F32 → F32
  | fin a => if a = 0 then fin 0 else rndR (Real.sin a)
  | _ => nan

/-- `atan2f y x`: 0 for `y = 0` and `x ≥ 0`, and the values at infinite arguments, as the
C standard requires; elsewhere the correctly rounded argument of `x + y i` (an
idealisation). -/
noncomputable def atan2 : F32 → F32 → F32
  | fin y, fin x => if y = 0 ∧ 0 ≤ x then fin 0 else rndR (Complex.arg ⟨x, y⟩)
  | fin y, inf s =>
    if s then rndR (if y < 0 then -Real.pi else Real.pi) else fin 0
  | inf s, fin _ => rndR (if s then -(Real.pi / 2) else Real.pi / 2)
  | inf s, inf t =>
    rndR ((if s then -1 else 1) * (if t then 3 * Real.pi / 4 else Real.pi / 4))
  | _, _ => nan

end F32

instance : Add F32 := ⟨F32.add⟩
instance : Sub F32 := ⟨F32.sub⟩
instance : Mul F32 := ⟨F32.mul⟩
instance : Div F32 := ⟨F32.div⟩
instance : Neg F32 := ⟨F32.neg⟩
instance : LT F32 := ⟨fun x y => F32.lt x y = true⟩
instance : LE F32 := ⟨fun x y => F32.le x y = true⟩
instance : OfScientific F32 := ⟨F32.lit⟩
instance (a b : F32) : Decidable (a < b) := inferInstanceAs (Decidable (F32.lt a b = true))
instance (a b : F32) : Decidable (a ≤ b) := inferInstanceAs (Decidable (F32.le a b = true))

/-- The `libm` functions at binary32. -/
noncomputable instance f32LibM : LibM F32 where
  sqrtf := F32.sqrt
  atan2f := F32.atan2
  cosf := F32.cos
  sinf := F32.sin
  fabsf := F32.abs

/-- The `double` expression of line 126 at binary32. -/
instance f32WideExpr : WideExpr F32 where
  inv_one_add := F32.inv_one_add32

/-! ## One iteration of `update` for a boid that meets no other spawned boid -/

section LonePipeline

variable {F : Type} [Add F] [Sub F] [Mul F] [Div F] [Neg F] [OfScientific F] [LibM F]
  [LT F] [LE F] [∀ a b : F, Decidable (a < b)] [∀ a b : F, Decidable (a ≤ b)]

/-- The angle passed to `Vector2Rotate` (lines 145 to 153) when `group_velocity` is the
boid's own velocity. -/
def lone_angle (dt : F) (boid : Boid F) : F :=
  let group_direction := Vector2Normalize boid.velocity
  let angle := Vector2Angle boid.velocity group_direction
  let angle_step := boid.alignment_score * dt
  if angle_step < fabsf angle then
    if angle < 0.0 then -angle_step else angle_step
  else angle

/-- The value of `boid->velocity` after line 171 when `separation_vec` is still zero and
`group_velocity` is the boid's own velocity. -/
def lone_integrated (dt : F) (boid : Boid F) : Vector2 F :=
  let target_vec := Vector2Subtract boid.target boid.position
  let velocity := Vector2Rotate boid.velocity (lone_angle dt boid)
  let damping_force := Vector2Scale velocity (-1.0)
  let separation_force := Vector2Scale Vector2Zero boid.separation_score
  let target_force := Vector2Scale target_vec boid.target_score
  let net_force := damping_force
  let net_force := Vector2Add net_force separation_force
  let net_force := Vector2Add net_force target_force
  let acceleration := Vector2Scale net_force (1.0 / boid.mass)
  let velocity_step := Vector2Scale acceleration dt
  Vector2Add velocity velocity_step

/-- The value of `boid->velocity` after line 175 in the same situation. -/
def lone_velocity (dt : F) (boid : Boid F) : Vector2 F :=
  let velocity := lone_integrated dt boid
  let speed := Vector2Length velocity
  let speed := Clamp speed boid.min_speed boid.max_speed
  Vector2Scale (Vector2Normalize velocity) speed

/-- The boid after one iteration of the outer loop in the same situation (lines 107 to 178). -/
def lone_update (dt : F) (mouse : Vector2 F) (boid : Boid F) : Boid F :=
  let boid := { boid with target := mouse }
  let boid := { boid with velocity := lone_velocity dt boid }
  { boid with position := Vector2Add boid.position (Vector2Scale boid.velocity dt) }

end LonePipeline

/-! ## The one-boid scenarios at binary32 -/

/-- Equality of binary32 vectors is decided by components. -/
instance : DecidableEq (Vector2 F32) := fun a b =>
  decidable_of_iff (a.x = b.x ∧ a.y = b.y)
    ⟨fun h => Vector2.ext h.1 h.2, fun h => ⟨congrArg Vector2.x h, congrArg Vector2.y h⟩⟩

/-- The boid written by `spawn_boid` at `(0, 0)` into slot 0 of the initial array. -/
def boid32 : Boid F32 := spawn_init (BOIDS_init slot0) ⟨0.0, 0.0⟩

/-- The array after `spawn_boid` at `(0, 0)` on the initial array, at binary32. -/
def start32 : Store F32 := (spawn_boid ⟨0.0, 0.0⟩ BOIDS_init).2

/-- The array after `n` further calls of `update` with `dt = 0.1f` and target `(10, 0)`. -/
noncomputable def scenario32 (n : Nat) : Store F32 :=
  update_n 0.1 ⟨F32.fin 10, F32.fin 0⟩ start32 n

/-- The distance along x between the boid of slot 0 and the target `(10, 0)` after `n`
calls, computed in binary32. -/
noncomputable def x_distance32 (n : Nat) : F32 :=
  fabsf (F32.fin 10 - (scenario32 n slot0).position.x)

/-- The boid of slot 0 in that scenario when it is at `(x, 0)` with velocity `(v, 0)`. -/
def boid32_at (x v : ℚ) : Boid F32 :=
  { boid32 with
    target := ⟨F32.fin 10, F32.fin 0⟩
    velocity := ⟨F32.fin v, F32.fin 0⟩
    position := ⟨F32.fin x, F32.fin 0⟩ }

/-- The array after `spawn_boid` at `(0, 0)` and one call of `update` with `dt = 0.5` and
target `(60, 80)`. -/
noncomputable def cruise32 : Store F32 :=
  update (F32.fin (1 / 2)) ⟨F32.fin 60, F32.fin 80⟩ start32

section SpawnFacts

variable {F : Type} [Mul F] [OfScientific F]

theorem spawn_init_is_spawned (boid : Boid F) (position : Vector2 F) :
    (spawn_init boid position).is_spawned = true := rfl

theorem spawn_init_position (boid : Boid F) (position : Vector2 F) :
    (spawn_init boid position).position = position := rfl

/-- Entered at `i`, the loop of `spawn_boid` either finds every slot from `i` on spawned and
returns `-1` with the array untouched, or claims the first unspawned slot `k ≥ i`. -/
theorem spawn_boid_from_cases (position : Vector2 F) (BOIDS : Store F) (d : Nat) :
    ∀ i : Nat, MAX_N_BOIDS - i = d →
      (spawn_boid_from position BOIDS i = (-1, BOIDS) ∧
          ∀ j : Fin MAX_N_BOIDS, i ≤ j.val → (BOIDS j).is_spawned = true) ∨
      (∃ k : Fin MAX_N_BOIDS, i ≤ k.val ∧ (BOIDS k).is_spawned = false ∧
          (∀ j : Fin MAX_N_BOIDS, i ≤ j.val → j < k → (BOIDS j).is_spawned = true) ∧
          spawn_boid_from position BOIDS i =
            ((k.val : Int), Function.update BOIDS k (spawn_init (BOIDS k) position))) := by
  induction d with
  | zero =>
    intro i hi
    left
    have hge : ¬ i < MAX_N_BOIDS := by omega
    refine ⟨?_, ?_⟩
    · rw [spawn_boid_from, dif_neg hge]
    · intro j hj
      exact absurd (lt_of_le_of_lt hj j.isLt) hge
  | succ d ih =>
    intro i hi
    have hlt : i < MAX_N_BOIDS := by omega
    rw [spawn_boid_from, dif_pos hlt]
    by_cases hs : (BOIDS ⟨i, hlt⟩).is_spawned = true
    · rw [if_pos hs]
      rcases ih (i + 1) (by omega) with ⟨hret, hall⟩ | ⟨k, hik, hk, hbelow, hret⟩
      · left
        refine ⟨hret, ?_⟩
        intro j hj
        rcases Nat.eq_or_lt_of_le hj with heq | hlt2
        · have : j = ⟨i, hlt⟩ := Fin.ext heq.symm
          rw [this]; exact hs
        · exact hall j hlt2
      · right
        refine ⟨k, by omega, hk, ?_, hret⟩
        intro j hj hjk
        rcases Nat.eq_or_lt_of_le hj with heq | hlt2
        · have : j = ⟨i, hlt⟩ := Fin.ext heq.symm
          rw [this]; exact hs
        · exact hbelow j hlt2 hjk
    · rw [if_neg hs]
      right
      refine ⟨⟨i, hlt⟩, le_refl _, by simpa using hs, ?_, rfl⟩
      intro j hj hjk
      exact absurd hjk (not_lt.mpr hj)

/-- The two outcomes of `spawn_boid`. -/
theorem spawn_boid_cases (position : Vector2 F) (BOIDS : Store F) :
    (spawn_boid position BOIDS = (-1, BOIDS) ∧
        ∀ j : Fin MAX_N_BOIDS, (BOIDS j).is_spawned = true) ∨
    (∃ k : Fin MAX_N_BOIDS, (BOIDS k).is_spawned = false ∧
        (∀ j : Fin MAX_N_BOIDS, j < k → (BOIDS j).is_spawned = true) ∧
        spawn_boid position BOIDS =
          ((k.val : Int), Function.update BOIDS k (spawn_init (BOIDS k) position))) := by
  rcases spawn_boid_from_cases position BOIDS (MAX_N_BOIDS - 0) 0 rfl with
    ⟨hret, hall⟩ | ⟨k, _, hk, hbelow, hret⟩
  · exact Or.inl ⟨hret, fun j => hall j (Nat.zero_le _)⟩
  · exact Or.inr ⟨k, hk, fun j hjk => hbelow j (Nat.zero_le _) hjk, hret⟩

end SpawnFacts

section SpawnCapacity

variable {F : Type} [Mul F] [OfScientific F]

theorem spawn_boid_of_filled_to (position : Vector2 F) (BOIDS : Store F) (k : Nat)
    (hk : k < MAX_N_BOIDS) (hf : filled_to k BOIDS) :
    (spawn_boid position BOIDS).1 = (k : Int) ∧
      filled_to (k + 1) (spawn_boid position BOIDS).2 := by
  rcases spawn_boid_cases position BOIDS with ⟨_, hall⟩ | ⟨i, hi, hbelow, hret⟩
  · have h1 := hall ⟨k, hk⟩
    have h2 := hf ⟨k, hk⟩
    simp [h1] at h2
  · have hik : i.val = k := by
      have h1 := hf i
      rw [hi] at h1
      have hge : k ≤ i.val := by
        by_contra hcon
        simp [Nat.lt_of_not_le hcon] at h1
      rcases Nat.eq_or_lt_of_le hge with heq | hlt
      · exact heq.symm
      · have h2 := hbelow ⟨k, hk⟩ (by simpa [Fin.lt_def] using hlt)
        have h3 := hf ⟨k, hk⟩
        simp [h2] at h3
    rw [hret]
    refine ⟨by simp [hik], ?_⟩
    intro j
    by_cases hji : j = i
    · subst hji
      simp [spawn_init_is_spawned, hik]
    · have hne : j.val ≠ k := fun h => hji (Fin.ext (h.trans hik.symm))
      simp only [Function.update_noteq hji]
      rw [hf j]
      simp only [decide_eq_decide]
      omega

theorem spawn_all_of_filled_to (ps : List (Vector2 F)) :
    ∀ (k : Nat) (BOIDS : Store F), k + ps.length = MAX_N_BOIDS → filled_to k BOIDS →
      (spawn_all ps BOIDS).1 = (List.range' k ps.length).map Int.ofNat ∧
        filled_to MAX_N_BOIDS (spawn_all ps BOIDS).2 := by
  induction ps with
  | nil =>
    intro k BOIDS hk hf
    simp only [List.length_nil, Nat.add_zero] at hk
    subst hk
    exact ⟨rfl, hf⟩
  | cons p rest ih =>
    intro k BOIDS hk hf
    simp only [List.length_cons] at hk
    obtain ⟨h1, h2⟩ := spawn_boid_of_filled_to p BOIDS k (by omega) hf
    obtain ⟨h3, h4⟩ := ih (k + 1) (spawn_boid p BOIDS).2 (by omega) h2
    refine ⟨?_, h4⟩
    simp only [spawn_all, List.length_cons, List.range'_succ, List.map_cons, h1, h3]
    rfl

omit [Mul F] [OfScientific F] in
theorem active_count_le (BOIDS : Store F) : active_count BOIDS ≤ MAX_N_BOIDS := by
  unfold active_count
  calc (Finset.univ.filter (fun i => (BOIDS i).is_spawned = true)).card
      ≤ (Finset.univ : Finset (Fin MAX_N_BOIDS)).card := Finset.card_filter_le _ _
    _ = MAX_N_BOIDS := by rw [Finset.card_univ, Fintype.card_fin]

theorem active_count_spawn_init (position : Vector2 F) (BOIDS : Store F)
    (k : Fin MAX_N_BOIDS) (hk : (BOIDS k).is_spawned = false) :
    active_count (Function.update BOIDS k (spawn_init (BOIDS k) position)) =
      active_count BOIDS + 1 := by
  unfold active_count
  have hset : Finset.univ.filter
        (fun i => (Function.update BOIDS k (spawn_init (BOIDS k) position) i).is_spawned = true)
      = insert k (Finset.univ.filter (fun i => (BOIDS i).is_spawned = true)) := by
    ext j
    by_cases hjk : j = k
    · subst hjk
      simp [spawn_init_is_spawned]
    · simp [Function.update_noteq hjk, hjk]
  rw [hset, Finset.card_insert_of_not_mem]
  simp [hk]

end SpawnCapacity

section SpawnClaims

variable {F : Type} [Mul F] [OfScientific F]

/-- C1: when some slot is not spawned, `spawn_boid position` returns the smallest index `i` of an
unspawned slot, slot `i` is spawned afterwards and holds `position`, and every other slot is
unchanged. -/
theorem spawn_boid_claims_first_free (position : Vector2 F) (BOIDS : Store F)
    (hfree : ∃ k : Fin MAX_N_BOIDS, (BOIDS k).is_spawned = false) :
    ∃ i : Fin MAX_N_BOIDS,
      (spawn_boid position BOIDS).1 = Int.ofNat i.val ∧
      (BOIDS i).is_spawned = false ∧
      (∀ j : Fin MAX_N_BOIDS, (BOIDS j).is_spawned = false → i ≤ j) ∧
      ((spawn_boid position BOIDS).2 i).is_spawned = true ∧
      ((spawn_boid position BOIDS).2 i).position = position ∧
      ∀ j : Fin MAX_N_BOIDS, j ≠ i → (spawn_boid position BOIDS).2 j = BOIDS j := by
  rcases spawn_boid_cases position BOIDS with ⟨_, hall⟩ | ⟨i, hi, hbelow, hret⟩
  · obtain ⟨k, hk⟩ := hfree
    rw [hall k] at hk
    exact absurd hk (by decide)
  · refine ⟨i, by rw [hret]; rfl, hi, ?_, ?_, ?_, ?_⟩
    · intro j hj
      by_contra hcon
      have := hbelow j (not_le.mp hcon)
      rw [hj] at this
      exact absurd this (by decide)
    · rw [hret]
      simp [spawn_init_is_spawned]
    · rw [hret]
      simp [spawn_init_position]
    · intro j hj
      rw [hret]
      exact Function.update_noteq hj _ _

/-- C2: `spawn_boid` returns `-1` exactly when every slot is spawned, and when it returns `-1`
the array after the call is the array before it. -/
theorem spawn_boid_no_capacity (position : Vector2 F) (BOIDS : Store F) :
    ((spawn_boid position BOIDS).1 = -1 ↔
        ∀ j : Fin MAX_N_BOIDS, (BOIDS j).is_spawned = true) ∧
    ((spawn_boid position BOIDS).1 = -1 → (spawn_boid position BOIDS).2 = BOIDS) := by
  rcases spawn_boid_cases position BOIDS with ⟨hret, hall⟩ | ⟨i, hi, _, hret⟩
  · rw [hret]
    exact ⟨⟨fun _ => hall, fun _ => rfl⟩, fun _ => rfl⟩
  · have hne : (spawn_boid position BOIDS).1 ≠ -1 := by
      rw [hret]
      show (i.val : Int) ≠ -1
      omega
    refine ⟨⟨fun h => absurd h hne, fun hall => ?_⟩, fun h => absurd h hne⟩
    rw [hall i] at hi
    exact absurd hi (by decide)

/-- C3: from an array with no spawned slot, `MAX_N_BOIDS` consecutive calls of `spawn_boid`
return `0, 1, ..., MAX_N_BOIDS - 1` (all succeed) and one more call returns `-1`; after any
sequence of calls from any array the number of spawned slots is at most `MAX_N_BOIDS`; and a
call that does not return `-1` raises the number of spawned slots by exactly one. -/
theorem spawn_boid_capacity (BOIDS : Store F)
    (hempty : ∀ j : Fin MAX_N_BOIDS, (BOIDS j).is_spawned = false)
    (ps : List (Vector2 F)) (hlen : ps.length = MAX_N_BOIDS) (q : Vector2 F) :
    (spawn_all ps BOIDS).1 = (List.range MAX_N_BOIDS).map Int.ofNat ∧
    (spawn_boid q (spawn_all ps BOIDS).2).1 = -1 ∧
    (∀ (B : Store F) (qs : List (Vector2 F)),
        active_count (spawn_all qs B).2 ≤ MAX_N_BOIDS) ∧
    (∀ (B : Store F) (p : Vector2 F), (spawn_boid p B).1 ≠ -1 →
        active_count (spawn_boid p B).2 = active_count B + 1) := by
  have hf : filled_to 0 BOIDS := by
    intro j
    rw [hempty j]
    simp
  obtain ⟨h1, h2⟩ := spawn_all_of_filled_to ps 0 BOIDS (by omega) hf
  refine ⟨?_, ?_, ?_, ?_⟩
  · rw [h1, hlen, List.range_eq_range']
  · rcases spawn_boid_cases q (spawn_all ps BOIDS).2 with ⟨hret, _⟩ | ⟨k, hk, _, _⟩
    · rw [hret]
    · rw [h2 k] at hk
      simp at hk
  · intro B qs
    exact active_count_le _
  · intro B p hp
    rcases spawn_boid_cases p B with ⟨hret, _⟩ | ⟨k, hk, _, hret⟩
    · rw [hret] at hp
      exact absurd rfl hp
    · rw [hret]
      exact active_count_spawn_init p B k hk

end SpawnClaims

/-! ### Concrete instances -/

theorem spawn_boid_claims_first_free_witness :
    (∃ k : Fin MAX_N_BOIDS, ((BOIDS_init : Store ℚ) k).is_spawned = false) ∧
    ∃ i : Fin MAX_N_BOIDS,
      (spawn_boid (⟨3, 4⟩ : Vector2 ℚ) BOIDS_init).1 = Int.ofNat i.val ∧
      ((BOIDS_init : Store ℚ) i).is_spawned = false ∧
      (∀ j : Fin MAX_N_BOIDS, ((BOIDS_init : Store ℚ) j).is_spawned = false → i ≤ j) ∧
      ((spawn_boid (⟨3, 4⟩ : Vector2 ℚ) BOIDS_init).2 i).is_spawned = true ∧
      ((spawn_boid (⟨3, 4⟩ : Vector2 ℚ) BOIDS_init).2 i).position = ⟨3, 4⟩ ∧
      ∀ j : Fin MAX_N_BOIDS, j ≠ i →
        (spawn_boid (⟨3, 4⟩ : Vector2 ℚ) BOIDS_init).2 j = BOIDS_init j :=
  ⟨⟨slot0, rfl⟩,
    spawn_boid_claims_first_free ⟨3, 4⟩ BOIDS_init ⟨slot0, rfl⟩⟩

theorem spawn_boid_capacity_witness :
    (∀ j : Fin MAX_N_BOIDS, ((BOIDS_init : Store ℚ) j).is_spawned = false) ∧
    (List.replicate MAX_N_BOIDS (⟨3, 4⟩ : Vector2 ℚ)).length = MAX_N_BOIDS ∧
    (spawn_all (List.replicate MAX_N_BOIDS (⟨3, 4⟩ : Vector2 ℚ)) BOIDS_init).1 =
      (List.range MAX_N_BOIDS).map Int.ofNat ∧
    (spawn_boid (⟨5, 6⟩ : Vector2 ℚ)
      (spawn_all (List.replicate MAX_N_BOIDS (⟨3, 4⟩ : Vector2 ℚ)) BOIDS_init).2).1 = -1 :=
  ⟨fun _ => rfl, List.length_replicate _ _,
    (spawn_boid_capacity BOIDS_init (fun _ => rfl)
      (List.replicate MAX_N_BOIDS ⟨3, 4⟩) (List.length_replicate _ _) ⟨5, 6⟩).1,
    (spawn_boid_capacity BOIDS_init (fun _ => rfl)
      (List.replicate MAX_N_BOIDS ⟨3, 4⟩) (List.length_replicate _ _) ⟨5, 6⟩).2.1⟩

/-! ## Defaults of a spawned boid (exact arithmetic) -/

/-- C9: when `spawn_boid position` returns the index `i`, slot `i` afterwards has velocity and
target `(0, 0)`, radius 1, mass 1, min_speed 50, max_speed 100, separation_radius
`radius * 10 = 10`, group_radius equal to separation_radius, and scores 15, 0.5, 0.8, 0.2; so
`mass > 0` and `0 < min_speed ≤ max_speed` hold for it. -/
theorem spawn_boid_defaults (position : Vector2 ℝ) (BOIDS : Store ℝ) (i : Fin MAX_N_BOIDS)
    (hret : (spawn_boid position BOIDS).1 = Int.ofNat i.val) :
    let b := (spawn_boid position BOIDS).2 i
    b.is_spawned = true ∧ b.position = position ∧
    b.velocity = ⟨0, 0⟩ ∧ b.target = ⟨0, 0⟩ ∧
    b.radius = 1 ∧ b.mass = 1 ∧ b.min_speed = 50 ∧ b.max_speed = 100 ∧
    b.separation_radius = b.radius * 10 ∧ b.separation_radius = 10 ∧
    b.group_radius = b.separation_radius ∧
    b.separation_score = 15 ∧ b.target_score = 0.5 ∧
    b.cohesion_score = 0.8 ∧ b.alignment_score = 0.2 ∧
    0 < b.mass ∧ 0 < b.min_speed ∧ b.min_speed ≤ b.max_speed := by
  rcases spawn_boid_cases position BOIDS with ⟨hneg, _⟩ | ⟨k, _, _, hk⟩
  · rw [hneg] at hret
    have h : (-1 : Int) = (i.val : Int) := hret
    omega
  · have hki : k = i := by
      rw [hk] at hret
      have h : (k.val : Int) = (i.val : Int) := hret
      exact Fin.ext (by omega)
    subst hki
    simp only [hk, Function.update_same, spawn_init, Vector2Zero]
    norm_num

theorem spawn_boid_defaults_witness :
    (spawn_boid (⟨3, 4⟩ : Vector2 ℝ) BOIDS_init).1 = Int.ofNat slot0.val ∧
    ((spawn_boid (⟨3, 4⟩ : Vector2 ℝ) BOIDS_init).2 slot0).min_speed = 50 ∧
    ((spawn_boid (⟨3, 4⟩ : Vector2 ℝ) BOIDS_init).2 slot0).separation_radius = 10 :=
  have h : (spawn_boid (⟨3, 4⟩ : Vector2 ℝ) BOIDS_init).1
      = Int.ofNat slot0.val := by
    rw [spawn_boid, spawn_boid_from]
    simp [BOIDS_init, MAX_N_BOIDS, slot0]
  ⟨h, (spawn_boid_defaults ⟨3, 4⟩ BOIDS_init slot0 h).2.2.2.2.2.2.1,
    (spawn_boid_defaults ⟨3, 4⟩ BOIDS_init slot0 h).2.2.2.2.2.2.2.2.2.1⟩

/-! ## `update`: which slots and fields an iteration writes -/

section UpdateFrame

variable {F : Type} [Add F] [Sub F] [Mul F] [Div F] [Neg F] [OfScientific F] [LibM F] [WideExpr F]
  [LT F] [LE F] [∀ a b : F, Decidable (a < b)] [∀ a b : F, Decidable (a ≤ b)]

theorem update_boid_of_ne (dt : F) (mouse : Vector2 F) (BOIDS : Store F)
    (i j : Fin MAX_N_BOIDS) (h : j ≠ i) : update_boid dt mouse BOIDS i j = BOIDS j := by
  unfold update_boid
  by_cases hs : (BOIDS i).is_spawned = true
  · simp [hs, Function.update_noteq h]
  · simp [hs]

theorem update_boid_of_not_spawned (dt : F) (mouse : Vector2 F) (BOIDS : Store F)
    (i : Fin MAX_N_BOIDS) (h : (BOIDS i).is_spawned = false) :
    update_boid dt mouse BOIDS i = BOIDS := by
  unfold update_boid
  simp [h]

theorem update_boid_self (dt : F) (mouse : Vector2 F) (BOIDS : Store F)
    (i : Fin MAX_N_BOIDS) (h : (BOIDS i).is_spawned = true) :
    update_boid dt mouse BOIDS i i =
      { BOIDS i with
        target := mouse
        velocity :=
          clamped_velocity dt (Function.update BOIDS i { BOIDS i with target := mouse }) i
        position := Vector2Add (BOIDS i).position
          (Vector2Scale
            (clamped_velocity dt (Function.update BOIDS i { BOIDS i with target := mouse }) i)
            dt) } := by
  unfold update_boid
  simp [h]

theorem update_loop_of_le (dt : F) (mouse : Vector2 F) (BOIDS : Store F) (n : Nat)
    (j : Fin MAX_N_BOIDS) (h : n ≤ j.val) : update_loop dt mouse BOIDS n j = BOIDS j := by
  induction n with
  | zero => rfl
  | succ n ih =>
    simp only [update_loop]
    split
    · rename_i hn
      rw [update_boid_of_ne dt mouse _ ⟨n, hn⟩ j (by intro hj; rw [hj] at h; simp at h)]
      exact ih (by omega)
    · exact ih (by omega)

theorem update_loop_of_lt (dt : F) (mouse : Vector2 F) (BOIDS : Store F) (n : Nat)
    (j : Fin MAX_N_BOIDS) (h : j.val < n) :
    update_loop dt mouse BOIDS n j = update_loop dt mouse BOIDS (j.val + 1) j := by
  induction n with
  | zero => exact absurd h (Nat.not_lt_zero _)
  | succ n ih =>
    rcases Nat.eq_or_lt_of_le (Nat.le_of_lt_succ h) with heq | hlt
    · rw [heq]
    · simp only [update_loop]
      split
      · rename_i hn
        rw [update_boid_of_ne dt mouse _ ⟨n, hn⟩ j
          (by intro hj; rw [hj] at hlt; simp at hlt)]
        exact ih hlt
      · exact ih hlt

/-- When the outer loop reaches slot `i`, the array is `mixed_store`. -/
theorem update_loop_eq_mixed_store (dt : F) (mouse : Vector2 F) (BOIDS : Store F)
    (i : Fin MAX_N_BOIDS) : update_loop dt mouse BOIDS i.val = mixed_store dt mouse BOIDS i := by
  funext j
  unfold mixed_store
  by_cases hji : j < i
  · rw [if_pos hji]
    unfold update
    rw [update_loop_of_lt dt mouse BOIDS i.val j hji,
      update_loop_of_lt dt mouse BOIDS MAX_N_BOIDS j j.isLt]
  · rw [if_neg hji]
    exact update_loop_of_le dt mouse BOIDS i.val j (not_lt.mp hji)

/-- The final value of slot `i` is written by iteration `i`. -/
theorem update_apply (dt : F) (mouse : Vector2 F) (BOIDS : Store F) (i : Fin MAX_N_BOIDS) :
    update dt mouse BOIDS i = update_boid dt mouse (mixed_store dt mouse BOIDS i) i i := by
  unfold update
  rw [update_loop_of_lt dt mouse BOIDS MAX_N_BOIDS i i.isLt]
  simp only [update_loop, dif_pos i.isLt, Fin.eta]
  rw [update_loop_eq_mixed_store]

theorem mixed_store_self (dt : F) (mouse : Vector2 F) (BOIDS : Store F)
    (i : Fin MAX_N_BOIDS) : mixed_store dt mouse BOIDS i i = BOIDS i := by
  unfold mixed_store
  rw [if_neg (lt_irrefl i)]

end UpdateFrame

section UpdateClaims

variable {F : Type} [Add F] [Sub F] [Mul F] [Div F] [Neg F] [OfScientific F] [LibM F] [WideExpr F]
  [LT F] [LE F] [∀ a b : F, Decidable (a < b)] [∀ a b : F, Decidable (a ≤ b)]

theorem store_at_eq (dt : F) (mouse : Vector2 F) (BOIDS : Store F) (i : Fin MAX_N_BOIDS) :
    store_at dt mouse BOIDS i =
      Function.update (mixed_store dt mouse BOIDS i) i { BOIDS i with target := mouse } := by
  unfold store_at
  rw [mixed_store_self]

theorem update_of_not_spawned (dt : F) (mouse : Vector2 F) (BOIDS : Store F)
    (j : Fin MAX_N_BOIDS) (h : (BOIDS j).is_spawned = false) :
    update dt mouse BOIDS j = BOIDS j := by
  rw [update_apply, update_boid_of_not_spawned, mixed_store_self]
  rw [mixed_store_self]
  exact h

theorem update_of_spawned (dt : F) (mouse : Vector2 F) (BOIDS : Store F)
    (i : Fin MAX_N_BOIDS) (h : (BOIDS i).is_spawned = true) :
    update dt mouse BOIDS i =
      { BOIDS i with
        target := mouse
        velocity := clamped_velocity dt (store_at dt mouse BOIDS i) i
        position := Vector2Add (BOIDS i).position
          (Vector2Scale (clamped_velocity dt (store_at dt mouse BOIDS i) i) dt) } := by
  rw [update_apply, update_boid_self _ _ _ _ (by rw [mixed_store_self]; exact h)]
  unfold store_at
  rw [mixed_store_self]

/-- C5: `update` changes only the velocity, position and target of spawned boids: in every slot
the flag `is_spawned`, radius, mass, min_speed, max_speed, separation_radius, group_radius, the
four scores (and the colour) are unchanged, and a slot that is not spawned is unchanged as a
whole. -/
theorem update_frame (dt : F) (mouse : Vector2 F) (BOIDS : Store F) (j : Fin MAX_N_BOIDS) :
    (update dt mouse BOIDS j).is_spawned = (BOIDS j).is_spawned ∧
    (update dt mouse BOIDS j).radius = (BOIDS j).radius ∧
    (update dt mouse BOIDS j).mass = (BOIDS j).mass ∧
    (update dt mouse BOIDS j).min_speed = (BOIDS j).min_speed ∧
    (update dt mouse BOIDS j).max_speed = (BOIDS j).max_speed ∧
    (update dt mouse BOIDS j).separation_radius = (BOIDS j).separation_radius ∧
    (update dt mouse BOIDS j).group_radius = (BOIDS j).group_radius ∧
    (update dt mouse BOIDS j).separation_score = (BOIDS j).separation_score ∧
    (update dt mouse BOIDS j).target_score = (BOIDS j).target_score ∧
    (update dt mouse BOIDS j).cohesion_score = (BOIDS j).cohesion_score ∧
    (update dt mouse BOIDS j).alignment_score = (BOIDS j).alignment_score ∧
    (update dt mouse BOIDS j).color = (BOIDS j).color ∧
    ((BOIDS j).is_spawned = false → update dt mouse BOIDS j = BOIDS j) := by
  by_cases hs : (BOIDS j).is_spawned = true
  · rw [update_of_spawned dt mouse BOIDS j hs]
    simp [hs]
  · have hs2 : (BOIDS j).is_spawned = false := by simpa using hs
    rw [update_of_not_spawned dt mouse BOIDS j hs2]
    simp

end UpdateClaims

/-! ## `cohesion_score` does not reach the motion -/

section Cohesion

variable {F : Type} [Add F] [Sub F] [Mul F] [Div F] [Neg F] [OfScientific F] [LibM F] [WideExpr F]
  [LT F] [LE F] [∀ a b : F, Decidable (a < b)] [∀ a b : F, Decidable (a ≤ b)]

omit [Neg F] in
theorem neighbor_body_set_cohesion (c : Fin MAX_N_BOIDS → F) (BOIDS : Store F)
    (i j : Fin MAX_N_BOIDS) (loc : Locals F) :
    neighbor_body (set_cohesion c BOIDS) i j loc = neighbor_body BOIDS i j loc := by
  simp only [neighbor_body, set_cohesion]

omit [Neg F] in
theorem neighbor_loop_set_cohesion (c : Fin MAX_N_BOIDS → F) (BOIDS : Store F)
    (i : Fin MAX_N_BOIDS) (init : Locals F) (n : Nat) :
    neighbor_loop (set_cohesion c BOIDS) i init n = neighbor_loop BOIDS i init n := by
  induction n with
  | zero => rfl
  | succ n ih => simp only [neighbor_loop, ih, neighbor_body_set_cohesion]

omit [Neg F] in
theorem neighbors_set_cohesion (c : Fin MAX_N_BOIDS → F) (BOIDS : Store F)
    (i : Fin MAX_N_BOIDS) : neighbors (set_cohesion c BOIDS) i = neighbors BOIDS i := by
  simp only [neighbors, neighbor_loop_set_cohesion]
  rfl

theorem clamped_velocity_set_cohesion (dt : F) (c : Fin MAX_N_BOIDS → F) (BOIDS : Store F)
    (i : Fin MAX_N_BOIDS) :
    clamped_velocity dt (set_cohesion c BOIDS) i = clamped_velocity dt BOIDS i := by
  simp only [clamped_velocity, integrated_velocity, aligned_velocity, alignment_angle,
    neighbors_set_cohesion]
  rfl

omit [Add F] [Sub F] [Mul F] [Div F] [Neg F] [OfScientific F] [LibM F] [WideExpr F] [LT F] [LE F]
  [∀ a b : F, Decidable (a < b)] [∀ a b : F, Decidable (a ≤ b)] in
theorem set_cohesion_update (c : Fin MAX_N_BOIDS → F) (BOIDS : Store F)
    (i : Fin MAX_N_BOIDS) (b : Boid F) :
    Function.update (set_cohesion c BOIDS) i { b with cohesion_score := c i } =
      set_cohesion c (Function.update BOIDS i b) := by
  funext j
  by_cases hj : j = i
  · subst hj
    simp [set_cohesion]
  · simp [set_cohesion, Function.update_noteq hj]

theorem update_boid_set_cohesion (dt : F) (mouse : Vector2 F) (c : Fin MAX_N_BOIDS → F)
    (BOIDS : Store F) (i : Fin MAX_N_BOIDS) :
    update_boid dt mouse (set_cohesion c BOIDS) i =
      set_cohesion c (update_boid dt mouse BOIDS i) := by
  by_cases hs : (BOIDS i).is_spawned = true
  · have hs2 : (set_cohesion c BOIDS i).is_spawned = true := hs
    have hB : Function.update (set_cohesion c BOIDS) i
          { set_cohesion c BOIDS i with target := mouse } =
        set_cohesion c (Function.update BOIDS i { BOIDS i with target := mouse }) := by
      rw [← set_cohesion_update]
      rfl
    funext j
    by_cases hj : j = i
    · subst hj
      rw [update_boid_self _ _ _ _ hs2, hB, clamped_velocity_set_cohesion]
      show _ = { update_boid dt mouse BOIDS j j with cohesion_score := c j }
      rw [update_boid_self _ _ _ _ hs]
      rfl
    · rw [update_boid_of_ne _ _ _ _ _ hj]
      show _ = { update_boid dt mouse BOIDS i j with cohesion_score := c j }
      rw [update_boid_of_ne _ _ _ _ _ hj]
      rfl
  · have hs1 : (BOIDS i).is_spawned = false := by simpa using hs
    have hs2 : (set_cohesion c BOIDS i).is_spawned = false := hs1
    rw [update_boid_of_not_spawned _ _ _ _ hs1, update_boid_of_not_spawned _ _ _ _ hs2]

theorem update_loop_set_cohesion (dt : F) (mouse : Vector2 F) (c : Fin MAX_N_BOIDS → F)
    (BOIDS : Store F) (n : Nat) :
    update_loop dt mouse (set_cohesion c BOIDS) n =
      set_cohesion c (update_loop dt mouse BOIDS n) := by
  induction n with
  | zero => rfl
  | succ n ih =>
    simp only [update_loop]
    split
    · rw [ih, update_boid_set_cohesion]
    · exact ih

/-- C6: the applied force is damping + separation + target, without the cohesion force: two
arrays that agree on everything except the `cohesion_score` fields give, for the same `dt` and
target, the same position and velocity in every slot after `update`. -/
theorem update_ignores_cohesion_score (dt : F) (mouse : Vector2 F) (BOIDS BOIDS2 : Store F)
    (hagree : ∀ j : Fin MAX_N_BOIDS,
      BOIDS2 j = { BOIDS j with cohesion_score := (BOIDS2 j).cohesion_score })
    (i : Fin MAX_N_BOIDS) :
    (update dt mouse BOIDS2 i).position = (update dt mouse BOIDS i).position ∧
    (update dt mouse BOIDS2 i).velocity = (update dt mouse BOIDS i).velocity ∧
    integrated_velocity dt BOIDS2 i = integrated_velocity dt BOIDS i := by
  have h2 : BOIDS2 = set_cohesion (fun j => (BOIDS2 j).cohesion_score) BOIDS :=
    funext hagree
  have hint : integrated_velocity dt BOIDS2 i = integrated_velocity dt BOIDS i := by
    rw [h2]
    simp only [integrated_velocity, aligned_velocity, alignment_angle, neighbors_set_cohesion]
    rfl
  have hup : update dt mouse BOIDS2 =
      set_cohesion (fun j => (BOIDS2 j).cohesion_score) (update dt mouse BOIDS) := by
    conv_lhs => rw [h2]
    exact update_loop_set_cohesion dt mouse _ BOIDS MAX_N_BOIDS
  refine ⟨?_, ?_, hint⟩
  · simp only [hup, set_cohesion]
  · simp only [hup, set_cohesion]

end Cohesion

/-! ## Exact arithmetic: the `raymath.h` functions over the reals -/

section Exact

open Real

theorem sqrtf_real (x : ℝ) : sqrtf x = √x := rfl

theorem cosf_real (x : ℝ) : cosf x = Real.cos x := rfl

theorem sinf_real (x : ℝ) : sinf x = Real.sin x := rfl

theorem fabsf_real (x : ℝ) : fabsf x = |x| := rfl

theorem inv_one_add_real (x : ℝ) : inv_one_add x = 1 / (1 + x) := rfl

theorem sumsq_nonneg (a b : ℝ) : 0 ≤ a * a + b * b :=
  add_nonneg (mul_self_nonneg a) (mul_self_nonneg b)

theorem atan2f_zero_of_nonneg (x : ℝ) (hx : 0 ≤ x) : atan2f (0 : ℝ) x = 0 :=
  Complex.arg_ofReal_of_nonneg hx

/-- Over the reals the guard of `Vector2Normalize` is immaterial. -/
theorem Vector2Normalize_real (v : Vector2 ℝ) :
    Vector2Normalize v =
      ⟨v.x * (1 / √(v.x * v.x + v.y * v.y)), v.y * (1 / √(v.x * v.x + v.y * v.y))⟩ := by
  unfold Vector2Normalize
  simp only [sqrtf_real]
  split
  · norm_num
  · rename_i h
    have h0 : √(v.x * v.x + v.y * v.y) = 0 := by
      have hnn := Real.sqrt_nonneg (v.x * v.x + v.y * v.y)
      have hle : √(v.x * v.x + v.y * v.y) ≤ 0 := by
        have h3 : ¬ (0 : ℝ) < √(v.x * v.x + v.y * v.y) := by
          intro hpos
          apply h
          norm_num
          exact Real.sqrt_pos.mp hpos
        exact not_lt.mp h3
      exact le_antisymm hle hnn
    have hsum : v.x * v.x + v.y * v.y = 0 :=
      (Real.sqrt_eq_zero (sumsq_nonneg v.x v.y)).mp h0
    have hx : v.x = 0 := by nlinarith [mul_self_nonneg v.x, mul_self_nonneg v.y]
    have hy : v.y = 0 := by nlinarith [mul_self_nonneg v.x, mul_self_nonneg v.y]
    rw [hx, hy]
    norm_num

theorem Vector2Length_pos (v : Vector2 ℝ) (hv : v ≠ Vector2Zero) : 0 < Vector2Length v := by
  show 0 < √(v.x * v.x + v.y * v.y)
  apply Real.sqrt_pos.mpr
  have hne : v.x ≠ 0 ∨ v.y ≠ 0 := by
    by_contra hcon
    push_neg at hcon
    apply hv
    ext
    · rw [hcon.1]; unfold Vector2Zero; norm_num
    · rw [hcon.2]; unfold Vector2Zero; norm_num
  rcases hne with h | h
  · have := mul_self_pos.mpr h
    nlinarith [mul_self_nonneg v.y]
  · have := mul_self_pos.mpr h
    nlinarith [mul_self_nonneg v.x]

/-- A non-zero vector, normalised and scaled by `s`, has length `|s|`. -/
theorem Vector2Length_scale_normalize (v : Vector2 ℝ) (s : ℝ) (hv : v ≠ Vector2Zero) :
    Vector2Length (Vector2Scale (Vector2Normalize v) s) = |s| := by
  have hL := Vector2Length_pos v hv
  rw [Vector2Normalize_real]
  simp only [Vector2Length, sqrtf_real, Vector2Scale] at hL ⊢
  have hsq : √(v.x * v.x + v.y * v.y) * √(v.x * v.x + v.y * v.y) = v.x * v.x + v.y * v.y :=
    Real.mul_self_sqrt (sumsq_nonneg v.x v.y)
  rw [← Real.sqrt_mul_self_eq_abs]
  congr 1
  generalize √(v.x * v.x + v.y * v.y) = L at hL hsq
  have hne : L ≠ 0 := ne_of_gt hL
  field_simp
  linear_combination (-(s * s)) * hsq

theorem Clamp_bounds (value lo hi : ℝ) (h : lo ≤ hi) :
    lo ≤ Clamp value lo hi ∧ Clamp value lo hi ≤ hi := by
  unfold Clamp
  by_cases h1 : value < lo
  · simp only [if_pos h1]
    by_cases h2 : hi < lo
    · exact absurd h (not_le.mpr h2)
    · simp only [if_neg h2]
      exact ⟨le_refl _, h⟩
  · simp only [if_neg h1]
    by_cases h2 : hi < value
    · simp only [if_pos h2]
      exact ⟨h, le_refl _⟩
    · simp only [if_neg h2]
      exact ⟨not_lt.mp h1, not_lt.mp h2⟩

/-- The speed clamp of lines 173 to 175 on a non-zero integrated velocity. -/
theorem clamped_velocity_speed (dt : ℝ) (BOIDS : Store ℝ) (i : Fin MAX_N_BOIDS)
    (hmin : 0 < (BOIDS i).min_speed) (hle : (BOIDS i).min_speed ≤ (BOIDS i).max_speed)
    (hnz : integrated_velocity dt BOIDS i ≠ Vector2Zero) :
    (BOIDS i).min_speed ≤ Vector2Length (clamped_velocity dt BOIDS i) ∧
      Vector2Length (clamped_velocity dt BOIDS i) ≤ (BOIDS i).max_speed := by
  unfold clamped_velocity
  simp only
  rw [Vector2Length_scale_normalize _ _ hnz]
  have hb := Clamp_bounds (Vector2Length (integrated_velocity dt BOIDS i))
    (BOIDS i).min_speed (BOIDS i).max_speed hle
  rw [abs_of_pos (lt_of_lt_of_le hmin hb.1)]
  exact hb

end Exact

/-! ## The inner loop when few slots are spawned -/

section NeighborLoop

variable {F : Type} [Add F] [Sub F] [Mul F] [Div F] [OfScientific F] [LibM F] [WideExpr F]
  [LT F] [LE F] [∀ a b : F, Decidable (a < b)] [∀ a b : F, Decidable (a ≤ b)]

theorem neighbor_body_of_not_spawned (BOIDS : Store F) (i j : Fin MAX_N_BOIDS)
    (loc : Locals F) (h : (BOIDS j).is_spawned = false) :
    neighbor_body BOIDS i j loc = loc := by
  unfold neighbor_body
  simp [h]

theorem neighbor_body_self (BOIDS : Store F) (i : Fin MAX_N_BOIDS) (loc : Locals F) :
    neighbor_body BOIDS i i loc = loc := by
  unfold neighbor_body
  simp

/-- With no other spawned boid the inner loop leaves its locals as seeded. -/
theorem neighbor_loop_lone (BOIDS : Store F) (i : Fin MAX_N_BOIDS) (init : Locals F)
    (hlone : ∀ j : Fin MAX_N_BOIDS, j ≠ i → (BOIDS j).is_spawned = false) (n : Nat) :
    neighbor_loop BOIDS i init n = init := by
  induction n with
  | zero => rfl
  | succ n ih =>
    simp only [neighbor_loop]
    split
    · rename_i hn
      rw [ih]
      by_cases hj : (⟨n, hn⟩ : Fin MAX_N_BOIDS) = i
      · rw [hj]
        exact neighbor_body_self BOIDS i init
      · exact neighbor_body_of_not_spawned BOIDS i _ init (hlone _ hj)
    · exact ih

/-- With exactly one other spawned boid `k` the inner loop runs its body once, for `k`. -/
theorem neighbor_loop_pair (BOIDS : Store F) (i k : Fin MAX_N_BOIDS) (init : Locals F)
    (hpair : ∀ j : Fin MAX_N_BOIDS, j ≠ i → j ≠ k → (BOIDS j).is_spawned = false) (n : Nat) :
    neighbor_loop BOIDS i init n =
      if k.val < n then neighbor_body BOIDS i k init else init := by
  induction n with
  | zero => simp [neighbor_loop]
  | succ n ih =>
    simp only [neighbor_loop]
    split
    · rename_i hn
      rw [ih]
      by_cases hk : (⟨n, hn⟩ : Fin MAX_N_BOIDS) = k
      · have hkn : k.val = n := by rw [← hk]
        rw [if_neg (by omega), if_pos (by omega), hk]
      · have hkn : k.val ≠ n := fun h => hk (Fin.ext h.symm)
        by_cases hi : (⟨n, hn⟩ : Fin MAX_N_BOIDS) = i
        · rw [hi, neighbor_body_self]
          by_cases hlt : k.val < n
          · rw [if_pos hlt, if_pos (by omega)]
          · rw [if_neg hlt, if_neg (by omega)]
        · rw [neighbor_body_of_not_spawned BOIDS i _ _ (hpair _ hi hk)]
          by_cases hlt : k.val < n
          · rw [if_pos hlt, if_pos (by omega)]
          · rw [if_neg hlt, if_neg (by omega)]
    · rename_i hn
      rw [ih]
      have : k.val < n := lt_of_lt_of_le k.isLt (not_lt.mp hn)
      rw [if_pos this, if_pos (by omega)]

/-- A spawned boid outside both radii of boid `i` leaves the locals untouched. -/
theorem neighbor_body_of_far (BOIDS : Store F) (i j : Fin MAX_N_BOIDS) (loc : Locals F)
    (hsep : ¬ Vector2Distance (BOIDS i).position (BOIDS j).position
      ≤ (BOIDS i).separation_radius)
    (hgrp : ¬ Vector2Distance (BOIDS i).position (BOIDS j).position ≤ (BOIDS i).group_radius) :
    neighbor_body BOIDS i j loc = loc := by
  unfold neighbor_body
  simp only [if_neg hsep, if_neg hgrp]
  split
  · rfl
  · split <;> rfl

/-- With every other spawned boid outside both radii the inner loop leaves its locals as
seeded. -/
theorem neighbor_loop_isolated (BOIDS : Store F) (i : Fin MAX_N_BOIDS) (init : Locals F)
    (hiso : ∀ j : Fin MAX_N_BOIDS, j ≠ i → (BOIDS j).is_spawned = true →
      ¬ Vector2Distance (BOIDS i).position (BOIDS j).position ≤ (BOIDS i).separation_radius ∧
      ¬ Vector2Distance (BOIDS i).position (BOIDS j).position ≤ (BOIDS i).group_radius)
    (n : Nat) : neighbor_loop BOIDS i init n = init := by
  induction n with
  | zero => rfl
  | succ n ih =>
    simp only [neighbor_loop]
    split
    · rename_i hn
      rw [ih]
      by_cases hj : (⟨n, hn⟩ : Fin MAX_N_BOIDS) = i
      · rw [hj]
        exact neighbor_body_self BOIDS i init
      · by_cases hs : (BOIDS ⟨n, hn⟩).is_spawned = true
        · exact neighbor_body_of_far BOIDS i _ init (hiso _ hj hs).1 (hiso _ hj hs).2
        · exact neighbor_body_of_not_spawned BOIDS i _ init (by simpa using hs)
    · exact ih

theorem neighbors_isolated (BOIDS : Store F) (i : Fin MAX_N_BOIDS)
    (hiso : ∀ j : Fin MAX_N_BOIDS, j ≠ i → (BOIDS j).is_spawned = true →
      ¬ Vector2Distance (BOIDS i).position (BOIDS j).position ≤ (BOIDS i).separation_radius ∧
      ¬ Vector2Distance (BOIDS i).position (BOIDS j).position ≤ (BOIDS i).group_radius) :
    neighbors BOIDS i =
      { separation_vec := Vector2Zero
        group_center := Vector2Scale (BOIDS i).position (BOIDS i).mass
        group_velocity := (BOIDS i).velocity
        group_mass := (BOIDS i).mass } := by
  unfold neighbors
  exact neighbor_loop_isolated BOIDS i _ hiso MAX_N_BOIDS

theorem neighbors_lone (BOIDS : Store F) (i : Fin MAX_N_BOIDS)
    (hlone : ∀ j : Fin MAX_N_BOIDS, j ≠ i → (BOIDS j).is_spawned = false) :
    neighbors BOIDS i =
      { separation_vec := Vector2Zero
        group_center := Vector2Scale (BOIDS i).position (BOIDS i).mass
        group_velocity := (BOIDS i).velocity
        group_mass := (BOIDS i).mass } := by
  unfold neighbors
  exact neighbor_loop_lone BOIDS i _ hlone MAX_N_BOIDS

theorem neighbors_pair (BOIDS : Store F) (i k : Fin MAX_N_BOIDS)
    (hpair : ∀ j : Fin MAX_N_BOIDS, j ≠ i → j ≠ k → (BOIDS j).is_spawned = false) :
    neighbors BOIDS i =
      neighbor_body BOIDS i k
        { separation_vec := Vector2Zero
          group_center := Vector2Scale (BOIDS i).position (BOIDS i).mass
          group_velocity := (BOIDS i).velocity
          group_mass := (BOIDS i).mass } := by
  unfold neighbors
  simp only
  rw [neighbor_loop_pair BOIDS i k _ hpair MAX_N_BOIDS, if_pos k.isLt]

/-- What one iteration of the inner loop does to `separation_vec`. -/
theorem neighbor_body_separation_vec (BOIDS : Store F) (i j : Fin MAX_N_BOIDS)
    (loc : Locals F) :
    (neighbor_body BOIDS i j loc).separation_vec =
      if (BOIDS j).is_spawned = true ∧ j ≠ i ∧
          Vector2Distance (BOIDS i).position (BOIDS j).position ≤ (BOIDS i).separation_radius
      then Vector2Add loc.separation_vec
        (Vector2Scale (Vector2Normalize (Vector2Subtract (BOIDS i).position (BOIDS j).position))
          (inv_one_add (Vector2Distance (BOIDS i).position (BOIDS j).position
            * Vector2Distance (BOIDS i).position (BOIDS j).position)))
      else loc.separation_vec := by
  unfold neighbor_body
  by_cases hs : (BOIDS j).is_spawned = true
  · by_cases hij : i = j
    · simp [hs, hij]
    · have hji : j ≠ i := fun h => hij h.symm
      by_cases hsep :
          Vector2Distance (BOIDS i).position (BOIDS j).position ≤ (BOIDS i).separation_radius
      · by_cases hd :
            Vector2Distance (BOIDS i).position (BOIDS j).position ≤ (BOIDS i).group_radius
        · simp [hs, hij, hd, hji, hsep]
        · simp [hs, hij, hd, hji, hsep]
      · by_cases hd :
            Vector2Distance (BOIDS i).position (BOIDS j).position ≤ (BOIDS i).group_radius
        · simp [hs, hij, hd, hji, hsep]
        · simp [hs, hij, hd, hji, hsep]
  · simp [hs]

/-- What one iteration of the inner loop does to `group_velocity`. -/
theorem neighbor_body_group_velocity (BOIDS : Store F) (i j : Fin MAX_N_BOIDS)
    (loc : Locals F) :
    (neighbor_body BOIDS i j loc).group_velocity =
      if (BOIDS j).is_spawned = true ∧ j ≠ i ∧
          Vector2Distance (BOIDS i).position (BOIDS j).position ≤ (BOIDS i).group_radius
      then Vector2Add loc.group_velocity (BOIDS j).velocity
      else loc.group_velocity := by
  unfold neighbor_body
  by_cases hs : (BOIDS j).is_spawned = true
  · by_cases hij : i = j
    · simp [hs, hij]
    · have hji : j ≠ i := fun h => hij h.symm
      by_cases hsep :
          Vector2Distance (BOIDS i).position (BOIDS j).position ≤ (BOIDS i).separation_radius
      · by_cases hd :
            Vector2Distance (BOIDS i).position (BOIDS j).position ≤ (BOIDS i).group_radius
        · simp [hs, hij, hd, hji, hsep]
        · simp [hs, hij, hd, hji, hsep]
      · by_cases hd :
            Vector2Distance (BOIDS i).position (BOIDS j).position ≤ (BOIDS i).group_radius
        · simp [hs, hij, hd, hji, hsep]
        · simp [hs, hij, hd, hji, hsep]
  · simp [hs]

/-- With exactly one spawned boid `k` inside the group radius of boid `i`, the inner loop
leaves `group_velocity` equal to the sum of the two velocities. -/
theorem neighbor_loop_group_velocity (BOIDS : Store F) (i k : Fin MAX_N_BOIDS)
    (init : Locals F) (hki : k ≠ i) (hk : (BOIDS k).is_spawned = true)
    (hnear : Vector2Distance (BOIDS i).position (BOIDS k).position ≤ (BOIDS i).group_radius)
    (hfar : ∀ j : Fin MAX_N_BOIDS, j ≠ i → j ≠ k → (BOIDS j).is_spawned = true →
      ¬ Vector2Distance (BOIDS i).position (BOIDS j).position ≤ (BOIDS i).group_radius)
    (n : Nat) :
    (neighbor_loop BOIDS i init n).group_velocity =
      if k.val < n then Vector2Add init.group_velocity (BOIDS k).velocity
      else init.group_velocity := by
  induction n with
  | zero => simp [neighbor_loop]
  | succ n ih =>
    simp only [neighbor_loop]
    split
    · rename_i hn
      rw [neighbor_body_group_velocity, ih]
      by_cases hjk : (⟨n, hn⟩ : Fin MAX_N_BOIDS) = k
      · have hkn : k.val = n := by rw [← hjk]
        rw [hjk, if_pos ⟨hk, hki, hnear⟩, if_neg (by omega), if_pos (by omega)]
      · have hkn : k.val ≠ n := fun h => hjk (Fin.ext h.symm)
        have hcond : ¬ ((BOIDS ⟨n, hn⟩).is_spawned = true ∧ (⟨n, hn⟩ : Fin MAX_N_BOIDS) ≠ i ∧
            Vector2Distance (BOIDS i).position (BOIDS ⟨n, hn⟩).position
              ≤ (BOIDS i).group_radius) := by
          rintro ⟨h1, h2, h3⟩
          exact hfar _ h2 hjk h1 h3
        rw [if_neg hcond]
        by_cases hlt : k.val < n
        · rw [if_pos hlt, if_pos (by omega)]
        · rw [if_neg hlt, if_neg (by omega)]
    · rename_i hn
      rw [ih]
      have : k.val < n := lt_of_lt_of_le k.isLt (not_lt.mp hn)
      rw [if_pos this, if_pos (by omega)]

end NeighborLoop

theorem update_ignores_cohesion_score_witness :
    (∀ j : Fin MAX_N_BOIDS,
      set_cohesion (fun _ => (3 : ℝ)) (spawn_boid ⟨0, 0⟩ BOIDS_init).2 j =
        { (spawn_boid (⟨0, 0⟩ : Vector2 ℝ) BOIDS_init).2 j with
          cohesion_score :=
            (set_cohesion (fun _ => (3 : ℝ)) (spawn_boid ⟨0, 0⟩ BOIDS_init).2 j).cohesion_score })
    ∧ (update 0.1 ⟨10, 0⟩
        (set_cohesion (fun _ => (3 : ℝ)) (spawn_boid ⟨0, 0⟩ BOIDS_init).2) slot0).position =
      (update 0.1 ⟨10, 0⟩ (spawn_boid (⟨0, 0⟩ : Vector2 ℝ) BOIDS_init).2 slot0).position :=
  ⟨fun _ => rfl,
    (update_ignores_cohesion_score 0.1 ⟨10, 0⟩ (spawn_boid ⟨0, 0⟩ BOIDS_init).2
      (set_cohesion (fun _ => (3 : ℝ)) (spawn_boid ⟨0, 0⟩ BOIDS_init).2)
      (fun _ => rfl) slot0).1⟩

/-! ## A boid with no other spawned boid (exact arithmetic) -/

section Lone

open Real

theorem Vector2Angle_normalize_self (v : Vector2 ℝ) :
    Vector2Angle v (Vector2Normalize v) = 0 := by
  rw [Vector2Normalize_real]
  unfold Vector2Angle
  simp only
  have hdet : v.x * (v.y * (1 / √(v.x * v.x + v.y * v.y)))
      - v.y * (v.x * (1 / √(v.x * v.x + v.y * v.y))) = 0 := by ring
  rw [hdet]
  apply atan2f_zero_of_nonneg
  have h1 : 0 ≤ 1 / √(v.x * v.x + v.y * v.y) :=
    div_nonneg zero_le_one (Real.sqrt_nonneg _)
  have h2 : v.x * (v.x * (1 / √(v.x * v.x + v.y * v.y)))
      + v.y * (v.y * (1 / √(v.x * v.x + v.y * v.y)))
      = (v.x * v.x + v.y * v.y) * (1 / √(v.x * v.x + v.y * v.y)) := by ring
  rw [h2]
  exact mul_nonneg (sumsq_nonneg v.x v.y) h1

theorem Vector2Rotate_zero (v : Vector2 ℝ) : Vector2Rotate v 0 = v := by
  unfold Vector2Rotate
  simp [cosf_real, sinf_real]

theorem alignment_angle_isolated (dt : ℝ) (BOIDS : Store ℝ) (i : Fin MAX_N_BOIDS)
    (hiso : ∀ j : Fin MAX_N_BOIDS, j ≠ i → (BOIDS j).is_spawned = true →
      ¬ Vector2Distance (BOIDS i).position (BOIDS j).position ≤ (BOIDS i).separation_radius ∧
      ¬ Vector2Distance (BOIDS i).position (BOIDS j).position ≤ (BOIDS i).group_radius)
    (h0 : 0 ≤ (BOIDS i).alignment_score * dt) : alignment_angle dt BOIDS i = 0 := by
  unfold alignment_angle
  simp only [neighbors_isolated BOIDS i hiso, Vector2Angle_normalize_self, fabsf_real,
    abs_zero]
  rw [if_neg (not_lt.mpr h0)]

theorem integrated_velocity_isolated (dt : ℝ) (BOIDS : Store ℝ) (i : Fin MAX_N_BOIDS)
    (hiso : ∀ j : Fin MAX_N_BOIDS, j ≠ i → (BOIDS j).is_spawned = true →
      ¬ Vector2Distance (BOIDS i).position (BOIDS j).position ≤ (BOIDS i).separation_radius ∧
      ¬ Vector2Distance (BOIDS i).position (BOIDS j).position ≤ (BOIDS i).group_radius)
    (h0 : 0 ≤ (BOIDS i).alignment_score * dt) :
    integrated_velocity dt BOIDS i =
      ⟨(BOIDS i).velocity.x +
          (-(BOIDS i).velocity.x +
            ((BOIDS i).target.x - (BOIDS i).position.x) * (BOIDS i).target_score)
          * (1 / (BOIDS i).mass) * dt,
        (BOIDS i).velocity.y +
          (-(BOIDS i).velocity.y +
            ((BOIDS i).target.y - (BOIDS i).position.y) * (BOIDS i).target_score)
          * (1 / (BOIDS i).mass) * dt⟩ := by
  unfold integrated_velocity aligned_velocity
  simp only [alignment_angle_isolated dt BOIDS i hiso h0, neighbors_isolated BOIDS i hiso,
    Vector2Rotate_zero, Vector2Add, Vector2Scale, Vector2Subtract, Vector2Zero]
  ext
  · norm_num
  · norm_num

theorem isolated_of_lone (BOIDS : Store ℝ) (i : Fin MAX_N_BOIDS)
    (hlone : ∀ j : Fin MAX_N_BOIDS, j ≠ i → (BOIDS j).is_spawned = false) :
    ∀ j : Fin MAX_N_BOIDS, j ≠ i → (BOIDS j).is_spawned = true →
      ¬ Vector2Distance (BOIDS i).position (BOIDS j).position ≤ (BOIDS i).separation_radius ∧
      ¬ Vector2Distance (BOIDS i).position (BOIDS j).position ≤ (BOIDS i).group_radius := by
  intro j hj hs
  rw [hlone j hj] at hs
  exact absurd hs (by decide)

theorem alignment_angle_lone (dt : ℝ) (BOIDS : Store ℝ) (i : Fin MAX_N_BOIDS)
    (hlone : ∀ j : Fin MAX_N_BOIDS, j ≠ i → (BOIDS j).is_spawned = false)
    (h0 : 0 ≤ (BOIDS i).alignment_score * dt) : alignment_angle dt BOIDS i = 0 :=
  alignment_angle_isolated dt BOIDS i (isolated_of_lone BOIDS i hlone) h0

theorem integrated_velocity_lone (dt : ℝ) (BOIDS : Store ℝ) (i : Fin MAX_N_BOIDS)
    (hlone : ∀ j : Fin MAX_N_BOIDS, j ≠ i → (BOIDS j).is_spawned = false)
    (h0 : 0 ≤ (BOIDS i).alignment_score * dt) :
    integrated_velocity dt BOIDS i =
      ⟨(BOIDS i).velocity.x +
          (-(BOIDS i).velocity.x +
            ((BOIDS i).target.x - (BOIDS i).position.x) * (BOIDS i).target_score)
          * (1 / (BOIDS i).mass) * dt,
        (BOIDS i).velocity.y +
          (-(BOIDS i).velocity.y +
            ((BOIDS i).target.y - (BOIDS i).position.y) * (BOIDS i).target_score)
          * (1 / (BOIDS i).mass) * dt⟩ := by
  exact integrated_velocity_isolated dt BOIDS i (isolated_of_lone BOIDS i hlone) h0

theorem mixed_store_slot0 (dt : ℝ) (mouse : Vector2 ℝ) (BOIDS : Store ℝ) :
    mixed_store dt mouse BOIDS slot0 = BOIDS := by
  funext j
  unfold mixed_store
  rw [if_neg]
  intro h
  exact absurd h (Nat.not_lt_zero _)

end Lone

/-! ## The speed bound in exact arithmetic -/

section Speed

/-- In exact arithmetic (the statement is false in binary32): in an array whose spawned boids
have `mass > 0` and `0 < min_speed ≤ max_speed`, for `dt > 0` and any target, every spawned
boid whose velocity after the force integration of line 171 is not the zero vector ends
`update` with `min_speed ≤ |velocity| ≤ max_speed`. -/
theorem update_speed_bound_exact (dt : ℝ) (mouse : Vector2 ℝ) (BOIDS : Store ℝ)
    (hpre : ∀ j : Fin MAX_N_BOIDS, (BOIDS j).is_spawned = true →
      0 < (BOIDS j).mass ∧ 0 < (BOIDS j).min_speed ∧ (BOIDS j).min_speed ≤ (BOIDS j).max_speed)
    (hdt : 0 < dt) (i : Fin MAX_N_BOIDS) (hi : (BOIDS i).is_spawned = true)
    (hnz : integrated_velocity dt (store_at dt mouse BOIDS i) i ≠ Vector2Zero) :
    (BOIDS i).min_speed ≤ Vector2Length (update dt mouse BOIDS i).velocity ∧
      Vector2Length (update dt mouse BOIDS i).velocity ≤ (BOIDS i).max_speed := by
  obtain ⟨_, hmin, hle⟩ := hpre i hi
  have hS : store_at dt mouse BOIDS i i = { BOIDS i with target := mouse } := by
    rw [store_at_eq, Function.update_same]
  have h := clamped_velocity_speed dt (store_at dt mouse BOIDS i) i
    (by rw [hS]; exact hmin) (by rw [hS]; exact hle) hnz
  rw [hS] at h
  rw [update_of_spawned dt mouse BOIDS i hi]
  exact h

end Speed

/-! ## The alignment rotation with one neighbour in the group -/

section Alignment

open Real

theorem neighbors_group_velocity (BOIDS : Store ℝ) (i k : Fin MAX_N_BOIDS)
    (hki : k ≠ i) (hk : (BOIDS k).is_spawned = true)
    (hnear : Vector2Distance (BOIDS i).position (BOIDS k).position ≤ (BOIDS i).group_radius)
    (hfar : ∀ j : Fin MAX_N_BOIDS, j ≠ i → j ≠ k → (BOIDS j).is_spawned = true →
      ¬ Vector2Distance (BOIDS i).position (BOIDS j).position ≤ (BOIDS i).group_radius) :
    (neighbors BOIDS i).group_velocity = Vector2Add (BOIDS i).velocity (BOIDS k).velocity := by
  unfold neighbors
  simp only
  rw [neighbor_loop_group_velocity BOIDS i k _ hki hk hnear hfar MAX_N_BOIDS, if_pos k.isLt]

end Alignment

/-! ## Two boids on crossing courses -/

section Crossing

open Real

theorem slot1_ne_slot0 : slot1 ≠ slot0 := by decide

end Crossing

/-! ## Two boids in line: the pass is not double-buffered -/

section Convoy

open Real

theorem Vector2Distance_on_x (a b : ℝ) :
    Vector2Distance (⟨a, 0⟩ : Vector2 ℝ) ⟨b, 0⟩ = |a - b| := by
  simp only [Vector2Distance, sqrtf_real, sub_self, mul_zero, add_zero]
  exact Real.sqrt_mul_self_eq_abs _

theorem Vector2Normalize_on_x (a : ℝ) (ha : 0 < a) :
    Vector2Normalize (⟨a, 0⟩ : Vector2 ℝ) = ⟨1, 0⟩ := by
  rw [Vector2Normalize_real]
  simp only [mul_zero, add_zero, zero_mul]
  rw [Real.sqrt_mul_self ha.le]
  have hne : a ≠ 0 := ne_of_gt ha
  ext
  · show a * (1 / a) = 1
    field_simp
  · rfl

/-- The speed clamp on an integrated velocity `(w, 0)` with `min_speed ≤ w ≤ max_speed`. -/
theorem clamped_velocity_mid (dt : ℝ) (BOIDS : Store ℝ) (i : Fin MAX_N_BOIDS) (w : ℝ)
    (hint : integrated_velocity dt BOIDS i = ⟨w, 0⟩) (hw : 0 < w)
    (hmin : (BOIDS i).min_speed ≤ w) (hmax : w ≤ (BOIDS i).max_speed) :
    clamped_velocity dt BOIDS i = ⟨w, 0⟩ := by
  unfold clamped_velocity
  simp only [hint, Vector2Normalize_on_x w hw, Vector2Length, Vector2Scale, sqrtf_real]
  have hsq : √(w * w + 0 * 0) = w := by
    rw [mul_zero, add_zero, Real.sqrt_mul_self hw.le]
  have hclamp : Clamp w (BOIDS i).min_speed (BOIDS i).max_speed = w := by
    unfold Clamp
    simp only [if_neg (not_lt.mpr hmin), if_neg (not_lt.mpr hmax)]
  rw [hsq, hclamp]
  ext
  · show 1 * w = w
    ring
  · show 0 * w = 0
    ring

theorem convoy_slot0 :
    convoy slot0 = { spawn_init (BOIDS_init slot0) ⟨0, 0⟩ with velocity := ⟨50, 0⟩ } := by
  unfold convoy
  rw [if_pos rfl]

theorem convoy_slot1 :
    convoy slot1 = { spawn_init (BOIDS_init slot1) ⟨12, 0⟩ with velocity := ⟨50, 0⟩ } := by
  unfold convoy
  rw [if_neg slot1_ne_slot0, if_pos rfl]

theorem convoy_others (j : Fin MAX_N_BOIDS) (h0 : j ≠ slot0) (h1 : j ≠ slot1) :
    (convoy j).is_spawned = false := by
  unfold convoy
  rw [if_neg h0, if_neg h1]
  rfl

/-- Slot 0 of `convoy` is processed first, with slot 1 outside both radii. -/
theorem convoy_update_slot0 :
    update 0.1 ⟨300, 0⟩ convoy slot0 =
      { convoy slot0 with target := ⟨300, 0⟩, velocity := ⟨60, 0⟩, position := ⟨6, 0⟩ } := by
  have hs : (convoy slot0).is_spawned = true := by rw [convoy_slot0]; rfl
  have hS : store_at 0.1 ⟨300, 0⟩ convoy slot0 =
      Function.update convoy slot0 { convoy slot0 with target := ⟨300, 0⟩ } := by
    rw [store_at_eq, mixed_store_slot0]
  have hiso : ∀ j : Fin MAX_N_BOIDS, j ≠ slot0 →
      (store_at 0.1 ⟨300, 0⟩ convoy slot0 j).is_spawned = true →
      ¬ Vector2Distance (store_at 0.1 ⟨300, 0⟩ convoy slot0 slot0).position
          (store_at 0.1 ⟨300, 0⟩ convoy slot0 j).position
          ≤ (store_at 0.1 ⟨300, 0⟩ convoy slot0 slot0).separation_radius ∧
      ¬ Vector2Distance (store_at 0.1 ⟨300, 0⟩ convoy slot0 slot0).position
          (store_at 0.1 ⟨300, 0⟩ convoy slot0 j).position
          ≤ (store_at 0.1 ⟨300, 0⟩ convoy slot0 slot0).group_radius := by
    intro j hj hsp
    rw [hS] at hsp ⊢
    rw [Function.update_noteq hj] at hsp ⊢
    by_cases hj1 : j = slot1
    · rw [hj1, Function.update_same, convoy_slot0, convoy_slot1]
      simp only [spawn_init, Vector2Distance_on_x]
      norm_num
    · rw [convoy_others j hj hj1] at hsp
      exact absurd hsp (by decide)
  have hint : integrated_velocity 0.1 (store_at 0.1 ⟨300, 0⟩ convoy slot0) slot0 = ⟨60, 0⟩ := by
    rw [integrated_velocity_isolated _ _ _ hiso
      (by rw [hS, Function.update_same, convoy_slot0]; simp only [spawn_init]; norm_num)]
    rw [hS, Function.update_same, convoy_slot0]
    simp only [spawn_init]
    ext
    · norm_num
    · norm_num
  have hcl := clamped_velocity_mid 0.1 _ slot0 60 hint (by norm_num)
    (by rw [hS, Function.update_same, convoy_slot0]; simp only [spawn_init]; norm_num)
    (by rw [hS, Function.update_same, convoy_slot0]; simp only [spawn_init]; norm_num)
  rw [update_of_spawned _ _ _ _ hs, hcl, convoy_slot0]
  simp only [spawn_init, Vector2Add, Vector2Scale]
  norm_num

/-- The double-buffered reading of slot 1 of `convoy`: slot 0 is seen at `(0, 0)`, outside
both radii. -/
theorem convoy_snapshot_slot1 :
    (snapshot_update 0.1 ⟨300, 0⟩ convoy slot1).velocity = ⟨297 / 5, 0⟩ := by
  have hs : (convoy slot1).is_spawned = true := by rw [convoy_slot1]; rfl
  have hiso : ∀ j : Fin MAX_N_BOIDS, j ≠ slot1 →
      (Function.update convoy slot1 { convoy slot1 with target := ⟨300, 0⟩ } j).is_spawned
        = true →
      ¬ Vector2Distance
          (Function.update convoy slot1 { convoy slot1 with target := ⟨300, 0⟩ } slot1).position
          (Function.update convoy slot1 { convoy slot1 with target := ⟨300, 0⟩ } j).position
          ≤ (Function.update convoy slot1
              { convoy slot1 with target := ⟨300, 0⟩ } slot1).separation_radius ∧
      ¬ Vector2Distance
          (Function.update convoy slot1 { convoy slot1 with target := ⟨300, 0⟩ } slot1).position
          (Function.update convoy slot1 { convoy slot1 with target := ⟨300, 0⟩ } j).position
          ≤ (Function.update convoy slot1
              { convoy slot1 with target := ⟨300, 0⟩ } slot1).group_radius := by
    intro j hj hsp
    rw [Function.update_noteq hj] at hsp ⊢
    by_cases hj0 : j = slot0
    · rw [hj0, Function.update_same, convoy_slot0, convoy_slot1]
      simp only [spawn_init, Vector2Distance_on_x]
      norm_num
    · rw [convoy_others j hj0 hj] at hsp
      exact absurd hsp (by decide)
  have hint : integrated_velocity 0.1
      (Function.update convoy slot1 { convoy slot1 with target := ⟨300, 0⟩ }) slot1
      = ⟨297 / 5, 0⟩ := by
    rw [integrated_velocity_isolated _ _ _ hiso
      (by rw [Function.update_same, convoy_slot1]; simp only [spawn_init]; norm_num)]
    rw [Function.update_same, convoy_slot1]
    simp only [spawn_init]
    ext
    · norm_num
    · norm_num
  have hcl := clamped_velocity_mid 0.1 _ slot1 (297 / 5) hint (by norm_num)
    (by rw [Function.update_same, convoy_slot1]; simp only [spawn_init]; norm_num)
    (by rw [Function.update_same, convoy_slot1]; simp only [spawn_init]; norm_num)
  unfold snapshot_update
  rw [update_boid_self _ _ _ _ hs, hcl]

theorem convoy_store_at_slot1 :
    store_at 0.1 ⟨300, 0⟩ convoy slot1 slot1 = { convoy slot1 with target := ⟨300, 0⟩ } ∧
    store_at 0.1 ⟨300, 0⟩ convoy slot1 slot0 =
      { convoy slot0 with target := ⟨300, 0⟩, velocity := ⟨60, 0⟩, position := ⟨6, 0⟩ } ∧
    ∀ j : Fin MAX_N_BOIDS, j ≠ slot1 → j ≠ slot0 →
      (store_at 0.1 ⟨300, 0⟩ convoy slot1 j).is_spawned = false := by
  refine ⟨?_, ?_, ?_⟩
  · rw [store_at_eq, Function.update_same]
  · rw [store_at_eq, Function.update_noteq slot1_ne_slot0.symm]
    unfold mixed_store
    rw [if_pos (by decide), convoy_update_slot0]
  · intro j hj1 hj0
    rw [store_at_eq, Function.update_noteq hj1]
    unfold mixed_store
    have hnot : ¬ j < slot1 := by
      intro hlt
      apply hj0
      apply Fin.ext
      have h1 : j.val < 1 := hlt
      show j.val = 0
      omega
    rw [if_neg hnot]
    exact convoy_others j hj0 hj1

/-- The in-place pass on slot 1 of `convoy`: slot 0 has already moved to `(6, 0)`, inside
both radii, and pushes slot 1 away. -/
theorem convoy_update_slot1 :
    (update 0.1 ⟨300, 0⟩ convoy slot1).velocity = ⟨21993 / 370, 0⟩ := by
  obtain ⟨hT1, hT0, hTo⟩ := convoy_store_at_slot1
  have hs : (convoy slot1).is_spawned = true := by rw [convoy_slot1]; rfl
  have hsub : Vector2Subtract (⟨12, 0⟩ : Vector2 ℝ) ⟨6, 0⟩ = ⟨6, 0⟩ := by
    ext
    · show (12 : ℝ) - 6 = 6
      norm_num
    · show (0 : ℝ) - 0 = 0
      norm_num
  have hsepvec : (neighbors (store_at 0.1 ⟨300, 0⟩ convoy slot1) slot1).separation_vec
      = ⟨1 / 37, 0⟩ := by
    rw [neighbors_pair _ slot1 slot0 hTo, neighbor_body_separation_vec, hT0, hT1,
      convoy_slot0, convoy_slot1]
    simp only [spawn_init, Vector2Distance_on_x, hsub, Vector2Normalize_on_x 6 (by norm_num)]
    rw [if_pos ⟨trivial, slot1_ne_slot0.symm, by norm_num⟩]
    ext
    · simp only [Vector2Add, Vector2Scale, Vector2Zero, inv_one_add_real]
      norm_num
    · simp only [Vector2Add, Vector2Scale, Vector2Zero, inv_one_add_real]
      norm_num
  have hgv : (neighbors (store_at 0.1 ⟨300, 0⟩ convoy slot1) slot1).group_velocity
      = ⟨110, 0⟩ := by
    rw [neighbors_group_velocity _ slot1 slot0 slot1_ne_slot0.symm
      (by rw [hT0, convoy_slot0]; rfl)
      (by
        rw [hT0, hT1, convoy_slot0, convoy_slot1]
        simp only [spawn_init, Vector2Distance_on_x]
        norm_num)
      (by
        intro j hj1 hj0 hsp
        rw [hTo j hj1 hj0] at hsp
        exact absurd hsp (by decide))]
    rw [hT0, hT1, convoy_slot0, convoy_slot1]
    ext
    · simp only [Vector2Add]
      norm_num
    · simp only [Vector2Add]
      norm_num
  have hangle : alignment_angle 0.1 (store_at 0.1 ⟨300, 0⟩ convoy slot1) slot1 = 0 := by
    unfold alignment_angle
    simp only [hgv, Vector2Normalize_on_x 110 (by norm_num), hT1, convoy_slot1, spawn_init,
      Vector2Angle, fabsf_real]
    have hz : atan2f ((50 : ℝ) * 0 - 0 * 1) (50 * 1 + 0 * 0) = 0 := by
      have e1 : (50 : ℝ) * 0 - 0 * 1 = 0 := by ring
      rw [e1]
      exact atan2f_zero_of_nonneg _ (by norm_num)
    rw [hz]
    norm_num
  have hint : integrated_velocity 0.1 (store_at 0.1 ⟨300, 0⟩ convoy slot1) slot1
      = ⟨21993 / 370, 0⟩ := by
    unfold integrated_velocity aligned_velocity
    simp only [hangle, hsepvec, Vector2Rotate_zero, hT1, convoy_slot1, spawn_init,
      Vector2Add, Vector2Scale, Vector2Subtract]
    ext
    · norm_num
    · norm_num
  have hcl := clamped_velocity_mid 0.1 _ slot1 (21993 / 370) hint (by norm_num)
    (by rw [hT1, convoy_slot1]; simp only [spawn_init]; norm_num)
    (by rw [hT1, convoy_slot1]; simp only [spawn_init]; norm_num)
  rw [update_of_spawned _ _ _ _ hs, hcl]

/-- On `convoy` the in-place pass and the double-buffered reading disagree on slot 1. -/
theorem convoy_update_ne_snapshot :
    (update 0.1 ⟨300, 0⟩ convoy slot1).velocity
      ≠ (snapshot_update 0.1 ⟨300, 0⟩ convoy slot1).velocity := by
  rw [convoy_update_slot1, convoy_snapshot_slot1]
  intro h
  have hx := congrArg Vector2.x h
  norm_num at hx

end Convoy

/-! ## The consistency model of `update` -/

section InPlace

variable {F : Type} [Add F] [Sub F] [Mul F] [Div F] [Neg F] [OfScientific F] [LibM F] [WideExpr F]
  [LT F] [LE F] [∀ a b : F, Decidable (a < b)] [∀ a b : F, Decidable (a ≤ b)]

/-- C10: `update` is an in-place pass in slot order: the value of slot `i` after the call is
the one-boid update of slot `i` evaluated on the array in which every slot `j < i` already
holds its value after the call and every other slot still holds its value before the call.
When no slot below `i` is spawned, that array is the array before the call, so slot `i` is
computed from the snapshot. The pass is not the double-buffered one: in exact arithmetic there
is an array on which the two disagree. -/
theorem update_in_place (dt : F) (mouse : Vector2 F) (BOIDS : Store F)
    (i : Fin MAX_N_BOIDS) :
    update dt mouse BOIDS i = update_boid dt mouse (mixed_store dt mouse BOIDS i) i i ∧
    (∀ j : Fin MAX_N_BOIDS, j < i → mixed_store dt mouse BOIDS i j = update dt mouse BOIDS j) ∧
    (∀ j : Fin MAX_N_BOIDS, i ≤ j → mixed_store dt mouse BOIDS i j = BOIDS j) ∧
    ((∀ j : Fin MAX_N_BOIDS, j < i → (BOIDS j).is_spawned = false) →
      update dt mouse BOIDS i = snapshot_update dt mouse BOIDS i) ∧
    (∃ (dt' : ℝ) (mouse' : Vector2 ℝ) (B : Store ℝ) (k : Fin MAX_N_BOIDS),
      (update dt' mouse' B k).velocity ≠ (snapshot_update dt' mouse' B k).velocity) := by
  refine ⟨update_apply dt mouse BOIDS i, ?_, ?_, ?_, ?_⟩
  · intro j hj
    unfold mixed_store
    rw [if_pos hj]
  · intro j hj
    unfold mixed_store
    rw [if_neg (not_lt.mpr hj)]
  · intro hlow
    have hmix : mixed_store dt mouse BOIDS i = BOIDS := by
      funext j
      unfold mixed_store
      by_cases hj : j < i
      · rw [if_pos hj]
        exact update_of_not_spawned dt mouse BOIDS j (hlow j hj)
      · rw [if_neg hj]
    rw [update_apply, hmix]
    rfl
  · exact ⟨0.1, ⟨300, 0⟩, convoy, slot1, convoy_update_ne_snapshot⟩

end InPlace

/-! ## The group aggregates of the inner loop -/

section GroupAggregates

variable {F : Type} [Add F] [Sub F] [Mul F] [Div F] [OfScientific F] [LibM F] [WideExpr F]
  [LT F] [LE F] [∀ a b : F, Decidable (a < b)] [∀ a b : F, Decidable (a ≤ b)]

/-- What one iteration of the inner loop does to `group_center`. -/
theorem neighbor_body_group_center (BOIDS : Store F) (i j : Fin MAX_N_BOIDS)
    (loc : Locals F) :
    (neighbor_body BOIDS i j loc).group_center =
      if (BOIDS j).is_spawned = true ∧ j ≠ i ∧
          Vector2Distance (BOIDS i).position (BOIDS j).position ≤ (BOIDS i).group_radius
      then Vector2Add loc.group_center (Vector2Scale (BOIDS j).position (BOIDS j).mass)
      else loc.group_center := by
  unfold neighbor_body
  by_cases hs : (BOIDS j).is_spawned = true
  · by_cases hij : i = j
    · simp [hs, hij]
    · have hji : j ≠ i := fun h => hij h.symm
      by_cases hsep :
          Vector2Distance (BOIDS i).position (BOIDS j).position ≤ (BOIDS i).separation_radius
      · by_cases hd :
            Vector2Distance (BOIDS i).position (BOIDS j).position ≤ (BOIDS i).group_radius
        · simp [hs, hij, hd, hji, hsep]
        · simp [hs, hij, hd, hji, hsep]
      · by_cases hd :
            Vector2Distance (BOIDS i).position (BOIDS j).position ≤ (BOIDS i).group_radius
        · simp [hs, hij, hd, hji, hsep]
        · simp [hs, hij, hd, hji, hsep]
  · simp [hs]

/-- What one iteration of the inner loop does to `group_mass`. -/
theorem neighbor_body_group_mass (BOIDS : Store F) (i j : Fin MAX_N_BOIDS)
    (loc : Locals F) :
    (neighbor_body BOIDS i j loc).group_mass =
      if (BOIDS j).is_spawned = true ∧ j ≠ i ∧
          Vector2Distance (BOIDS i).position (BOIDS j).position ≤ (BOIDS i).group_radius
      then loc.group_mass + (BOIDS j).mass
      else loc.group_mass := by
  unfold neighbor_body
  by_cases hs : (BOIDS j).is_spawned = true
  · by_cases hij : i = j
    · simp [hs, hij]
    · have hji : j ≠ i := fun h => hij h.symm
      by_cases hsep :
          Vector2Distance (BOIDS i).position (BOIDS j).position ≤ (BOIDS i).separation_radius
      · by_cases hd :
            Vector2Distance (BOIDS i).position (BOIDS j).position ≤ (BOIDS i).group_radius
        · simp [hs, hij, hd, hji, hsep]
        · simp [hs, hij, hd, hji, hsep]
      · by_cases hd :
            Vector2Distance (BOIDS i).position (BOIDS j).position ≤ (BOIDS i).group_radius
        · simp [hs, hij, hd, hji, hsep]
        · simp [hs, hij, hd, hji, hsep]
  · simp [hs]

/-- With no other spawned boid inside the group radius of boid `i`, the inner loop leaves the
three group aggregates as seeded (the separation vector may still change). -/
theorem neighbor_loop_group_alone (BOIDS : Store F) (i : Fin MAX_N_BOIDS) (init : Locals F)
    (hfar : ∀ j : Fin MAX_N_BOIDS, j ≠ i → (BOIDS j).is_spawned = true →
      ¬ Vector2Distance (BOIDS i).position (BOIDS j).position ≤ (BOIDS i).group_radius)
    (n : Nat) :
    (neighbor_loop BOIDS i init n).group_velocity = init.group_velocity ∧
    (neighbor_loop BOIDS i init n).group_center = init.group_center ∧
    (neighbor_loop BOIDS i init n).group_mass = init.group_mass := by
  induction n with
  | zero => exact ⟨rfl, rfl, rfl⟩
  | succ n ih =>
    simp only [neighbor_loop]
    split
    · rename_i hn
      have hcond : ¬ ((BOIDS ⟨n, hn⟩).is_spawned = true ∧ (⟨n, hn⟩ : Fin MAX_N_BOIDS) ≠ i ∧
          Vector2Distance (BOIDS i).position (BOIDS ⟨n, hn⟩).position
            ≤ (BOIDS i).group_radius) := by
        rintro ⟨h1, h2, h3⟩
        exact hfar _ h2 h1 h3
      rw [neighbor_body_group_velocity, neighbor_body_group_center, neighbor_body_group_mass,
        if_neg hcond, if_neg hcond, if_neg hcond]
      exact ih
    · exact ih

end GroupAggregates

/-! ## An agent with no one else in its group; the influence weight (exact arithmetic) -/

section IsolatedGroup

/-- In exact arithmetic (the last equality is false in binary32 for some masses): for a
spawned boid with `mass > 0` and no other spawned boid within its group radius, the inner loop
ends with `group_velocity` equal to the boid's velocity, and `group_center` after the division
by `group_mass` (line 143) equals the boid's position. -/
theorem isolated_group_exact (BOIDS : Store ℝ) (i : Fin MAX_N_BOIDS)
    (hi : (BOIDS i).is_spawned = true) (hm : 0 < (BOIDS i).mass)
    (hfar : ∀ j : Fin MAX_N_BOIDS, j ≠ i → (BOIDS j).is_spawned = true →
      ¬ Vector2Distance (BOIDS i).position (BOIDS j).position ≤ (BOIDS i).group_radius) :
    (neighbors BOIDS i).group_velocity = (BOIDS i).velocity ∧
    (neighbors BOIDS i).group_mass = (BOIDS i).mass ∧
    group_centroid BOIDS i = (BOIDS i).position := by
  have h := neighbor_loop_group_alone BOIDS i
    { separation_vec := Vector2Zero
      group_center := Vector2Scale (BOIDS i).position (BOIDS i).mass
      group_velocity := (BOIDS i).velocity
      group_mass := (BOIDS i).mass } hfar MAX_N_BOIDS
  obtain ⟨hv, hc, hmass⟩ := h
  have hv2 : (neighbors BOIDS i).group_velocity = (BOIDS i).velocity := hv
  have hc2 : (neighbors BOIDS i).group_center
      = Vector2Scale (BOIDS i).position (BOIDS i).mass := hc
  have hm2 : (neighbors BOIDS i).group_mass = (BOIDS i).mass := hmass
  refine ⟨hv2, hm2, ?_⟩
  unfold group_centroid
  simp only [hc2, hm2, Vector2Scale]
  have hne : (BOIDS i).mass ≠ 0 := ne_of_gt hm
  ext
  · show (BOIDS i).position.x * (BOIDS i).mass * (1.0 / (BOIDS i).mass) = (BOIDS i).position.x
    norm_num
    field_simp
  · show (BOIDS i).position.y * (BOIDS i).mass * (1.0 / (BOIDS i).mass) = (BOIDS i).position.y
    norm_num
    field_simp

/-- In exact arithmetic (the interval and the equivalence are false in binary32): for every
pair of positions the denominator of the influence weight `1 / (1 + distance²)` is at least 1,
the weight lies in `(0, 1]`, and it equals 1 exactly when the distance is 0. -/
theorem influence_exact (p q : Vector2 ℝ) :
    1 ≤ 1 + Vector2Distance p q * Vector2Distance p q ∧
    influence p q = 1 / (1 + Vector2Distance p q * Vector2Distance p q) ∧
    0 < influence p q ∧ influence p q ≤ 1 ∧
    (influence p q = 1 ↔ Vector2Distance p q = 0) ∧
    (∀ (BOIDS : Store ℝ) (i j : Fin MAX_N_BOIDS) (loc : Locals ℝ),
      (BOIDS j).is_spawned = true → j ≠ i →
      Vector2Distance (BOIDS i).position (BOIDS j).position ≤ (BOIDS i).separation_radius →
      (neighbor_body BOIDS i j loc).separation_vec =
        Vector2Add loc.separation_vec
          (Vector2Scale
            (Vector2Normalize (Vector2Subtract (BOIDS i).position (BOIDS j).position))
            (influence (BOIDS i).position (BOIDS j).position))) := by
  have hsq : 0 ≤ Vector2Distance p q * Vector2Distance p q := mul_self_nonneg _
  have hden : (0 : ℝ) < 1 + Vector2Distance p q * Vector2Distance p q := by linarith
  have heq : influence p q = 1 / (1 + Vector2Distance p q * Vector2Distance p q) := by
    unfold influence
    simp only [inv_one_add_real]
  refine ⟨by linarith, heq, ?_, ?_, ?_, ?_⟩
  · rw [heq]
    exact div_pos one_pos hden
  · rw [heq, div_le_one hden]
    linarith
  · rw [heq, div_eq_one_iff_eq (ne_of_gt hden)]
    constructor
    · intro h
      have h0 : Vector2Distance p q * Vector2Distance p q = 0 := by linarith
      exact mul_self_eq_zero.mp h0
    · intro h
      rw [h]
      norm_num
  · intro BOIDS i j loc hs hji hnear
    rw [neighbor_body_separation_vec, if_pos ⟨hs, hji, hnear⟩]
    rfl

end IsolatedGroup

/-! ## The mass of the other boids does not reach the motion of a boid -/

section NeighborMass

variable {F : Type} [Add F] [Sub F] [Mul F] [Div F] [Neg F] [OfScientific F] [LibM F] [WideExpr F]
  [LT F] [LE F] [∀ a b : F, Decidable (a < b)] [∀ a b : F, Decidable (a ≤ b)]

omit [Neg F] in
theorem neighbor_loop_set_mass (c : Fin MAX_N_BOIDS → F) (BOIDS : Store F)
    (i : Fin MAX_N_BOIDS) (init init2 : Locals F)
    (hsep : init2.separation_vec = init.separation_vec)
    (hgv : init2.group_velocity = init.group_velocity) (n : Nat) :
    (neighbor_loop (set_mass c BOIDS) i init2 n).separation_vec
        = (neighbor_loop BOIDS i init n).separation_vec ∧
    (neighbor_loop (set_mass c BOIDS) i init2 n).group_velocity
        = (neighbor_loop BOIDS i init n).group_velocity := by
  induction n with
  | zero => exact ⟨hsep, hgv⟩
  | succ n ih =>
    simp only [neighbor_loop]
    split
    · rw [neighbor_body_separation_vec, neighbor_body_separation_vec,
        neighbor_body_group_velocity, neighbor_body_group_velocity, ih.1, ih.2]
      exact ⟨rfl, rfl⟩
    · exact ih

omit [Neg F] in
theorem neighbors_set_mass (c : Fin MAX_N_BOIDS → F) (BOIDS : Store F)
    (i : Fin MAX_N_BOIDS) :
    (neighbors (set_mass c BOIDS) i).separation_vec = (neighbors BOIDS i).separation_vec ∧
    (neighbors (set_mass c BOIDS) i).group_velocity = (neighbors BOIDS i).group_velocity := by
  unfold neighbors
  exact neighbor_loop_set_mass c BOIDS i
    { separation_vec := Vector2Zero
      group_center := Vector2Scale (BOIDS i).position (BOIDS i).mass
      group_velocity := (BOIDS i).velocity
      group_mass := (BOIDS i).mass }
    { separation_vec := Vector2Zero
      group_center := Vector2Scale (set_mass c BOIDS i).position (set_mass c BOIDS i).mass
      group_velocity := (set_mass c BOIDS i).velocity
      group_mass := (set_mass c BOIDS i).mass } rfl rfl MAX_N_BOIDS

theorem clamped_velocity_set_mass (dt : F) (c : Fin MAX_N_BOIDS → F) (BOIDS : Store F)
    (i : Fin MAX_N_BOIDS) (hci : c i = (BOIDS i).mass) :
    clamped_velocity dt (set_mass c BOIDS) i = clamped_velocity dt BOIDS i := by
  have hi : set_mass c BOIDS i = BOIDS i := by
    show ({ BOIDS i with mass := c i } : Boid F) = BOIDS i
    rw [hci]
  obtain ⟨h1, h2⟩ := neighbors_set_mass c BOIDS i
  simp only [clamped_velocity, integrated_velocity, aligned_velocity, alignment_angle,
    h1, h2, hi]

end NeighborMass

section NeighborMassClaim

variable {F : Type} [Add F] [Sub F] [Mul F] [Div F] [Neg F] [OfScientific F] [LibM F] [WideExpr F]
  [LT F] [LE F] [∀ a b : F, Decidable (a < b)] [∀ a b : F, Decidable (a ≤ b)]

/-- C16: the one-boid update of slot `i` does not depend on the mass of the other boids: on
two arrays that agree on everything except `mass` fields, and agree on the mass of slot `i`,
it gives slot `i` the same position and the same velocity. -/
theorem update_boid_ignores_neighbor_mass (dt : F) (mouse : Vector2 F)
    (BOIDS BOIDS2 : Store F) (i : Fin MAX_N_BOIDS)
    (hagree : ∀ j : Fin MAX_N_BOIDS, BOIDS2 j = { BOIDS j with mass := (BOIDS2 j).mass })
    (hself : (BOIDS2 i).mass = (BOIDS i).mass) :
    (update_boid dt mouse BOIDS2 i i).position = (update_boid dt mouse BOIDS i i).position ∧
    (update_boid dt mouse BOIDS2 i i).velocity = (update_boid dt mouse BOIDS i i).velocity := by
  have h2 : BOIDS2 = set_mass (fun j => (BOIDS2 j).mass) BOIDS := funext hagree
  have hi : BOIDS2 i = BOIDS i := by
    rw [hagree i, hself]
  by_cases hs : (BOIDS i).is_spawned = true
  · have hs2 : (BOIDS2 i).is_spawned = true := by rw [hi]; exact hs
    have hstore : Function.update BOIDS2 i { BOIDS2 i with target := mouse } =
        set_mass (fun j => (BOIDS2 j).mass)
          (Function.update BOIDS i { BOIDS i with target := mouse }) := by
      funext j
      by_cases hj : j = i
      · subst hj
        simp only [Function.update_same, set_mass]
        rw [hi]
      · simp only [Function.update_noteq hj, set_mass]
        exact hagree j
    have hcl : clamped_velocity dt (Function.update BOIDS2 i { BOIDS2 i with target := mouse }) i
        = clamped_velocity dt (Function.update BOIDS i { BOIDS i with target := mouse }) i := by
      rw [hstore]
      apply clamped_velocity_set_mass
      simp only [Function.update_same]
      exact hself
    rw [update_boid_self _ _ _ _ hs2, update_boid_self _ _ _ _ hs, hcl, hi]
    exact ⟨rfl, rfl⟩
  · have hs1 : (BOIDS i).is_spawned = false := by simpa using hs
    have hs2 : (BOIDS2 i).is_spawned = false := by rw [hi]; exact hs1
    rw [update_boid_of_not_spawned _ _ _ _ hs1, update_boid_of_not_spawned _ _ _ _ hs2, hi]
    exact ⟨rfl, rfl⟩

end NeighborMassClaim

theorem update_boid_ignores_neighbor_mass_witness :
    (set_mass (fun j => if j = slot0 then (crossing slot0).mass else 7) crossing slot0).mass
      = (crossing slot0).mass ∧
    (update_boid 0.1 ⟨10, 0⟩
        (set_mass (fun j => if j = slot0 then (crossing slot0).mass else 7) crossing)
        slot0 slot0).velocity
      = (update_boid 0.1 ⟨10, 0⟩ crossing slot0 slot0).velocity :=
  have hself :
      (set_mass (fun j => if j = slot0 then (crossing slot0).mass else 7) crossing slot0).mass
        = (crossing slot0).mass := by
    show (if slot0 = slot0 then (crossing slot0).mass else 7) = (crossing slot0).mass
    rw [if_pos rfl]
  ⟨hself,
    (update_boid_ignores_neighbor_mass 0.1 ⟨10, 0⟩ crossing
      (set_mass (fun j => if j = slot0 then (crossing slot0).mass else 7) crossing) slot0
      (fun _ => rfl) hself).2⟩

/-! ## Separation between two boids -/

section Separation

open Real

end Separation

section AlignmentStage

open Real

end AlignmentStage

namespace F32

theorem pow2_pos (k : Int) : 0 < pow2 k := by
  unfold pow2
  split <;> positivity

theorem pow2_eq_zpow (k : Int) : pow2 k = (2 : ℚ) ^ k := by
  unfold pow2
  split
  · rename_i h
    have hk : k = ((k.toNat : Nat) : Int) := (Int.toNat_of_nonneg h).symm
    conv_rhs => rw [hk]
    rw [zpow_natCast]
    push_cast
    rfl
  · rename_i h
    have hk : k = -(((-k).toNat : Nat) : Int) := by
      rw [Int.toNat_of_nonneg (by omega)]
      ring
    conv_rhs => rw [hk]
    rw [zpow_neg, zpow_natCast]
    push_cast
    rw [one_div]

theorem pow2_mono (j k : Int) (h : j ≤ k) : pow2 j ≤ pow2 k := by
  rw [pow2_eq_zpow, pow2_eq_zpow]
  exact zpow_le_zpow_right₀ (by norm_num) h

theorem nlog2_fuel_spec (fuel : Nat) :
    ∀ n : Nat, 1 ≤ n → n ≤ fuel →
      2 ^ nlog2_fuel fuel n ≤ n ∧ n < 2 ^ (nlog2_fuel fuel n + 1) := by
  induction fuel with
  | zero =>
    intro n h1 h2
    omega
  | succ fuel ih =>
    intro n h1 h2
    simp only [nlog2_fuel]
    split
    · have h : n = 1 := by omega
      subst h
      simp
    · obtain ⟨ha, hb⟩ := ih (n / 2) (by omega) (by omega)
      rw [pow_succ] at hb
      rw [pow_succ, pow_succ, pow_succ]
      generalize 2 ^ nlog2_fuel fuel (n / 2) = P at ha hb
      constructor <;> omega

theorem rat_eq_natAbs_div (a : ℚ) (ha : 0 ≤ a) : a = (a.num.natAbs : ℚ) / (a.den : ℚ) := by
  have hnum : 0 ≤ a.num := Rat.num_nonneg.mpr ha
  have hcast : (a.num.natAbs : ℚ) = (a.num : ℚ) := by
    rw [Nat.cast_natAbs, abs_of_nonneg hnum]
  rw [hcast]
  exact (Rat.num_div_den a).symm

/-- The exponent found by `ilog2` is not too large: `2 ^ ilog2 a ≤ a`. -/
theorem pow2_ilog2_le (a : ℚ) (ha : 0 < a) : pow2 (ilog2 a) ≤ a := by
  unfold ilog2
  simp only
  split
  · assumption
  · have hnum : 0 < a.num := Rat.num_pos.mpr ha
    have hn1 : 1 ≤ a.num.natAbs := Int.natAbs_pos.mpr (ne_of_gt hnum)
    have hd1 : 1 ≤ a.den := a.den_pos
    obtain ⟨h1, _⟩ := nlog2_fuel_spec _ _ hn1 le_rfl
    obtain ⟨_, h2⟩ := nlog2_fuel_spec _ _ hd1 le_rfl
    have haq : a = (a.num.natAbs : ℚ) / (a.den : ℚ) := rat_eq_natAbs_div a ha.le
    have h1q : (2 : ℚ) ^ nlog2 a.num.natAbs ≤ (a.num.natAbs : ℚ) := by
      have : ((2 ^ nlog2 a.num.natAbs : Nat) : ℚ) ≤ (a.num.natAbs : ℚ) := by
        exact_mod_cast h1
      simpa using this
    have h2q : (a.den : ℚ) ≤ (2 : ℚ) ^ (nlog2 a.den + 1) := by
      have : ((a.den : Nat) : ℚ) ≤ ((2 ^ (nlog2 a.den + 1) : Nat) : ℚ) := by
        exact_mod_cast h2.le
      simpa using this
    have hdpos : (0 : ℚ) < (a.den : ℚ) := by exact_mod_cast a.den_pos
    rw [pow2_eq_zpow]
    have hexp : ((nlog2 a.num.natAbs : Int) - (nlog2 a.den : Int) - 1)
        = (nlog2 a.num.natAbs : Int) - ((nlog2 a.den + 1 : Nat) : Int) := by
      push_cast
      ring
    rw [hexp, zpow_sub₀ (by norm_num), zpow_natCast, zpow_natCast]
    conv_rhs => rw [haq]
    have hpp : (0 : ℚ) < (2 : ℚ) ^ (nlog2 a.den + 1) := by positivity
    rw [div_le_div_iff₀ hpp hdpos]
    calc (2 : ℚ) ^ nlog2 a.num.natAbs * (a.den : ℚ)
        ≤ (a.num.natAbs : ℚ) * (a.den : ℚ) :=
          mul_le_mul_of_nonneg_right h1q hdpos.le
      _ ≤ (a.num.natAbs : ℚ) * (2 : ℚ) ^ (nlog2 a.den + 1) :=
          mul_le_mul_of_nonneg_left h2q (Nat.cast_nonneg _)

theorem le_round_even (a : ℚ) (ha : 0 ≤ a) (n : Nat) (h : (n : ℚ) ≤ a) :
    n ≤ round_even a := by
  have hdpos : (0 : ℚ) < (a.den : ℚ) := by exact_mod_cast a.den_pos
  rw [rat_eq_natAbs_div a ha, le_div_iff₀ hdpos] at h
  have hN : n * a.den ≤ a.num.natAbs := by exact_mod_cast h
  have hf : n ≤ a.num.natAbs / a.den := (Nat.le_div_iff_mul_le a.den_pos).mpr hN
  unfold round_even
  simp only
  split
  · exact hf
  · split
    · omega
    · split <;> omega

theorem round_even_le (a : ℚ) (ha : 0 ≤ a) (n : Nat) (h : a ≤ (n : ℚ)) :
    round_even a ≤ n := by
  have hdpos : (0 : ℚ) < (a.den : ℚ) := by exact_mod_cast a.den_pos
  rw [rat_eq_natAbs_div a ha, div_le_iff₀ hdpos] at h
  have hN : a.num.natAbs ≤ n * a.den := by exact_mod_cast h
  have hdm := Nat.div_add_mod a.num.natAbs a.den
  have hr := Nat.mod_lt a.num.natAbs a.den_pos
  have hf : a.num.natAbs / a.den ≤ n := by
    calc a.num.natAbs / a.den ≤ (n * a.den) / a.den := Nat.div_le_div_right hN
      _ = n := Nat.mul_div_cancel n a.den_pos
  have hcase : a.num.natAbs / a.den < n ∨ a.num.natAbs % a.den = 0 := by
    rcases Nat.lt_or_ge (a.num.natAbs / a.den) n with hlt | hge
    · exact Or.inl hlt
    · right
      have hfe : a.num.natAbs / a.den = n := le_antisymm hf hge
      rw [hfe, Nat.mul_comm] at hdm
      generalize n * a.den = P at hdm hN
      omega
  unfold round_even
  simp only
  rcases hcase with hlt | h0
  · split
    · exact hf
    · split
      · omega
      · split <;> omega
  · rw [h0]
    simp only [Nat.mul_zero]
    rw [if_pos a.den_pos]
    exact hf

theorem round_rat_nonneg (p : Nat) (qmin : Int) (q : ℚ) (h : 0 ≤ q) :
    0 ≤ round_rat p qmin q := by
  unfold round_rat
  split
  · exact le_refl 0
  · simp only [if_neg (not_lt.mpr h)]
    exact mul_nonneg (Nat.cast_nonneg _) (pow2_pos _).le

theorem one_le_round_rat (p : Nat) (qmin : Int) (hp : 1 ≤ p) (hq : qmin ≤ 0) (q : ℚ)
    (h : 1 ≤ q) : 1 ≤ round_rat p qmin q := by
  have hq0 : 0 < q := lt_of_lt_of_le one_pos h
  unfold round_rat
  rw [if_neg (ne_of_gt hq0)]
  simp only [if_neg (not_lt.mpr hq0.le)]
  generalize he : max (ilog2 q - ((p : Int) - 1)) qmin = e
  have hpe := pow2_pos e
  rcases le_or_lt e 0 with hle | hgt
  · -- `1 / 2 ^ e` is an integer
    have hN : (((2 ^ (-e).toNat : Nat)) : ℚ) * pow2 e = 1 := by
      rw [pow2_eq_zpow]
      push_cast
      rw [← zpow_natCast, Int.toNat_of_nonneg (by omega), ← zpow_add₀ (by norm_num)]
      simp
    have hge : ((2 ^ (-e).toNat : Nat) : ℚ) ≤ q / pow2 e := by
      rw [le_div_iff₀ hpe, hN]
      exact h
    have := le_round_even (q / pow2 e) (div_nonneg hq0.le hpe.le) _ hge
    calc (1 : ℚ) = ((2 ^ (-e).toNat : Nat) : ℚ) * pow2 e := hN.symm
      _ ≤ (round_even (q / pow2 e) : ℚ) * pow2 e :=
        mul_le_mul_of_nonneg_right (by exact_mod_cast this) hpe.le
  · have hee : e = ilog2 q - ((p : Int) - 1) := by
      rw [← he]
      apply max_eq_left
      have : e ≤ max (ilog2 q - ((p : Int) - 1)) qmin := le_of_eq he.symm
      rcases le_max_iff.mp this with h1 | h1
      · omega
      · omega
    have hle2 : pow2 e ≤ q := by
      calc pow2 e ≤ pow2 (ilog2 q) := pow2_mono _ _ (by rw [hee]; omega)
        _ ≤ q := pow2_ilog2_le q hq0
    have hge : ((1 : Nat) : ℚ) ≤ q / pow2 e := by
      rw [le_div_iff₀ hpe]
      simpa using hle2
    have := le_round_even (q / pow2 e) (div_nonneg hq0.le hpe.le) 1 hge
    have h1e : (1 : ℚ) ≤ pow2 e := by
      have := pow2_mono 0 e hgt.le
      simpa [pow2] using this
    calc (1 : ℚ) = 1 * 1 := by norm_num
      _ ≤ (round_even (q / pow2 e) : ℚ) * pow2 e :=
        mul_le_mul (by exact_mod_cast this) h1e (by norm_num) (Nat.cast_nonneg _)

theorem round_rat_le_one (p : Nat) (qmin : Int) (hp : 1 ≤ p) (hq : qmin ≤ 0) (q : ℚ)
    (h0 : 0 ≤ q) (h : q ≤ 1) : round_rat p qmin q ≤ 1 := by
  unfold round_rat
  split
  · exact zero_le_one
  · rename_i hne
    have hq0 : 0 < q := lt_of_le_of_ne h0 (Ne.symm hne)
    simp only [if_neg (not_lt.mpr h0)]
    have hlog : ilog2 q ≤ 0 := by
      by_contra hcon
      have h1 : pow2 1 ≤ pow2 (ilog2 q) := pow2_mono _ _ (by omega)
      have h2 := pow2_ilog2_le q hq0
      have h3 : pow2 1 = 2 := by
        rw [pow2_eq_zpow]
        norm_num
      linarith
    generalize he : max (ilog2 q - ((p : Int) - 1)) qmin = e
    have hle : e ≤ 0 := by
      rw [← he]
      apply max_le
      · omega
      · exact hq
    have hpe := pow2_pos e
    have hN : (((2 ^ (-e).toNat : Nat)) : ℚ) * pow2 e = 1 := by
      rw [pow2_eq_zpow]
      push_cast
      rw [← zpow_natCast, Int.toNat_of_nonneg (by omega), ← zpow_add₀ (by norm_num)]
      simp
    have hge : q / pow2 e ≤ ((2 ^ (-e).toNat : Nat) : ℚ) := by
      rw [div_le_iff₀ hpe, hN]
      exact h
    have := round_even_le (q / pow2 e) (div_nonneg hq0.le hpe.le) _ hge
    calc (round_even (q / pow2 e) : ℚ) * pow2 e
        ≤ ((2 ^ (-e).toNat : Nat) : ℚ) * pow2 e :=
          mul_le_mul_of_nonneg_right (by exact_mod_cast this) hpe.le
      _ = 1 := hN

end F32

namespace F32

theorem two_le_pow2 (k : Int) (h : 1 ≤ k) : 2 ≤ pow2 k := by
  have h1 := pow2_mono 1 k h
  have h2 : pow2 1 = 2 := by
    rw [pow2_eq_zpow]
    norm_num
  linarith

theorem zero_le_rnd (q : ℚ) (h : 0 ≤ q) : (fin 0 : F32) ≤ rnd q := by
  have h0 := round_rat_nonneg 24 (-149) q h
  have hp := pow2_pos 128
  show F32.le (fin 0) (rnd q) = true
  unfold rnd
  simp only
  split
  · rfl
  · split
    · rename_i h2
      linarith
    · simpa [F32.le] using h0

theorem rnd_unit (q : ℚ) (h0 : 0 ≤ q) (h1 : q ≤ 1) :
    ∃ w : ℚ, rnd q = fin w ∧ 0 ≤ w ∧ w ≤ 1 := by
  have hv0 := round_rat_nonneg 24 (-149) q h0
  have hv1 := round_rat_le_one 24 (-149) (by decide) (by decide) q h0 h1
  have hp := two_le_pow2 128 (by decide)
  refine ⟨round_rat 24 (-149) q, ?_, hv0, hv1⟩
  unfold rnd
  simp only
  rw [if_neg (by linarith), if_neg (by linarith)]

theorem rnd_ne_nan (q : ℚ) : rnd q ≠ nan := by
  unfold rnd
  simp only
  split
  · exact fun h => F32.noConfusion h
  · split
    · exact fun h => F32.noConfusion h
    · exact fun h => F32.noConfusion h

theorem fin_sub_fin_ne_nan (a c : ℚ) : (fin a - fin c : F32) ≠ nan :=
  rnd_ne_nan _

theorem zero_le_mul_self (x : F32) (hx : x ≠ nan) : (fin 0 : F32) ≤ x * x := by
  cases x with
  | fin a => exact zero_le_rnd (a * a) (mul_self_nonneg a)
  | inf s =>
    show F32.le (fin 0) (F32.mul (inf s) (inf s)) = true
    cases s <;> rfl
  | nan => exact absurd rfl hx

theorem zero_le_add (x y : F32) (hx : (fin 0 : F32) ≤ x) (hy : (fin 0 : F32) ≤ y) :
    (fin 0 : F32) ≤ x + y := by
  cases x with
  | fin a =>
    have ha : 0 ≤ a := by simpa [LE.le, F32.le] using hx
    cases y with
    | fin b =>
      have hb : 0 ≤ b := by simpa [LE.le, F32.le] using hy
      exact zero_le_rnd (a + b) (add_nonneg ha hb)
    | inf t => exact hy
    | nan => exact hy
  | inf s =>
    have hs : s = false := by
      cases s
      · rfl
      · exact absurd hx (by decide)
    subst hs
    cases y with
    | fin b => rfl
    | inf t =>
      cases t
      · rfl
      · exact absurd hy (by decide)
    | nan => exact hy
  | nan => exact absurd hx (by decide)

theorem zero_le_sqrt (x : F32) (hx : (fin 0 : F32) ≤ x) : (fin 0 : F32) ≤ F32.sqrt x := by
  cases x with
  | fin a =>
    have ha : 0 ≤ a := by simpa [LE.le, F32.le] using hx
    show F32.le (fin 0) (F32.sqrt (fin a)) = true
    simp only [F32.sqrt, if_neg (not_lt.mpr ha)]
    split
    · simp [F32.le]
    · have : 0 ≤ sqrt_pos a := by
        unfold sqrt_pos
        exact mul_nonneg (Nat.cast_nonneg _) (pow2_pos _).le
      simpa [F32.le] using this
  | inf s =>
    cases s
    · rfl
    · exact absurd hx (by decide)
  | nan => exact absurd hx (by decide)

/-- The `double` sum `1.0 + x` of line 126 is at least 1 for `x ≥ 0`: the division that
follows never has a zero divisor. -/
theorem one_le_round64_one_add (a : ℚ) (ha : 0 ≤ a) : 1 ≤ round64 (1 + a) :=
  one_le_round_rat 53 (-1074) (by decide) (by decide) (1 + a) (by linarith)

theorem inv_one_add32_unit (x : F32) (hx : (fin 0 : F32) ≤ x) :
    ∃ w : ℚ, inv_one_add32 x = fin w ∧ 0 ≤ w ∧ w ≤ 1 := by
  cases x with
  | fin a =>
    have ha : 0 ≤ a := by simpa [LE.le, F32.le] using hx
    have hs := one_le_round64_one_add a ha
    have hs0 : 0 < round64 (1 + a) := lt_of_lt_of_le one_pos hs
    have hq0 : 0 ≤ 1 / round64 (1 + a) := (div_pos one_pos hs0).le
    have hq1 : 1 / round64 (1 + a) ≤ 1 := by
      rw [div_le_one hs0]
      exact hs
    have hr0 := round_rat_nonneg 53 (-1074) _ hq0
    have hr1 := round_rat_le_one 53 (-1074) (by decide) (by decide) _ hq0 hq1
    unfold inv_one_add32
    simp only
    rw [if_neg (ne_of_gt hs0)]
    exact rnd_unit _ hr0 hr1
  | inf s => exact ⟨0, rfl, le_refl 0, zero_le_one⟩
  | nan => exact absurd hx (by decide)

/-- A real number of magnitude at least `2 ^ (-126)` does not round to zero. -/
theorem rndR_ne_zero (r : ℝ) (h : (2 : ℝ) ^ (-126 : Int) ≤ |r|) : rndR r ≠ fin 0 := by
  have hpos : (0 : ℝ) < |r| := lt_of_lt_of_le (by positivity) h
  have hr : r ≠ 0 := abs_pos.mp hpos
  unfold rndR
  rw [if_neg hr]
  simp only
  generalize he : max (Int.log 2 |r| - 23) (-149) = e
  have hpe : (0 : ℝ) < (2 : ℝ) ^ e := by positivity
  have hle : (2 : ℝ) ^ e ≤ |r| := by
    rcases max_cases (Int.log 2 |r| - 23) (-149) with ⟨h1, _⟩ | ⟨h1, _⟩
    · rw [← he, h1]
      calc (2 : ℝ) ^ (Int.log 2 |r| - 23) ≤ (2 : ℝ) ^ (Int.log 2 |r|) :=
            zpow_le_zpow_right₀ (by norm_num) (by omega)
        _ ≤ |r| := by
            have := Int.zpow_log_le_self (b := 2) (r := |r|) (by norm_num) hpos
            exact_mod_cast this
    · rw [← he, h1]
      calc (2 : ℝ) ^ (-149 : Int) ≤ (2 : ℝ) ^ (-126 : Int) :=
            zpow_le_zpow_right₀ (by norm_num) (by norm_num)
        _ ≤ |r| := h
  have hx : (1 : ℝ) ≤ |r| / (2 : ℝ) ^ e := by
    rw [le_div_iff₀ hpe, one_mul]
    exact hle
  have hf : 1 ≤ ⌊|r| / (2 : ℝ) ^ e⌋₊ := Nat.le_floor (by exact_mod_cast hx)
  generalize hm :
    (if |r| / (2 : ℝ) ^ e - (⌊|r| / (2 : ℝ) ^ e⌋₊ : ℝ) < 1 / 2 then ⌊|r| / (2 : ℝ) ^ e⌋₊
      else if 1 / 2 < |r| / (2 : ℝ) ^ e - (⌊|r| / (2 : ℝ) ^ e⌋₊ : ℝ)
        then ⌊|r| / (2 : ℝ) ^ e⌋₊ + 1
      else if ⌊|r| / (2 : ℝ) ^ e⌋₊ % 2 = 0 then ⌊|r| / (2 : ℝ) ^ e⌋₊
        else ⌊|r| / (2 : ℝ) ^ e⌋₊ + 1) = m
  have hm1 : 1 ≤ m := by
    rw [← hm]
    split
    · exact hf
    · split
      · omega
      · split
        · exact hf
        · omega
  have hv : (0 : ℚ) < (m : ℚ) * pow2 e :=
    mul_pos (by exact_mod_cast hm1) (pow2_pos e)
  split
  · exact fun h => F32.noConfusion h
  · intro hcon
    have hq := F32.fin.inj hcon
    split at hq <;> linarith

/-- For `y ≠ 0` the angle `atan2f(y, x)` of the model is not zero, when `|y| / (|x| + |y|)` is
at least `2 ^ (-126)`. -/
theorem atan2_ne_zero (y x : ℚ) (hy : y ≠ 0)
    (hb : (2 : ℝ) ^ (-126 : Int) ≤ |(y : ℝ)| / (|(x : ℝ)| + |(y : ℝ)|)) :
    F32.atan2 (fin y) (fin x) ≠ fin 0 := by
  simp only [F32.atan2]
  rw [if_neg (fun h => hy h.1)]
  apply rndR_ne_zero
  have hyR : (y : ℝ) ≠ 0 := by exact_mod_cast hy
  have hz : (⟨(x : ℝ), (y : ℝ)⟩ : ℂ) ≠ 0 := by
    intro h
    exact hyR (congrArg Complex.im h)
  have habs : 0 < Complex.abs ⟨(x : ℝ), (y : ℝ)⟩ := Complex.abs.pos hz
  have hsin : Real.sin (Complex.arg ⟨(x : ℝ), (y : ℝ)⟩)
      = (y : ℝ) / Complex.abs ⟨(x : ℝ), (y : ℝ)⟩ := Complex.sin_arg _
  have h1 : |Real.sin (Complex.arg ⟨(x : ℝ), (y : ℝ)⟩)|
      ≤ |Complex.arg ⟨(x : ℝ), (y : ℝ)⟩| := Real.abs_sin_le_abs
  have h2 : Complex.abs ⟨(x : ℝ), (y : ℝ)⟩ ≤ |(x : ℝ)| + |(y : ℝ)| :=
    Complex.abs_le_abs_re_add_abs_im _
  have h3 : |(y : ℝ)| / (|(x : ℝ)| + |(y : ℝ)|)
      ≤ |(y : ℝ)| / Complex.abs ⟨(x : ℝ), (y : ℝ)⟩ :=
    div_le_div_of_nonneg_left (abs_nonneg _) habs h2
  calc (2 : ℝ) ^ (-126 : Int) ≤ |(y : ℝ)| / (|(x : ℝ)| + |(y : ℝ)|) := hb
    _ ≤ |(y : ℝ)| / Complex.abs ⟨(x : ℝ), (y : ℝ)⟩ := h3
    _ = |Real.sin (Complex.arg ⟨(x : ℝ), (y : ℝ)⟩)| := by
        rw [hsin, abs_div, abs_of_pos habs]
    _ ≤ |Complex.arg ⟨(x : ℝ), (y : ℝ)⟩| := h1

end F32

/-! ## A boid with no other spawned boid: the outer loop runs the one-boid pipeline -/

section LonePipelineFacts

variable {F : Type} [Add F] [Sub F] [Mul F] [Div F] [Neg F] [OfScientific F] [LibM F] [WideExpr F]
  [LT F] [LE F] [∀ a b : F, Decidable (a < b)] [∀ a b : F, Decidable (a ≤ b)]

omit [Add F] [Sub F] [Div F] [Neg F] [LibM F] [WideExpr F] [LT F] [LE F]
  [∀ a b : F, Decidable (a < b)] [∀ a b : F, Decidable (a ≤ b)] in
/-- The first call of `spawn_boid` claims slot 0 of the initial array. -/
theorem spawn_boid_init (position : Vector2 F) :
    spawn_boid position BOIDS_init =
      (0, Function.update BOIDS_init slot0 (spawn_init (BOIDS_init slot0) position)) := by
  rw [spawn_boid, spawn_boid_from]
  simp [BOIDS_init, MAX_N_BOIDS, slot0]

theorem mixed_store_lone (dt : F) (mouse : Vector2 F) (BOIDS : Store F)
    (i : Fin MAX_N_BOIDS)
    (hlone : ∀ j : Fin MAX_N_BOIDS, j ≠ i → (BOIDS j).is_spawned = false) :
    mixed_store dt mouse BOIDS i = BOIDS := by
  funext j
  unfold mixed_store
  by_cases hj : j < i
  · rw [if_pos hj]
    exact update_of_not_spawned dt mouse BOIDS j (hlone j (ne_of_lt hj))
  · rw [if_neg hj]

theorem store_at_lone (dt : F) (mouse : Vector2 F) (BOIDS : Store F)
    (i : Fin MAX_N_BOIDS)
    (hlone : ∀ j : Fin MAX_N_BOIDS, j ≠ i → (BOIDS j).is_spawned = false) :
    store_at dt mouse BOIDS i = Function.update BOIDS i { BOIDS i with target := mouse } ∧
    store_at dt mouse BOIDS i i = { BOIDS i with target := mouse } ∧
    ∀ j : Fin MAX_N_BOIDS, j ≠ i → (store_at dt mouse BOIDS i j).is_spawned = false := by
  have h : store_at dt mouse BOIDS i
      = Function.update BOIDS i { BOIDS i with target := mouse } := by
    rw [store_at_eq, mixed_store_lone dt mouse BOIDS i hlone]
  refine ⟨h, ?_, ?_⟩
  · rw [h, Function.update_same]
  · intro j hj
    rw [h, Function.update_noteq hj]
    exact hlone j hj

theorem alignment_angle_eq_lone (dt : F) (BOIDS : Store F) (i : Fin MAX_N_BOIDS)
    (hlone : ∀ j : Fin MAX_N_BOIDS, j ≠ i → (BOIDS j).is_spawned = false) :
    alignment_angle dt BOIDS i = lone_angle dt (BOIDS i) := by
  unfold alignment_angle lone_angle
  simp only [neighbors_lone BOIDS i hlone]

theorem integrated_velocity_eq_lone (dt : F) (BOIDS : Store F) (i : Fin MAX_N_BOIDS)
    (hlone : ∀ j : Fin MAX_N_BOIDS, j ≠ i → (BOIDS j).is_spawned = false) :
    integrated_velocity dt BOIDS i = lone_integrated dt (BOIDS i) := by
  unfold integrated_velocity lone_integrated aligned_velocity
  simp only [alignment_angle_eq_lone dt BOIDS i hlone, neighbors_lone BOIDS i hlone]

theorem clamped_velocity_eq_lone (dt : F) (BOIDS : Store F) (i : Fin MAX_N_BOIDS)
    (hlone : ∀ j : Fin MAX_N_BOIDS, j ≠ i → (BOIDS j).is_spawned = false) :
    clamped_velocity dt BOIDS i = lone_velocity dt (BOIDS i) := by
  unfold clamped_velocity lone_velocity
  simp only [integrated_velocity_eq_lone dt BOIDS i hlone]

/-- In an array whose only spawned boid is in slot `i`, `update` rewrites slot `i` by the
one-boid pipeline and leaves every other slot as it was. -/
theorem update_eq_lone (dt : F) (mouse : Vector2 F) (BOIDS : Store F) (i : Fin MAX_N_BOIDS)
    (hi : (BOIDS i).is_spawned = true)
    (hlone : ∀ j : Fin MAX_N_BOIDS, j ≠ i → (BOIDS j).is_spawned = false) :
    update dt mouse BOIDS = Function.update BOIDS i (lone_update dt mouse (BOIDS i)) := by
  obtain ⟨_, hSi, hSlone⟩ := store_at_lone dt mouse BOIDS i hlone
  funext j
  by_cases hj : j = i
  · rw [hj, Function.update_same, update_of_spawned dt mouse BOIDS i hi,
      clamped_velocity_eq_lone dt _ i hSlone, hSi]
    rfl
  · rw [Function.update_noteq hj, update_of_not_spawned dt mouse BOIDS j (hlone j hj)]

omit [WideExpr F] [LE F] [∀ a b : F, Decidable (a ≤ b)] in
theorem lone_update_is_spawned (dt : F) (mouse : Vector2 F) (boid : Boid F) :
    (lone_update dt mouse boid).is_spawned = boid.is_spawned := rfl

/-- Repeated calls of `update` on such an array iterate the one-boid pipeline on slot `i`. -/
theorem update_n_eq_lone (dt : F) (mouse : Vector2 F) (BOIDS : Store F) (i : Fin MAX_N_BOIDS)
    (hi : (BOIDS i).is_spawned = true)
    (hlone : ∀ j : Fin MAX_N_BOIDS, j ≠ i → (BOIDS j).is_spawned = false) (n : Nat) :
    update_n dt mouse BOIDS n
      = Function.update BOIDS i ((lone_update dt mouse)^[n] (BOIDS i)) ∧
    ((lone_update dt mouse)^[n] (BOIDS i)).is_spawned = true := by
  induction n with
  | zero =>
    refine ⟨?_, hi⟩
    simp [update_n]
  | succ n ih =>
    obtain ⟨hn, hsp⟩ := ih
    have hlone2 : ∀ j : Fin MAX_N_BOIDS, j ≠ i →
        (Function.update BOIDS i ((lone_update dt mouse)^[n] (BOIDS i)) j).is_spawned
          = false := by
      intro j hj
      rw [Function.update_noteq hj]
      exact hlone j hj
    have hi2 :
        (Function.update BOIDS i ((lone_update dt mouse)^[n] (BOIDS i)) i).is_spawned
          = true := by
      rw [Function.update_same]
      exact hsp
    rw [Function.iterate_succ_apply']
    refine ⟨?_, ?_⟩
    · simp only [update_n]
      rw [hn, update_eq_lone dt mouse _ i hi2 hlone2]
      simp only [Function.update_same, Function.update_idem]
    · rw [lone_update_is_spawned]
      exact hsp

/-- The angle of the alignment rotation during the iteration of a lone boid. -/
theorem alignment_angle_store_at_lone (dt : F) (mouse : Vector2 F) (BOIDS : Store F)
    (i : Fin MAX_N_BOIDS)
    (hlone : ∀ j : Fin MAX_N_BOIDS, j ≠ i → (BOIDS j).is_spawned = false) :
    alignment_angle dt (store_at dt mouse BOIDS i) i
      = lone_angle dt { BOIDS i with target := mouse } := by
  obtain ⟨_, hSi, hSlone⟩ := store_at_lone dt mouse BOIDS i hlone
  rw [alignment_angle_eq_lone dt _ i hSlone, hSi]

/-- The velocity after the force integration during the iteration of a lone boid. -/
theorem integrated_velocity_store_at_lone (dt : F) (mouse : Vector2 F) (BOIDS : Store F)
    (i : Fin MAX_N_BOIDS)
    (hlone : ∀ j : Fin MAX_N_BOIDS, j ≠ i → (BOIDS j).is_spawned = false) :
    integrated_velocity dt (store_at dt mouse BOIDS i) i
      = lone_integrated dt { BOIDS i with target := mouse } := by
  obtain ⟨_, hSi, hSlone⟩ := store_at_lone dt mouse BOIDS i hlone
  rw [integrated_velocity_eq_lone dt _ i hSlone, hSi]

theorem update_slot_lone (dt : F) (mouse : Vector2 F) (BOIDS : Store F) (i : Fin MAX_N_BOIDS)
    (hi : (BOIDS i).is_spawned = true)
    (hlone : ∀ j : Fin MAX_N_BOIDS, j ≠ i → (BOIDS j).is_spawned = false) :
    update dt mouse BOIDS i = lone_update dt mouse (BOIDS i) := by
  rw [update_eq_lone dt mouse BOIDS i hi hlone, Function.update_same]

end LonePipelineFacts

/-! ## Binary32: order facts and the clamp -/

namespace F32

theorem le_iff (x y : F32) : x ≤ y ↔ F32.le x y = true := Iff.rfl

theorem lt_iff (x y : F32) : x < y ↔ F32.lt x y = true := Iff.rfl

theorem ne_nan_of_le_left (x y : F32) (h : x ≤ y) : x ≠ nan := by
  rw [le_iff] at h
  cases x <;> simp_all [F32.le]

theorem ne_nan_of_le_right (x y : F32) (h : x ≤ y) : y ≠ nan := by
  rw [le_iff] at h
  cases x <;> cases y <;> simp_all [F32.le]

theorem le_self (x : F32) (hx : x ≠ nan) : x ≤ x := by
  rw [le_iff]
  cases x with
  | fin a => simp [F32.le]
  | inf s => cases s <;> simp [F32.le]
  | nan => exact absurd rfl hx

theorem not_lt_of_le32 (x y : F32) (h : x ≤ y) : ¬ y < x := by
  rw [le_iff] at h
  rw [lt_iff]
  cases x with
  | fin a => cases y <;> simp_all [F32.le, F32.lt]
  | inf s =>
    cases y with
    | fin b => simp_all [F32.le, F32.lt]
    | inf t => cases s <;> cases t <;> simp_all [F32.le, F32.lt]
    | nan => simp_all [F32.le, F32.lt]
  | nan => simp_all [F32.le, F32.lt]

theorem le_of_not_lt32 (x y : F32) (hx : x ≠ nan) (hy : y ≠ nan) (h : ¬ x < y) : y ≤ x := by
  rw [lt_iff] at h
  rw [le_iff]
  cases x with
  | fin a => cases y <;> simp_all [F32.le, F32.lt]
  | inf s =>
    cases y with
    | fin b => simp_all [F32.le, F32.lt]
    | inf t => cases s <;> cases t <;> simp_all [F32.le, F32.lt]
    | nan => simp_all [F32.le, F32.lt]
  | nan => simp_all [F32.le, F32.lt]

end F32

/-- At binary32 `Clamp` returns a value of `[min, max]` when `min ≤ max` and the clamped
value is not NaN. -/
theorem Clamp_bounds32 (value lo hi : F32) (h : lo ≤ hi) (hv : value ≠ F32.nan) :
    lo ≤ Clamp value lo hi ∧ Clamp value lo hi ≤ hi := by
  have hlo := F32.ne_nan_of_le_left lo hi h
  have hhi := F32.ne_nan_of_le_right lo hi h
  unfold Clamp
  simp only
  by_cases h1 : value < lo
  · rw [if_pos h1, if_neg (F32.not_lt_of_le32 lo hi h)]
    exact ⟨F32.le_self lo hlo, h⟩
  · rw [if_neg h1]
    have hlv := F32.le_of_not_lt32 value lo hv hlo h1
    by_cases h2 : hi < value
    · rw [if_pos h2]
      exact ⟨h, F32.le_self hi hhi⟩
    · rw [if_neg h2]
      exact ⟨hlv, F32.le_of_not_lt32 hi value hhi hv h2⟩

/-! ## The one-boid scenarios at binary32 -/

section Scenario32

set_option maxRecDepth 100000

open F32

theorem start32_eq : start32 = Function.update BOIDS_init slot0 boid32 := by
  unfold start32 boid32
  rw [spawn_boid_init]

theorem start32_slot0 : start32 slot0 = boid32 := by
  rw [start32_eq, Function.update_same]

theorem start32_others (j : Fin MAX_N_BOIDS) (hj : j ≠ slot0) :
    (start32 j).is_spawned = false := by
  rw [start32_eq, Function.update_noteq hj]
  rfl

theorem start32_spawned : (start32 slot0).is_spawned = true := by
  rw [start32_slot0]
  rfl

/-- What `lone_update` writes, given the new velocity and the new position. -/
theorem lone_update_eq (dt : F32) (mouse : Vector2 F32) (boid : Boid F32) (v p : Vector2 F32)
    (hv : lone_velocity dt { boid with target := mouse } = v)
    (hp : Vector2Add boid.position (Vector2Scale v dt) = p) :
    lone_update dt mouse boid = { boid with target := mouse, velocity := v, position := p } := by
  unfold lone_update
  simp only [hv, hp]

/-- The first 16 calls: the boid flies along x at `(50, 0)`, 5 units per call. -/
theorem scenario32_iterate (n : Nat) (h1 : 1 ≤ n) (h2 : n ≤ 16) :
    (lone_update 0.1 ⟨fin 10, fin 0⟩)^[n] boid32 = boid32_at (5 * (n : ℚ)) 50 := by
  induction n with
  | zero => exact absurd h1 (by decide)
  | succ n ih =>
    rw [Function.iterate_succ_apply']
    rcases Nat.eq_zero_or_pos n with hn | hn
    · subst hn
      exact lone_update_eq _ _ _ _ _ (by decide!) (by decide!)
    · rw [ih hn (by omega)]
      have hn16 : n ≤ 15 := by omega
      interval_cases n <;> exact lone_update_eq _ _ _ _ _ (by decide!) (by decide!)

/-- The 17th call: the speed written is one unit in the last place below 50. -/
theorem scenario32_iterate_17 :
    (lone_update 0.1 ⟨fin 10, fin 0⟩)^[17] boid32 = boid32_at 85 (13107199 / 262144) := by
  rw [Function.iterate_succ_apply', scenario32_iterate 16 (by decide) (by decide)]
  exact lone_update_eq _ _ _ _ _ (by decide!) (by decide!)

theorem scenario32_slot0 (n : Nat) :
    scenario32 n slot0 = (lone_update 0.1 ⟨fin 10, fin 0⟩)^[n] boid32 := by
  unfold scenario32
  rw [(update_n_eq_lone 0.1 ⟨fin 10, fin 0⟩ start32 slot0 start32_spawned start32_others n).1,
    Function.update_same, start32_slot0]

end Scenario32

/-! ## Binary32 arithmetic: error bounds -/

namespace F32

theorem pow2_add (j k : Int) : pow2 (j + k) = pow2 j * pow2 k := by
  rw [pow2_eq_zpow, pow2_eq_zpow, pow2_eq_zpow, zpow_add₀ (by norm_num)]

/-- Rounding to the nearest integer moves a number by at most one half. -/
theorem round_even_err (x : ℚ) (hx : 0 ≤ x) : |(round_even x : ℚ) - x| ≤ 1 / 2 := by
  have hD : (0 : ℚ) < (x.den : ℚ) := by exact_mod_cast x.den_pos
  have hdm := Nat.div_add_mod x.num.natAbs x.den
  have hr := Nat.mod_lt x.num.natAbs x.den_pos
  have hN : (x.num.natAbs : ℚ)
      = (x.den : ℚ) * ((x.num.natAbs / x.den : Nat) : ℚ) + ((x.num.natAbs % x.den : Nat) : ℚ) := by
    exact_mod_cast hdm.symm
  have hxe : x = ((x.num.natAbs / x.den : Nat) : ℚ)
      + ((x.num.natAbs % x.den : Nat) : ℚ) / (x.den : ℚ) := by
    conv_lhs => rw [rat_eq_natAbs_div x hx, hN]
    field_simp
    ring
  unfold round_even
  simp only
  generalize x.num.natAbs / x.den = f at hxe ⊢
  generalize x.num.natAbs % x.den = r at hxe hr ⊢
  have hr0 : (0 : ℚ) ≤ (r : ℚ) := Nat.cast_nonneg r
  rw [abs_le]
  by_cases h1 : 2 * r < x.den
  · rw [if_pos h1]
    have h1q : 2 * (r : ℚ) < (x.den : ℚ) := by exact_mod_cast h1
    have hq : (r : ℚ) / (x.den : ℚ) < 1 / 2 := by
      rw [div_lt_iff₀ hD]
      linarith
    have hq0 : 0 ≤ (r : ℚ) / (x.den : ℚ) := div_nonneg hr0 hD.le
    constructor <;> linarith
  · rw [if_neg h1]
    by_cases h2 : x.den < 2 * r
    · rw [if_pos h2]
      have h2q : (x.den : ℚ) < 2 * (r : ℚ) := by exact_mod_cast h2
      have hrq : (r : ℚ) < (x.den : ℚ) := by exact_mod_cast hr
      have hq : 1 / 2 < (r : ℚ) / (x.den : ℚ) := by
        rw [lt_div_iff₀ hD]
        linarith
      have hq1 : (r : ℚ) / (x.den : ℚ) < 1 := by
        rw [div_lt_one hD]
        exact hrq
      push_cast
      constructor <;> linarith
    · rw [if_neg h2]
      have he : 2 * r = x.den := by omega
      have heq : 2 * (r : ℚ) = (x.den : ℚ) := by exact_mod_cast he
      have hq : (r : ℚ) / (x.den : ℚ) = 1 / 2 := by
        rw [div_eq_iff (ne_of_gt hD)]
        linarith
      split
      · constructor <;> linarith
      · push_cast
        constructor <;> linarith

/-- The error of rounding: at most half a unit in the last place, or half the least quantum. -/
theorem round_rat_err (p : Nat) (qmin : Int) (q : ℚ) :
    |round_rat p qmin q - q| ≤ |q| * pow2 (-(p : Int)) + pow2 (qmin - 1) := by
  have hpos1 := pow2_pos (-(p : Int))
  have hpos2 := pow2_pos (qmin - 1)
  unfold round_rat
  split
  · rename_i h0
    rw [h0]
    simp only [sub_zero, abs_zero, zero_mul, zero_add]
    exact hpos2.le
  · rename_i hne
    simp only
    have key : ∀ a : ℚ, 0 < a →
        |(round_even (a / pow2 (max (ilog2 a - ((p : Int) - 1)) qmin)) : ℚ)
            * pow2 (max (ilog2 a - ((p : Int) - 1)) qmin) - a|
          ≤ a * pow2 (-(p : Int)) + pow2 (qmin - 1) := by
      intro a ha
      generalize he : max (ilog2 a - ((p : Int) - 1)) qmin = e
      have hpe := pow2_pos e
      have hx0 : 0 ≤ a / pow2 e := div_nonneg ha.le hpe.le
      have herr := round_even_err (a / pow2 e) hx0
      have hfac : (round_even (a / pow2 e) : ℚ) * pow2 e - a
          = ((round_even (a / pow2 e) : ℚ) - a / pow2 e) * pow2 e := by
        field_simp
      rw [hfac, abs_mul, abs_of_pos hpe]
      have h1 : |(round_even (a / pow2 e) : ℚ) - a / pow2 e| * pow2 e ≤ 1 / 2 * pow2 e :=
        mul_le_mul_of_nonneg_right herr hpe.le
      have hhalf : (1 / 2 : ℚ) = pow2 (-1) := by
        rw [pow2_eq_zpow]
        norm_num
      have h2 : 1 / 2 * pow2 e ≤ a * pow2 (-(p : Int)) + pow2 (qmin - 1) := by
        rcases max_cases (ilog2 a - ((p : Int) - 1)) qmin with ⟨hm, _⟩ | ⟨hm, _⟩
        · have hee : e = ilog2 a + -(p : Int) + 1 := by
            rw [← he, hm]
            ring
          have : 1 / 2 * pow2 e = pow2 (ilog2 a) * pow2 (-(p : Int)) := by
            rw [hee, pow2_add, pow2_add, hhalf]
            have h11 : pow2 (-1) * pow2 1 = 1 := by
              rw [← pow2_add]
              simp [pow2]
            calc pow2 (-1) * (pow2 (ilog2 a) * pow2 (-(p : Int)) * pow2 1)
                = pow2 (ilog2 a) * pow2 (-(p : Int)) * (pow2 (-1) * pow2 1) := by ring
              _ = pow2 (ilog2 a) * pow2 (-(p : Int)) := by rw [h11, mul_one]
          rw [this]
          have := mul_le_mul_of_nonneg_right (pow2_ilog2_le a ha) hpos1.le
          linarith
        · have : 1 / 2 * pow2 e = pow2 (qmin - 1) := by
            rw [← he, hm, hhalf, ← pow2_add]
            congr 1
            ring
          rw [this]
          have := mul_nonneg ha.le hpos1.le
          linarith
      exact le_trans h1 h2
    by_cases hneg : q < 0
    · simp only [if_pos hneg]
      have h := key (-q) (by linarith)
      rw [abs_of_neg hneg]
      have e1 : -((round_even (-q / pow2 (max (ilog2 (-q) - ((p : Int) - 1)) qmin)) : ℚ)
            * pow2 (max (ilog2 (-q) - ((p : Int) - 1)) qmin)) - q
          = -((round_even (-q / pow2 (max (ilog2 (-q) - ((p : Int) - 1)) qmin)) : ℚ)
            * pow2 (max (ilog2 (-q) - ((p : Int) - 1)) qmin) - -q) := by ring
      rw [e1, abs_neg]
      exact h
    · simp only [if_neg hneg]
      have hq0 : 0 < q := lt_of_le_of_ne (not_lt.mp hneg) (Ne.symm hne)
      rw [abs_of_pos hq0]
      exact key q hq0

/-- A rational of magnitude at most `2 ^ 100` rounds to a finite binary32 value, with relative
error at most `2 ^ (-24)` up to the absolute error `2 ^ (-150)` of the subnormal range. -/
theorem rnd_fin (q : ℚ) (hq : |q| ≤ 2 ^ 100) :
    ∃ v : ℚ, rnd q = fin v ∧ |v - q| ≤ |q| / 2 ^ 24 + 1 / 2 ^ 150 ∧ (0 ≤ q → 0 ≤ v) := by
  have herr := round_rat_err 24 (-149) q
  have hu : pow2 (-((24 : Nat) : Int)) = 1 / 2 ^ 24 := by
    rw [pow2_eq_zpow]
    norm_num
  have he : pow2 (-149 - 1) = 1 / 2 ^ 150 := by
    rw [pow2_eq_zpow]
    norm_num
  have hp : pow2 128 = 2 ^ 128 := by
    rw [pow2_eq_zpow]
    norm_num
  rw [hu, he] at herr
  have herr2 : |round_rat 24 (-149) q - q| ≤ |q| / 2 ^ 24 + 1 / 2 ^ 150 := by
    have : |q| * (1 / 2 ^ 24) = |q| / 2 ^ 24 := by ring
    rw [this] at herr
    exact herr
  have habs := abs_le.mp herr2
  have hqa := abs_le.mp hq
  have hq0 := abs_nonneg q
  refine ⟨round_rat 24 (-149) q, ?_, herr2, round_rat_nonneg 24 (-149) q⟩
  unfold rnd
  simp only
  rw [hp]
  have hb1 : |q| / 2 ^ 24 + 1 / 2 ^ 150 ≤ (2 : ℚ) ^ 100 := by
    have : |q| / 2 ^ 24 ≤ (2 : ℚ) ^ 100 / 2 ^ 24 := by
      apply div_le_div_of_nonneg_right hq (by positivity)
    have h2 : (2 : ℚ) ^ 100 / 2 ^ 24 + 1 / 2 ^ 150 ≤ 2 ^ 100 := by norm_num
    linarith
  have hbig : (2 : ℚ) ^ 100 + 2 ^ 100 < 2 ^ 128 := by norm_num
  rw [if_neg (by linarith [habs.2, hqa.2]), if_neg (by linarith [habs.1, hqa.1])]

end F32

namespace F32

/-- The exponent found by `ilog2` is not too small: `a < 2 ^ (ilog2 a + 1)`. -/
theorem lt_pow2_ilog2_succ (a : ℚ) (ha : 0 < a) : a < pow2 (ilog2 a + 1) := by
  unfold ilog2
  simp only
  split
  · have hnum : 0 < a.num := Rat.num_pos.mpr ha
    have hn1 : 1 ≤ a.num.natAbs := Int.natAbs_pos.mpr (ne_of_gt hnum)
    have hd1 : 1 ≤ a.den := a.den_pos
    obtain ⟨_, h1⟩ := nlog2_fuel_spec _ _ hn1 le_rfl
    obtain ⟨h2, _⟩ := nlog2_fuel_spec _ _ hd1 le_rfl
    have haq : a = (a.num.natAbs : ℚ) / (a.den : ℚ) := rat_eq_natAbs_div a ha.le
    have h1q : (a.num.natAbs : ℚ) < (2 : ℚ) ^ (nlog2 a.num.natAbs + 1) := by
      have : ((a.num.natAbs : Nat) : ℚ) < ((2 ^ (nlog2 a.num.natAbs + 1) : Nat) : ℚ) := by
        exact_mod_cast h1
      simpa using this
    have h2q : (2 : ℚ) ^ nlog2 a.den ≤ (a.den : ℚ) := by
      have : ((2 ^ nlog2 a.den : Nat) : ℚ) ≤ ((a.den : Nat) : ℚ) := by
        exact_mod_cast h2
      simpa using this
    have hdpos : (0 : ℚ) < (a.den : ℚ) := by exact_mod_cast a.den_pos
    rw [pow2_eq_zpow]
    have hexp : ((nlog2 a.num.natAbs : Int) - (nlog2 a.den : Int) + 1)
        = ((nlog2 a.num.natAbs + 1 : Nat) : Int) - ((nlog2 a.den : Nat) : Int) := by
      push_cast
      ring
    rw [hexp, zpow_sub₀ (by norm_num), zpow_natCast, zpow_natCast]
    conv_lhs => rw [haq]
    have hpp : (0 : ℚ) < (2 : ℚ) ^ nlog2 a.den := by positivity
    rw [div_lt_div_iff₀ hdpos hpp]
    calc (a.num.natAbs : ℚ) * (2 : ℚ) ^ nlog2 a.den
        ≤ (a.num.natAbs : ℚ) * (a.den : ℚ) :=
          mul_le_mul_of_nonneg_left h2q (Nat.cast_nonneg _)
      _ < (2 : ℚ) ^ (nlog2 a.num.natAbs + 1) * (a.den : ℚ) :=
          mul_lt_mul_of_pos_right h1q hdpos
  · rename_i h
    have e : ((nlog2 a.num.natAbs : Int) - (nlog2 a.den : Int) - 1 + 1)
        = (nlog2 a.num.natAbs : Int) - (nlog2 a.den : Int) := by ring
    rw [e]
    exact not_le.mp h

theorem isqrt_bits_spec (n : Nat) (k : Nat) :
    ∀ acc : Nat, acc * acc ≤ n → n < (acc + 2 ^ k) * (acc + 2 ^ k) →
      isqrt_bits n k acc * isqrt_bits n k acc ≤ n ∧
      n < (isqrt_bits n k acc + 1) * (isqrt_bits n k acc + 1) := by
  induction k with
  | zero =>
    intro acc h1 h2
    exact ⟨h1, by simpa [isqrt_bits] using h2⟩
  | succ k ih =>
    intro acc h1 h2
    simp only [isqrt_bits]
    split
    · rename_i h
      apply ih _ h
      have e : acc + 2 ^ k + 2 ^ k = acc + 2 ^ (k + 1) := by
        rw [pow_succ]
        omega
      rw [e]
      exact h2
    · rename_i h
      exact ih _ h1 (not_le.mp h)

theorem isqrt_spec (n : Nat) (hn : n < 2 ^ 64) :
    isqrt n * isqrt n ≤ n ∧ n < (isqrt n + 1) * (isqrt n + 1) := by
  unfold isqrt
  apply isqrt_bits_spec
  · simp
  · calc n < 2 ^ 64 := hn
      _ = (0 + 2 ^ 32) * (0 + 2 ^ 32) := by norm_num

end F32

namespace F32

/-- The integer part of a nonnegative rational. -/
theorem floor_natAbs_div (t : ℚ) (ht : 0 ≤ t) :
    ((t.num.natAbs / t.den : Nat) : ℚ) ≤ t ∧ t < ((t.num.natAbs / t.den : Nat) : ℚ) + 1 := by
  have hD : (0 : ℚ) < (t.den : ℚ) := by exact_mod_cast t.den_pos
  have hdm := Nat.div_add_mod t.num.natAbs t.den
  have hr := Nat.mod_lt t.num.natAbs t.den_pos
  have hN : (t.num.natAbs : ℚ)
      = (t.den : ℚ) * ((t.num.natAbs / t.den : Nat) : ℚ) + ((t.num.natAbs % t.den : Nat) : ℚ) := by
    exact_mod_cast hdm.symm
  have hte : t = ((t.num.natAbs / t.den : Nat) : ℚ)
      + ((t.num.natAbs % t.den : Nat) : ℚ) / (t.den : ℚ) := by
    conv_lhs => rw [rat_eq_natAbs_div t ht, hN]
    field_simp
    ring
  generalize t.num.natAbs / t.den = f at hte ⊢
  generalize t.num.natAbs % t.den = r at hte hr
  have hr0 : (0 : ℚ) ≤ (r : ℚ) / (t.den : ℚ) := div_nonneg (Nat.cast_nonneg r) hD.le
  have hr1 : (r : ℚ) / (t.den : ℚ) < 1 := by
    rw [div_lt_one hD]
    exact_mod_cast hr
  constructor <;> linarith

/-- The significand chosen by `sqrt_pos` is within one half of the exact square root, hence
within the relative distance `2 ^ (-24)`. -/
theorem sqrt_core (t : ℚ) (h1 : 2 ^ 46 ≤ t) (h2 : t < 2 ^ 48) (m : Nat)
    (hm : m =
      if t < (isqrt (t.num.natAbs / t.den) : ℚ) * (isqrt (t.num.natAbs / t.den) : ℚ)
          + (isqrt (t.num.natAbs / t.den) : ℚ) + 1 / 4
      then isqrt (t.num.natAbs / t.den)
      else if (isqrt (t.num.natAbs / t.den) : ℚ) * (isqrt (t.num.natAbs / t.den) : ℚ)
          + (isqrt (t.num.natAbs / t.den) : ℚ) + 1 / 4 < t
      then isqrt (t.num.natAbs / t.den) + 1
      else if isqrt (t.num.natAbs / t.den) % 2 = 0 then isqrt (t.num.natAbs / t.den)
      else isqrt (t.num.natAbs / t.den) + 1) :
    (0 : ℚ) < (m : ℚ) ∧ ((m : ℚ) * (1 - 1 / 2 ^ 24)) ^ 2 ≤ t ∧
      t ≤ ((m : ℚ) * (1 + 1 / 2 ^ 24)) ^ 2 := by
  have ht0 : (0 : ℚ) ≤ t := le_trans (by positivity) h1
  obtain ⟨hf1, hf2⟩ := floor_natAbs_div t ht0
  generalize t.num.natAbs / t.den = n at hm hf1 hf2
  have hn48 : n < 2 ^ 48 := by
    have : (n : ℚ) < ((2 ^ 48 : Nat) : ℚ) := by
      push_cast
      linarith
    exact_mod_cast this
  have hn46 : 2 ^ 46 ≤ n := by
    have : ((2 ^ 46 : Nat) : ℚ) < ((n + 1 : Nat) : ℚ) := by
      push_cast
      linarith
    have h := Nat.cast_lt.mp this
    omega
  obtain ⟨hs1, hs2⟩ := isqrt_spec n (lt_trans hn48 (by norm_num))
  generalize isqrt n = s at hm hs1 hs2
  have hs23 : 2 ^ 23 ≤ s := by
    by_contra hcon
    have hle : s + 1 ≤ 2 ^ 23 := by omega
    have : (s + 1) * (s + 1) ≤ 2 ^ 23 * 2 ^ 23 := Nat.mul_le_mul hle hle
    have e : (2 : Nat) ^ 23 * 2 ^ 23 = 2 ^ 46 := by norm_num
    omega
  have hs1q : (s : ℚ) * (s : ℚ) ≤ (n : ℚ) := by exact_mod_cast hs1
  have hs2q : (n : ℚ) + 1 ≤ ((s : ℚ) + 1) * ((s : ℚ) + 1) := by
    have : n + 1 ≤ (s + 1) * (s + 1) := hs2
    exact_mod_cast this
  have hsq : (2 : ℚ) ^ 23 ≤ (s : ℚ) := by exact_mod_cast hs23
  -- the chosen integer is within one half of the square root
  have hhalf : (0 : ℚ) < (m : ℚ) ∧ (2 : ℚ) ^ 23 ≤ (m : ℚ) ∧
      ((m : ℚ) - 1 / 2) ^ 2 ≤ t ∧ t ≤ ((m : ℚ) + 1 / 2) ^ 2 := by
    have hspos : (0 : ℚ) < (s : ℚ) := lt_of_lt_of_le (by positivity) hsq
    have hs1' : (1 : ℚ) ≤ (s : ℚ) := le_trans (by norm_num) hsq
    have e1 : ((s : ℚ) - 1 / 2) ^ 2 = (s : ℚ) * (s : ℚ) - (s : ℚ) + 1 / 4 := by ring
    have e2 : ((s : ℚ) + 1 / 2) ^ 2 = (s : ℚ) * (s : ℚ) + (s : ℚ) + 1 / 4 := by ring
    have e3 : ((s : ℚ) + 1 - 1 / 2) ^ 2 = (s : ℚ) * (s : ℚ) + (s : ℚ) + 1 / 4 := by ring
    have e4 : ((s : ℚ) + 1 + 1 / 2) ^ 2
        = ((s : ℚ) + 1) * ((s : ℚ) + 1) + (s : ℚ) + 1 + 1 / 4 := by ring
    by_cases c1 : t < (s : ℚ) * (s : ℚ) + (s : ℚ) + 1 / 4
    · rw [if_pos c1] at hm
      rw [hm]
      refine ⟨hspos, hsq, ?_, ?_⟩
      · rw [e1]
        linarith
      · rw [e2]
        linarith
    · rw [if_neg c1] at hm
      by_cases c2 : (s : ℚ) * (s : ℚ) + (s : ℚ) + 1 / 4 < t
      · rw [if_pos c2] at hm
        rw [hm]
        push_cast
        refine ⟨by linarith, by linarith, ?_, ?_⟩
        · rw [e3]
          linarith
        · rw [e4]
          linarith
      · rw [if_neg c2] at hm
        have heq : t = (s : ℚ) * (s : ℚ) + (s : ℚ) + 1 / 4 :=
          le_antisymm (not_lt.mp c2) (not_lt.mp c1)
        by_cases c3 : s % 2 = 0
        · rw [if_pos c3] at hm
          rw [hm]
          refine ⟨hspos, hsq, ?_, ?_⟩
          · rw [e1]
            linarith
          · rw [e2]
            linarith
        · rw [if_neg c3] at hm
          rw [hm]
          push_cast
          refine ⟨by linarith, by linarith, ?_, ?_⟩
          · rw [e3]
            linarith
          · rw [e4]
            linarith
  obtain ⟨hm0, hm23, hlo, hhi⟩ := hhalf
  have hmu : (1 : ℚ) / 2 ≤ (m : ℚ) * (1 / 2 ^ 24) := by
    have : (2 : ℚ) ^ 23 * (1 / 2 ^ 24) = 1 / 2 := by norm_num
    calc (1 : ℚ) / 2 = (2 : ℚ) ^ 23 * (1 / 2 ^ 24) := this.symm
      _ ≤ (m : ℚ) * (1 / 2 ^ 24) := mul_le_mul_of_nonneg_right hm23 (by positivity)
  have hu1 : (0 : ℚ) ≤ 1 - 1 / 2 ^ 24 := by norm_num
  refine ⟨hm0, ?_, ?_⟩
  · have h0 : (0 : ℚ) ≤ (m : ℚ) * (1 - 1 / 2 ^ 24) := mul_nonneg hm0.le hu1
    have hle : (m : ℚ) * (1 - 1 / 2 ^ 24) ≤ (m : ℚ) - 1 / 2 := by linarith
    calc ((m : ℚ) * (1 - 1 / 2 ^ 24)) ^ 2 ≤ ((m : ℚ) - 1 / 2) ^ 2 :=
          pow_le_pow_left₀ h0 hle 2
      _ ≤ t := hlo
  · have h0 : (0 : ℚ) ≤ (m : ℚ) + 1 / 2 := by linarith
    have hle : (m : ℚ) + 1 / 2 ≤ (m : ℚ) * (1 + 1 / 2 ^ 24) := by linarith
    calc t ≤ ((m : ℚ) + 1 / 2) ^ 2 := hhi
      _ ≤ ((m : ℚ) * (1 + 1 / 2 ^ 24)) ^ 2 := pow_le_pow_left₀ h0 hle 2

end F32

namespace F32

theorem pow2_natCast (n : Nat) : pow2 (n : Int) = 2 ^ n := by
  rw [pow2_eq_zpow, zpow_natCast]

/-- The value computed by `sqrt_pos` is within the relative distance `2 ^ (-24)` of the exact
square root. -/
theorem sqrt_pos_spec (a : ℚ) (ha : 0 < a) :
    0 < sqrt_pos a ∧ (sqrt_pos a * (1 - 1 / 2 ^ 24)) ^ 2 ≤ a ∧
      a ≤ (sqrt_pos a * (1 + 1 / 2 ^ 24)) ^ 2 := by
  have hk1 := pow2_ilog2_le a ha
  have hk2 := lt_pow2_ilog2_succ a ha
  unfold sqrt_pos
  simp only
  generalize ilog2 a = k at hk1 hk2 ⊢
  generalize he : k / 2 - 23 = e
  have he1 : 2 * e + 46 ≤ k := by omega
  have he2 : k + 1 ≤ 2 * e + 48 := by omega
  have hp := pow2_pos (2 * e)
  have hpe := pow2_pos e
  have hp2 : pow2 (2 * e) = pow2 e * pow2 e := by
    rw [← pow2_add]
    congr 1
    ring
  have h46 : pow2 (2 * e + 46) = pow2 (2 * e) * 2 ^ 46 := by
    rw [pow2_add, show pow2 (46 : Int) = 2 ^ 46 from pow2_natCast 46]
  have h48 : pow2 (2 * e + 48) = pow2 (2 * e) * 2 ^ 48 := by
    rw [pow2_add, show pow2 (48 : Int) = 2 ^ 48 from pow2_natCast 48]
  have ht1 : (2 : ℚ) ^ 46 ≤ a / pow2 (2 * e) := by
    rw [le_div_iff₀ hp]
    have := pow2_mono _ _ he1
    rw [h46] at this
    linarith
  have ht2 : a / pow2 (2 * e) < (2 : ℚ) ^ 48 := by
    rw [div_lt_iff₀ hp]
    have := pow2_mono _ _ he2
    rw [h48] at this
    linarith
  have hat : a = a / pow2 (2 * e) * (pow2 e * pow2 e) := by
    rw [← hp2]
    field_simp
  generalize a / pow2 (2 * e) = t at ht1 ht2 hat ⊢
  obtain ⟨hm0, hlo, hhi⟩ := sqrt_core t ht1 ht2 _ rfl
  refine ⟨mul_pos hm0 hpe, ?_, ?_⟩
  · rw [hat]
    have := mul_le_mul_of_nonneg_right hlo (mul_nonneg hpe.le hpe.le)
    calc _ = (_ * (1 - 1 / 2 ^ 24)) ^ 2 * (pow2 e * pow2 e) := by ring
      _ ≤ t * (pow2 e * pow2 e) := this
  · rw [hat]
    have := mul_le_mul_of_nonneg_right hhi (mul_nonneg hpe.le hpe.le)
    calc t * (pow2 e * pow2 e) ≤ (_ * (1 + 1 / 2 ^ 24)) ^ 2 * (pow2 e * pow2 e) := this
      _ = _ := by ring

/-- `sqrtf` of a positive finite value is finite and positive, with relative error at most
`2 ^ (-24)`. -/
theorem sqrt_fin (a : ℚ) (ha : 0 < a) :
    ∃ s : ℚ, F32.sqrt (fin a) = fin s ∧ 0 < s ∧
      (s * (1 - 1 / 2 ^ 24)) ^ 2 ≤ a ∧ a ≤ (s * (1 + 1 / 2 ^ 24)) ^ 2 := by
  refine ⟨sqrt_pos a, ?_, sqrt_pos_spec a ha⟩
  simp only [F32.sqrt, if_neg (not_lt.mpr ha.le), if_neg (ne_of_gt ha)]

end F32

namespace F32

theorem fin_mul_fin (a b : ℚ) : (fin a * fin b : F32) = rnd (a * b) := rfl

theorem fin_add_fin (a b : ℚ) : (fin a + fin b : F32) = rnd (a + b) := rfl

theorem fin_div_fin (a b : ℚ) (hb : b ≠ 0) : (fin a / fin b : F32) = rnd (a / b) := by
  show F32.div (fin a) (fin b) = rnd (a / b)
  simp only [F32.div, if_neg hb]

/-- The length computed by `Vector2Length` and `Vector2Normalize` for a finite vector that is
neither tiny nor huge (squares between `2 ^ (-80)` and `2 ^ 80`): finite, positive, and its square is within the relative distance
`2 ^ (-21)` of `a² + b²`. -/
theorem length_fin (a b : ℚ) (ha : |a| ≤ 2 ^ 40) (hb : |b| ≤ 2 ^ 40)
    (hS : 1 / 2 ^ 80 ≤ a * a + b * b) :
    ∃ L : ℚ, F32.sqrt (fin a * fin a + fin b * fin b) = fin L ∧ 0 < L ∧
      (a * a + b * b) * (1 - 1 / 2 ^ 21) ≤ L ^ 2 ∧ L ^ 2 ≤ (a * a + b * b) * (1 + 1 / 2 ^ 21) := by
  have haa : |a * a| ≤ 2 ^ 100 := by
    rw [abs_mul]
    calc |a| * |a| ≤ 2 ^ 40 * 2 ^ 40 := mul_le_mul ha ha (abs_nonneg _) (by positivity)
      _ ≤ 2 ^ 100 := by norm_num
  have hbb : |b * b| ≤ 2 ^ 100 := by
    rw [abs_mul]
    calc |b| * |b| ≤ 2 ^ 40 * 2 ^ 40 := mul_le_mul hb hb (abs_nonneg _) (by positivity)
      _ ≤ 2 ^ 100 := by norm_num
  have ha2 : a * a ≤ 2 ^ 80 := by
    have : |a| * |a| ≤ 2 ^ 40 * 2 ^ 40 := mul_le_mul ha ha (abs_nonneg _) (by positivity)
    rw [abs_mul_abs_self] at this
    linarith
  have hb2 : b * b ≤ 2 ^ 80 := by
    have : |b| * |b| ≤ 2 ^ 40 * 2 ^ 40 := mul_le_mul hb hb (abs_nonneg _) (by positivity)
    rw [abs_mul_abs_self] at this
    linarith
  have ha0 : 0 ≤ a * a := mul_self_nonneg a
  have hb0 : 0 ≤ b * b := mul_self_nonneg b
  obtain ⟨A, hA, hAe, hAn⟩ := rnd_fin (a * a) haa
  obtain ⟨B, hB, hBe, hBn⟩ := rnd_fin (b * b) hbb
  rw [abs_of_nonneg ha0] at hAe
  rw [abs_of_nonneg hb0] at hBe
  have hA0 := hAn ha0
  have hB0 := hBn hb0
  obtain ⟨hA1, hA2⟩ := abs_le.mp hAe
  obtain ⟨hB1, hB2⟩ := abs_le.mp hBe
  have hAB : |A + B| ≤ 2 ^ 100 := by
    rw [abs_of_nonneg (add_nonneg hA0 hB0)]
    have : a * a / 2 ^ 24 ≤ a * a := div_le_self ha0 (by norm_num)
    have : b * b / 2 ^ 24 ≤ b * b := div_le_self hb0 (by norm_num)
    have : (1 : ℚ) / 2 ^ 150 ≤ 1 := by norm_num
    have : (2 : ℚ) ^ 80 + 2 ^ 80 + 2 ^ 80 + 2 ^ 80 + 2 ≤ 2 ^ 100 := by norm_num
    linarith
  obtain ⟨C, hC, hCe, _⟩ := rnd_fin (A + B) hAB
  rw [abs_of_nonneg (add_nonneg hA0 hB0)] at hCe
  obtain ⟨hC1, hC2⟩ := abs_le.mp hCe
  have hCpos : 0 < C := by
    have : (1 : ℚ) / 2 ^ 150 * 4 < 1 / 2 ^ 80 * (1 / 2) := by norm_num
    have h3 : (a * a + b * b) / 2 ^ 24 ≤ (a * a + b * b) * (1 / 4) := by
      rw [div_eq_mul_one_div]
      apply mul_le_mul_of_nonneg_left (by norm_num) (add_nonneg ha0 hb0)
    have h4 : (A + B) / 2 ^ 24 ≤ (A + B) * (1 / 4) := by
      rw [div_eq_mul_one_div]
      apply mul_le_mul_of_nonneg_left (by norm_num) (add_nonneg hA0 hB0)
    have e1 : (a * a + b * b) / 2 ^ 24 = a * a / 2 ^ 24 + b * b / 2 ^ 24 := by ring
    linarith
  obtain ⟨L, hL, hLpos, hL1, hL2⟩ := sqrt_fin C hCpos
  refine ⟨L, ?_, hLpos, ?_, ?_⟩
  · rw [fin_mul_fin, fin_mul_fin, hA, hB, fin_add_fin, hC, hL]
  · have e1 : (L * (1 + 1 / 2 ^ 24)) ^ 2 = L ^ 2 * (1 + 1 / 2 ^ 24) ^ 2 := by ring
    rw [e1] at hL2
    have hS' : (1 : ℚ) / 2 ^ 150 ≤ (a * a + b * b) / 2 ^ 70 := by
      rw [le_div_iff₀ (by positivity)]
      have : (1 : ℚ) / 2 ^ 150 * 2 ^ 70 = 1 / 2 ^ 80 := by norm_num
      linarith
    -- C ≥ (A + B)(1 - u) - η ≥ ((a² + b²)(1 - u) - 2η)(1 - u) - η
    have hCl : (a * a + b * b) * ((1 - 1 / 2 ^ 24) * (1 - 1 / 2 ^ 24) - 3 / 2 ^ 70) ≤ C := by
      have h1 : (a * a + b * b) * (1 - 1 / 2 ^ 24) - 2 * (1 / 2 ^ 150) ≤ A + B := by
        have : (a * a + b * b) * (1 - 1 / 2 ^ 24)
            = a * a + b * b - (a * a / 2 ^ 24 + b * b / 2 ^ 24) := by ring
        linarith
      have h2 : (A + B) * (1 - 1 / 2 ^ 24) - 1 / 2 ^ 150 ≤ C := by
        have : (A + B) * (1 - 1 / 2 ^ 24) = A + B - (A + B) / 2 ^ 24 := by ring
        linarith
      have h3 : ((a * a + b * b) * (1 - 1 / 2 ^ 24) - 2 * (1 / 2 ^ 150)) * (1 - 1 / 2 ^ 24)
          ≤ (A + B) * (1 - 1 / 2 ^ 24) :=
        mul_le_mul_of_nonneg_right h1 (by norm_num)
      have h4 : (a * a + b * b) * ((1 - 1 / 2 ^ 24) * (1 - 1 / 2 ^ 24) - 3 / 2 ^ 70)
          = ((a * a + b * b) * (1 - 1 / 2 ^ 24)) * (1 - 1 / 2 ^ 24)
            - 3 * ((a * a + b * b) / 2 ^ 70) := by ring
      have h5 : ((a * a + b * b) * (1 - 1 / 2 ^ 24) - 2 * (1 / 2 ^ 150)) * (1 - 1 / 2 ^ 24)
          = ((a * a + b * b) * (1 - 1 / 2 ^ 24)) * (1 - 1 / 2 ^ 24)
            - 2 * (1 / 2 ^ 150) * (1 - 1 / 2 ^ 24) := by ring
      have h6 : 2 * (1 / 2 ^ 150) * (1 - 1 / 2 ^ 24) ≤ 2 * ((1 : ℚ) / 2 ^ 150) := by norm_num
      linarith
    have hk : (1 - 1 / 2 ^ 21) * (1 + 1 / 2 ^ 24) ^ 2
        ≤ ((1 : ℚ) - 1 / 2 ^ 24) * (1 - 1 / 2 ^ 24) - 3 / 2 ^ 70 := by norm_num
    have hSn : 0 ≤ a * a + b * b := add_nonneg ha0 hb0
    have h7 := mul_le_mul_of_nonneg_left hk hSn
    have h8 : (a * a + b * b) * (1 - 1 / 2 ^ 21) * (1 + 1 / 2 ^ 24) ^ 2
        ≤ L ^ 2 * (1 + 1 / 2 ^ 24) ^ 2 := by
      have : (a * a + b * b) * (1 - 1 / 2 ^ 21) * (1 + 1 / 2 ^ 24) ^ 2
          = (a * a + b * b) * ((1 - 1 / 2 ^ 21) * (1 + 1 / 2 ^ 24) ^ 2) := by ring
      linarith
    exact le_of_mul_le_mul_right h8 (by positivity)
  · have e1 : (L * (1 - 1 / 2 ^ 24)) ^ 2 = L ^ 2 * (1 - 1 / 2 ^ 24) ^ 2 := by ring
    rw [e1] at hL1
    have hS' : (1 : ℚ) / 2 ^ 150 ≤ (a * a + b * b) / 2 ^ 70 := by
      rw [le_div_iff₀ (by positivity)]
      have : (1 : ℚ) / 2 ^ 150 * 2 ^ 70 = 1 / 2 ^ 80 := by norm_num
      linarith
    have hCu : C ≤ (a * a + b * b) * ((1 + 1 / 2 ^ 24) * (1 + 1 / 2 ^ 24) + 4 / 2 ^ 70) := by
      have h1 : A + B ≤ (a * a + b * b) * (1 + 1 / 2 ^ 24) + 2 * (1 / 2 ^ 150) := by
        have : (a * a + b * b) * (1 + 1 / 2 ^ 24)
            = a * a + b * b + (a * a / 2 ^ 24 + b * b / 2 ^ 24) := by ring
        linarith
      have h2 : C ≤ (A + B) * (1 + 1 / 2 ^ 24) + 1 / 2 ^ 150 := by
        have : (A + B) * (1 + 1 / 2 ^ 24) = A + B + (A + B) / 2 ^ 24 := by ring
        linarith
      have h3 : (A + B) * (1 + 1 / 2 ^ 24)
          ≤ ((a * a + b * b) * (1 + 1 / 2 ^ 24) + 2 * (1 / 2 ^ 150)) * (1 + 1 / 2 ^ 24) :=
        mul_le_mul_of_nonneg_right h1 (by norm_num)
      have h4 : (a * a + b * b) * ((1 + 1 / 2 ^ 24) * (1 + 1 / 2 ^ 24) + 4 / 2 ^ 70)
          = ((a * a + b * b) * (1 + 1 / 2 ^ 24)) * (1 + 1 / 2 ^ 24)
            + 4 * ((a * a + b * b) / 2 ^ 70) := by ring
      have h5 : ((a * a + b * b) * (1 + 1 / 2 ^ 24) + 2 * (1 / 2 ^ 150)) * (1 + 1 / 2 ^ 24)
          = ((a * a + b * b) * (1 + 1 / 2 ^ 24)) * (1 + 1 / 2 ^ 24)
            + 2 * (1 / 2 ^ 150) * (1 + 1 / 2 ^ 24) := by ring
      have h6 : 2 * (1 / 2 ^ 150) * (1 + 1 / 2 ^ 24) ≤ 3 * ((1 : ℚ) / 2 ^ 150) := by norm_num
      linarith
    have hk : ((1 : ℚ) + 1 / 2 ^ 24) * (1 + 1 / 2 ^ 24) + 4 / 2 ^ 70
        ≤ (1 + 1 / 2 ^ 21) * (1 - 1 / 2 ^ 24) ^ 2 := by norm_num
    have hSn : 0 ≤ a * a + b * b := add_nonneg ha0 hb0
    have h7 := mul_le_mul_of_nonneg_left hk hSn
    have h8 : L ^ 2 * (1 - 1 / 2 ^ 24) ^ 2
        ≤ (a * a + b * b) * (1 + 1 / 2 ^ 21) * (1 - 1 / 2 ^ 24) ^ 2 := by
      have : (a * a + b * b) * (1 + 1 / 2 ^ 21) * (1 - 1 / 2 ^ 24) ^ 2
          = (a * a + b * b) * ((1 + 1 / 2 ^ 21) * (1 - 1 / 2 ^ 24) ^ 2) := by ring
      linarith
    exact le_of_mul_le_mul_right h8 (by norm_num)

end F32

namespace F32

theorem abs_le_of_mul_self_le_sq (x y : ℚ) (hy : 0 ≤ y) (h : x * x ≤ y ^ 2) : |x| ≤ y := by
  have h2 : |x| ^ 2 ≤ y ^ 2 := by
    rw [sq_abs, sq]
    exact h
  exact (pow_le_pow_iff_left₀ (abs_nonneg x) hy two_ne_zero).mp h2

/-- One component of `Vector2Normalize`: the product of `a` and the rounded reciprocal of the
length `L` is `a / L` up to the absolute error `2 ^ (-22)`. -/
theorem normalize_component (a L il : ℚ) (hL1 : 1 / 2 ^ 41 ≤ L) (hL2 : L ≤ 2 ^ 41)
    (ha : |a| ≤ L * (1 + 1 / 2 ^ 20))
    (hil : |il - 1 / L| ≤ |1 / L| / 2 ^ 24 + 1 / 2 ^ 150) :
    ∃ nx : ℚ, (fin a * fin il : F32) = fin nx ∧ |nx * L - a| ≤ L / 2 ^ 22 := by
  have hLpos : 0 < L := lt_of_lt_of_le (by positivity) hL1
  have hinv : |1 / L| = 1 / L := abs_of_pos (by positivity)
  rw [hinv] at hil
  have hp : |il * L - 1| ≤ 1 / 2 ^ 24 + 1 / 2 ^ 109 := by
    have e : il * L - 1 = (il - 1 / L) * L := by
      field_simp
    rw [e, abs_mul, abs_of_pos hLpos]
    have h1 := mul_le_mul_of_nonneg_right hil hLpos.le
    have e2 : (1 / L / 2 ^ 24 + 1 / 2 ^ 150) * L = 1 / 2 ^ 24 + L / 2 ^ 150 := by
      field_simp
      ring
    rw [e2] at h1
    have h3 : L / 2 ^ 150 ≤ 1 / 2 ^ 109 := by
      rw [div_le_iff₀ (by positivity)]
      have : (1 : ℚ) / 2 ^ 109 * 2 ^ 150 = 2 ^ 41 := by norm_num
      linarith
    linarith
  have hilL : |il| * L ≤ 1 + 1 / 2 ^ 23 := by
    have e : |il| * L = |il * L| := by rw [abs_mul, abs_of_pos hLpos]
    rw [e]
    have h1 : |il * L| ≤ |il * L - 1| + |(1 : ℚ)| := by
      have := abs_add (il * L - 1) 1
      simpa using this
    rw [abs_one] at h1
    have : (1 : ℚ) / 2 ^ 24 + 1 / 2 ^ 109 ≤ 1 / 2 ^ 23 := by norm_num
    linarith
  have haL : |a * il| ≤ 1 + 1 / 2 ^ 19 := by
    rw [abs_mul]
    have h1 : |a| * |il| ≤ L * (1 + 1 / 2 ^ 20) * |il| :=
      mul_le_mul_of_nonneg_right ha (abs_nonneg _)
    have e : L * (1 + 1 / 2 ^ 20) * |il| = (1 + 1 / 2 ^ 20) * (|il| * L) := by ring
    have h2 : (1 + 1 / 2 ^ 20) * (|il| * L) ≤ (1 + 1 / 2 ^ 20) * (1 + 1 / 2 ^ 23) :=
      mul_le_mul_of_nonneg_left hilL (by norm_num)
    have h3 : ((1 : ℚ) + 1 / 2 ^ 20) * (1 + 1 / 2 ^ 23) ≤ 1 + 1 / 2 ^ 19 := by norm_num
    linarith
  obtain ⟨nx, hnx, hnxe, _⟩ := rnd_fin (a * il) (le_trans haL (by norm_num))
  refine ⟨nx, by rw [fin_mul_fin, hnx], ?_⟩
  have h1 : |nx - a * il| * L ≤ ((1 + 1 / 2 ^ 19) / 2 ^ 24 + 1 / 2 ^ 150) * L := by
    apply mul_le_mul_of_nonneg_right _ hLpos.le
    have : |a * il| / 2 ^ 24 ≤ (1 + 1 / 2 ^ 19) / 2 ^ 24 :=
      div_le_div_of_nonneg_right haL (by positivity)
    linarith
  have h2 : |a| * |il * L - 1| ≤ L * (1 + 1 / 2 ^ 20) * (1 / 2 ^ 24 + 1 / 2 ^ 109) :=
    mul_le_mul ha hp (abs_nonneg _) (by positivity)
  have e : nx * L - a = (nx - a * il) * L + a * (il * L - 1) := by ring
  have h3 : |nx * L - a| ≤ |nx - a * il| * L + |a| * |il * L - 1| := by
    rw [e]
    have := abs_add ((nx - a * il) * L) (a * (il * L - 1))
    rw [abs_mul, abs_mul, abs_of_pos hLpos] at this
    exact this
  have h4 : ((1 + 1 / 2 ^ 19) / 2 ^ 24 + 1 / 2 ^ 150) * L
      + L * (1 + 1 / 2 ^ 20) * (1 / 2 ^ 24 + 1 / 2 ^ 109) ≤ L / 2 ^ 22 := by
    have e2 : ((1 + 1 / 2 ^ 19) / 2 ^ 24 + 1 / 2 ^ 150) * L
        + L * (1 + 1 / 2 ^ 20) * (1 / 2 ^ 24 + 1 / 2 ^ 109)
        = L * ((1 + 1 / 2 ^ 19) / 2 ^ 24 + 1 / 2 ^ 150
          + (1 + 1 / 2 ^ 20) * (1 / 2 ^ 24 + 1 / 2 ^ 109)) := by ring
    have hc : ((1 + 1 / 2 ^ 19) / 2 ^ 24 + 1 / 2 ^ 150
        + (1 + 1 / 2 ^ 20) * (1 / 2 ^ 24 + 1 / 2 ^ 109) : ℚ) ≤ 1 / 2 ^ 22 := by norm_num
    have h5 := mul_le_mul_of_nonneg_left hc hLpos.le
    rw [e2]
    calc L * ((1 + 1 / 2 ^ 19) / 2 ^ 24 + 1 / 2 ^ 150
          + (1 + 1 / 2 ^ 20) * (1 / 2 ^ 24 + 1 / 2 ^ 109)) ≤ L * (1 / 2 ^ 22) := h5
      _ = L / 2 ^ 22 := by ring
  linarith

/-- One component of the final `Vector2Scale`: the product of a normalised component and the
speed `s` is `a * s / L` up to the relative error `3 / 2 ^ 23`. -/
theorem scale_component (a L nx s : ℚ) (hL1 : 1 / 2 ^ 41 ≤ L) (hL2 : L ≤ 2 ^ 41)
    (ha : |a| ≤ L * (1 + 1 / 2 ^ 20)) (hnx : |nx * L - a| ≤ L / 2 ^ 22)
    (hs1 : 1 / 2 ^ 30 ≤ s) (hs2 : s ≤ 2 ^ 30) :
    ∃ vx : ℚ, (fin nx * fin s : F32) = fin vx ∧ |vx * L - a * s| ≤ L * s * (3 / 2 ^ 23) := by
  have hLpos : 0 < L := lt_of_lt_of_le (by positivity) hL1
  have hspos : 0 < s := lt_of_lt_of_le (by positivity) hs1
  have hnxL : |nx| * L ≤ (1 + 1 / 2 ^ 19) * L := by
    have e : |nx| * L = |nx * L| := by rw [abs_mul, abs_of_pos hLpos]
    rw [e]
    have h1 : |nx * L| ≤ |nx * L - a| + |a| := by
      have := abs_add (nx * L - a) a
      simpa using this
    have e2 : (1 + 1 / 2 ^ 19) * L = L / 2 ^ 22 + L * (1 + 1 / 2 ^ 20) + L * (3 / 2 ^ 22) := by
      ring
    have : 0 ≤ L * (3 / 2 ^ 22) := by positivity
    linarith
  have hnx1 : |nx| ≤ 1 + 1 / 2 ^ 19 := le_of_mul_le_mul_right hnxL hLpos
  have hnxs : |nx * s| ≤ (1 + 1 / 2 ^ 19) * s := by
    rw [abs_mul, abs_of_pos hspos]
    exact mul_le_mul_of_nonneg_right hnx1 hspos.le
  have hrange : |nx * s| ≤ 2 ^ 100 := by
    have : (1 + 1 / 2 ^ 19) * s ≤ (1 + 1 / 2 ^ 19) * 2 ^ 30 :=
      mul_le_mul_of_nonneg_left hs2 (by norm_num)
    have : ((1 : ℚ) + 1 / 2 ^ 19) * 2 ^ 30 ≤ 2 ^ 100 := by norm_num
    linarith
  obtain ⟨vx, hvx, hvxe, _⟩ := rnd_fin (nx * s) hrange
  refine ⟨vx, by rw [fin_mul_fin, hvx], ?_⟩
  have e : vx * L - a * s = (vx - nx * s) * L + (nx * L - a) * s := by ring
  have h3 : |vx * L - a * s| ≤ |vx - nx * s| * L + |nx * L - a| * s := by
    rw [e]
    have := abs_add ((vx - nx * s) * L) ((nx * L - a) * s)
    rw [abs_mul, abs_mul, abs_of_pos hLpos, abs_of_pos hspos] at this
    exact this
  have h1 : |vx - nx * s| * L ≤ ((1 + 1 / 2 ^ 19) * s / 2 ^ 24 + 1 / 2 ^ 150) * L := by
    apply mul_le_mul_of_nonneg_right _ hLpos.le
    have : |nx * s| / 2 ^ 24 ≤ (1 + 1 / 2 ^ 19) * s / 2 ^ 24 :=
      div_le_div_of_nonneg_right hnxs (by positivity)
    linarith
  have h2 : |nx * L - a| * s ≤ L / 2 ^ 22 * s := mul_le_mul_of_nonneg_right hnx hspos.le
  have h5 : 1 / 2 ^ 150 * L ≤ L * s / 2 ^ 120 := by
    have hs' : (1 : ℚ) / 2 ^ 150 ≤ s / 2 ^ 120 := by
      rw [le_div_iff₀ (by positivity)]
      have : (1 : ℚ) / 2 ^ 150 * 2 ^ 120 = 1 / 2 ^ 30 := by norm_num
      linarith
    have := mul_le_mul_of_nonneg_left hs' hLpos.le
    have e3 : L * (s / 2 ^ 120) = L * s / 2 ^ 120 := by ring
    have e4 : L * (1 / 2 ^ 150) = 1 / 2 ^ 150 * L := by ring
    linarith
  have hP : 0 < L * s := mul_pos hLpos hspos
  have h6 : ((1 + 1 / 2 ^ 19) * s / 2 ^ 24 + 1 / 2 ^ 150) * L + L / 2 ^ 22 * s
      ≤ L * s * (3 / 2 ^ 23) := by
    have e5 : ((1 + 1 / 2 ^ 19) * s / 2 ^ 24 + 1 / 2 ^ 150) * L + L / 2 ^ 22 * s
        = L * s * ((1 + 1 / 2 ^ 19) / 2 ^ 24 + 1 / 2 ^ 22) + 1 / 2 ^ 150 * L := by ring
    have e6 : L * s * (3 / 2 ^ 23)
        = L * s * ((1 + 1 / 2 ^ 19) / 2 ^ 24 + 1 / 2 ^ 22) + L * s / 2 ^ 120
          + L * s * (3 / 2 ^ 23 - ((1 + 1 / 2 ^ 19) / 2 ^ 24 + 1 / 2 ^ 22) - 1 / 2 ^ 120) := by
      ring
    have h7 : 0 ≤ L * s * (3 / 2 ^ 23 - ((1 + 1 / 2 ^ 19) / 2 ^ 24 + 1 / 2 ^ 22) - 1 / 2 ^ 120) :=
      mul_nonneg hP.le (by norm_num)
    linarith
  linarith

/-- The difference of two squares, for a number `X` close to `p`, relative to a scale `P`. -/
theorem sq_sub_sq_le (X p P d r : ℚ) (hP : 0 ≤ P) (hd : 0 ≤ d) (hr : 0 ≤ r)
    (h1 : |X - p| ≤ d * P) (h2 : |p| ≤ r * P) :
    |X * X - p * p| ≤ d * (d + 2 * r) * (P * P) := by
  have e : X * X - p * p = (X - p) * ((X - p) + 2 * p) := by ring
  rw [e, abs_mul]
  have h3 : |X - p + 2 * p| ≤ d * P + 2 * (r * P) := by
    have := abs_add (X - p) (2 * p)
    rw [abs_mul, abs_two] at this
    linarith
  have h4 : |X - p| * |X - p + 2 * p| ≤ d * P * (d * P + 2 * (r * P)) :=
    mul_le_mul h1 h3 (abs_nonneg _) (mul_nonneg hd hP)
  have e2 : d * P * (d * P + 2 * (r * P)) = d * (d + 2 * r) * (P * P) := by ring
  linarith

end F32

namespace F32

/-- The sum of the squares of the two scaled components is `s²` up to the relative error
`33 / 2 ^ 24`. -/
theorem scaled_sq_sum (a b L s vx vy : ℚ) (hLpos : 0 < L) (hspos : 0 < s)
    (ha : |a| ≤ L * (1 + 1 / 2 ^ 20)) (hb : |b| ≤ L * (1 + 1 / 2 ^ 20))
    (hvx : |vx * L - a * s| ≤ L * s * (3 / 2 ^ 23))
    (hvy : |vy * L - b * s| ≤ L * s * (3 / 2 ^ 23))
    (hS1 : (a * a + b * b) * (1 - 1 / 2 ^ 21) ≤ L ^ 2)
    (hS2 : L ^ 2 ≤ (a * a + b * b) * (1 + 1 / 2 ^ 21)) :
    s ^ 2 * (1 - 33 / 2 ^ 24) ≤ vx * vx + vy * vy ∧
      vx * vx + vy * vy ≤ s ^ 2 * (1 + 33 / 2 ^ 24) := by
  have hP : 0 ≤ L * s := (mul_pos hLpos hspos).le
  have hpa : |a * s| ≤ (1 + 1 / 2 ^ 20) * (L * s) := by
    rw [abs_mul, abs_of_pos hspos]
    have := mul_le_mul_of_nonneg_right ha hspos.le
    have e : L * (1 + 1 / 2 ^ 20) * s = (1 + 1 / 2 ^ 20) * (L * s) := by ring
    linarith
  have hpb : |b * s| ≤ (1 + 1 / 2 ^ 20) * (L * s) := by
    rw [abs_mul, abs_of_pos hspos]
    have := mul_le_mul_of_nonneg_right hb hspos.le
    have e : L * (1 + 1 / 2 ^ 20) * s = (1 + 1 / 2 ^ 20) * (L * s) := by ring
    linarith
  have hvx' : |vx * L - a * s| ≤ 3 / 2 ^ 23 * (L * s) := by
    rw [mul_comm (3 / 2 ^ 23 : ℚ)]
    exact hvx
  have hvy' : |vy * L - b * s| ≤ 3 / 2 ^ 23 * (L * s) := by
    rw [mul_comm (3 / 2 ^ 23 : ℚ)]
    exact hvy
  have hx := sq_sub_sq_le (vx * L) (a * s) (L * s) (3 / 2 ^ 23) (1 + 1 / 2 ^ 20) hP
    (by norm_num) (by norm_num) hvx' hpa
  have hy := sq_sub_sq_le (vy * L) (b * s) (L * s) (3 / 2 ^ 23) (1 + 1 / 2 ^ 20) hP
    (by norm_num) (by norm_num) hvy' hpb
  obtain ⟨hx1, hx2⟩ := abs_le.mp hx
  obtain ⟨hy1, hy2⟩ := abs_le.mp hy
  -- the atoms: U = L², W = s², T = vx² + vy², SW = (a² + b²) s²
  have hU : 0 < L ^ 2 := by positivity
  have hW : 0 < s ^ 2 := by positivity
  have hUW : 0 ≤ L ^ 2 * s ^ 2 := by positivity
  have eT : vx * L * (vx * L) + vy * L * (vy * L) = L ^ 2 * (vx * vx + vy * vy) := by ring
  have eS : a * s * (a * s) + b * s * (b * s) = (a * a + b * b) * s ^ 2 := by ring
  have eP : L * s * (L * s) = L ^ 2 * s ^ 2 := by ring
  rw [eP] at hx1 hx2 hy1 hy2
  have hc : (3 / 2 ^ 23 : ℚ) * (3 / 2 ^ 23 + 2 * (1 + 1 / 2 ^ 20)) ≤ 49 / 2 ^ 26 := by norm_num
  have hcc := mul_le_mul_of_nonneg_right hc hUW
  have hup : L ^ 2 * (vx * vx + vy * vy)
      ≤ (a * a + b * b) * s ^ 2 + 49 / 2 ^ 25 * (L ^ 2 * s ^ 2) := by
    rw [← eT, ← eS]
    linarith
  have hlo : (a * a + b * b) * s ^ 2 - 49 / 2 ^ 25 * (L ^ 2 * s ^ 2)
      ≤ L ^ 2 * (vx * vx + vy * vy) := by
    rw [← eT, ← eS]
    linarith
  have hS1W := mul_le_mul_of_nonneg_right hS1 hW.le
  have hS2W := mul_le_mul_of_nonneg_right hS2 hW.le
  constructor
  · -- lower bound
    have hk : ((1 : ℚ) - 33 / 2 ^ 24) * (1 + 1 / 2 ^ 21)
        ≤ 1 - 49 / 2 ^ 25 * (1 + 1 / 2 ^ 21) := by norm_num
    have h1 := mul_le_mul_of_nonneg_right hk hUW
    have h2 : L ^ 2 * (s ^ 2 * (1 - 33 / 2 ^ 24)) * (1 + 1 / 2 ^ 21)
        ≤ L ^ 2 * (vx * vx + vy * vy) * (1 + 1 / 2 ^ 21) := by
      have e1 : L ^ 2 * (s ^ 2 * (1 - 33 / 2 ^ 24)) * (1 + 1 / 2 ^ 21)
          = (1 - 33 / 2 ^ 24) * (1 + 1 / 2 ^ 21) * (L ^ 2 * s ^ 2) := by ring
      have e2 : (1 - 49 / 2 ^ 25 * (1 + 1 / 2 ^ 21)) * (L ^ 2 * s ^ 2)
          = L ^ 2 * s ^ 2 - 49 / 2 ^ 25 * (L ^ 2 * s ^ 2) * (1 + 1 / 2 ^ 21) := by ring
      have h3 := mul_le_mul_of_nonneg_right hlo (by norm_num : (0 : ℚ) ≤ 1 + 1 / 2 ^ 21)
      have e3 : ((a * a + b * b) * s ^ 2 - 49 / 2 ^ 25 * (L ^ 2 * s ^ 2)) * (1 + 1 / 2 ^ 21)
          = (a * a + b * b) * (1 + 1 / 2 ^ 21) * s ^ 2
            - 49 / 2 ^ 25 * (L ^ 2 * s ^ 2) * (1 + 1 / 2 ^ 21) := by ring
      linarith
    have h4 : 0 < L ^ 2 * (1 + 1 / 2 ^ 21) := by positivity
    have e5 : L ^ 2 * (s ^ 2 * (1 - 33 / 2 ^ 24)) * (1 + 1 / 2 ^ 21)
        = s ^ 2 * (1 - 33 / 2 ^ 24) * (L ^ 2 * (1 + 1 / 2 ^ 21)) := by ring
    have e6 : L ^ 2 * (vx * vx + vy * vy) * (1 + 1 / 2 ^ 21)
        = (vx * vx + vy * vy) * (L ^ 2 * (1 + 1 / 2 ^ 21)) := by ring
    rw [e5, e6] at h2
    exact le_of_mul_le_mul_right h2 h4
  · -- upper bound
    have hk : (1 : ℚ) + 49 / 2 ^ 25 * (1 - 1 / 2 ^ 21)
        ≤ (1 + 33 / 2 ^ 24) * (1 - 1 / 2 ^ 21) := by norm_num
    have h1 := mul_le_mul_of_nonneg_right hk hUW
    have h2 : L ^ 2 * (vx * vx + vy * vy) * (1 - 1 / 2 ^ 21)
        ≤ L ^ 2 * (s ^ 2 * (1 + 33 / 2 ^ 24)) * (1 - 1 / 2 ^ 21) := by
      have e1 : L ^ 2 * (s ^ 2 * (1 + 33 / 2 ^ 24)) * (1 - 1 / 2 ^ 21)
          = (1 + 33 / 2 ^ 24) * (1 - 1 / 2 ^ 21) * (L ^ 2 * s ^ 2) := by ring
      have e2 : (1 + 49 / 2 ^ 25 * (1 - 1 / 2 ^ 21)) * (L ^ 2 * s ^ 2)
          = L ^ 2 * s ^ 2 + 49 / 2 ^ 25 * (L ^ 2 * s ^ 2) * (1 - 1 / 2 ^ 21) := by ring
      have h3 := mul_le_mul_of_nonneg_right hup (by norm_num : (0 : ℚ) ≤ 1 - 1 / 2 ^ 21)
      have e3 : ((a * a + b * b) * s ^ 2 + 49 / 2 ^ 25 * (L ^ 2 * s ^ 2)) * (1 - 1 / 2 ^ 21)
          = (a * a + b * b) * (1 - 1 / 2 ^ 21) * s ^ 2
            + 49 / 2 ^ 25 * (L ^ 2 * s ^ 2) * (1 - 1 / 2 ^ 21) := by ring
      linarith
    have h4 : 0 < L ^ 2 * (1 - 1 / 2 ^ 21) := by
      apply mul_pos hU
      norm_num
    have e5 : L ^ 2 * (vx * vx + vy * vy) * (1 - 1 / 2 ^ 21)
        = (vx * vx + vy * vy) * (L ^ 2 * (1 - 1 / 2 ^ 21)) := by ring
    have e6 : L ^ 2 * (s ^ 2 * (1 + 33 / 2 ^ 24)) * (1 - 1 / 2 ^ 21)
        = s ^ 2 * (1 + 33 / 2 ^ 24) * (L ^ 2 * (1 - 1 / 2 ^ 21)) := by ring
    rw [e5, e6] at h2
    exact le_of_mul_le_mul_right h2 h4

/-- The length of the scaled vector, as computed by `Vector2Length`, is `s` up to the relative
error `2 ^ (-19)`. -/
theorem scaled_length (s vx vy : ℚ) (hs1 : 1 / 2 ^ 30 ≤ s) (hs2 : s ≤ 2 ^ 30)
    (hT1 : s ^ 2 * (1 - 33 / 2 ^ 24) ≤ vx * vx + vy * vy)
    (hT2 : vx * vx + vy * vy ≤ s ^ 2 * (1 + 33 / 2 ^ 24)) :
    ∃ M : ℚ, F32.sqrt (fin vx * fin vx + fin vy * fin vy) = fin M ∧
      s * (1 - 1 / 2 ^ 19) ≤ M ∧ M ≤ s * (1 + 1 / 2 ^ 19) := by
  have hspos : 0 < s := lt_of_lt_of_le (by positivity) hs1
  have hs2lo : (1 / 2 ^ 30 : ℚ) ^ 2 ≤ s ^ 2 := pow_le_pow_left₀ (by positivity) hs1 2
  have hs2hi : s ^ 2 ≤ (2 ^ 30 : ℚ) ^ 2 := pow_le_pow_left₀ hspos.le hs2 2
  have hT2' : vx * vx + vy * vy ≤ (2 ^ 40 : ℚ) ^ 2 := by
    have h1 := mul_le_mul_of_nonneg_right hs2hi (by norm_num : (0 : ℚ) ≤ 1 + 33 / 2 ^ 24)
    have : ((2 : ℚ) ^ 30) ^ 2 * (1 + 33 / 2 ^ 24) ≤ (2 ^ 40) ^ 2 := by norm_num
    linarith
  have hvx : |vx| ≤ 2 ^ 40 :=
    abs_le_of_mul_self_le_sq vx _ (by positivity) (by linarith [mul_self_nonneg vy])
  have hvy : |vy| ≤ 2 ^ 40 :=
    abs_le_of_mul_self_le_sq vy _ (by positivity) (by linarith [mul_self_nonneg vx])
  have hT1' : 1 / 2 ^ 80 ≤ vx * vx + vy * vy := by
    have h1 := mul_le_mul_of_nonneg_right hs2lo (by norm_num : (0 : ℚ) ≤ 1 - 33 / 2 ^ 24)
    have : (1 : ℚ) / 2 ^ 80 ≤ (1 / 2 ^ 30) ^ 2 * (1 - 33 / 2 ^ 24) := by norm_num
    linarith
  obtain ⟨M, hM, hMpos, hM1, hM2⟩ := length_fin vx vy hvx hvy hT1'
  refine ⟨M, hM, ?_, ?_⟩
  · have h0 : 0 ≤ s * (1 - 1 / 2 ^ 19) := mul_nonneg hspos.le (by norm_num)
    apply (pow_le_pow_iff_left₀ h0 hMpos.le two_ne_zero).mp
    have hk : ((1 : ℚ) - 1 / 2 ^ 19) ^ 2 ≤ (1 - 33 / 2 ^ 24) * (1 - 1 / 2 ^ 21) := by norm_num
    have h1 := mul_le_mul_of_nonneg_left hk (by positivity : (0 : ℚ) ≤ s ^ 2)
    have h2 := mul_le_mul_of_nonneg_right hT1 (by norm_num : (0 : ℚ) ≤ 1 - 1 / 2 ^ 21)
    calc (s * (1 - 1 / 2 ^ 19)) ^ 2 = s ^ 2 * (1 - 1 / 2 ^ 19) ^ 2 := by ring
      _ ≤ s ^ 2 * ((1 - 33 / 2 ^ 24) * (1 - 1 / 2 ^ 21)) := h1
      _ = s ^ 2 * (1 - 33 / 2 ^ 24) * (1 - 1 / 2 ^ 21) := by ring
      _ ≤ (vx * vx + vy * vy) * (1 - 1 / 2 ^ 21) := h2
      _ ≤ M ^ 2 := hM1
  · have h0 : 0 ≤ s * (1 + 1 / 2 ^ 19) := mul_nonneg hspos.le (by norm_num)
    apply (pow_le_pow_iff_left₀ hMpos.le h0 two_ne_zero).mp
    have hk : ((1 : ℚ) + 33 / 2 ^ 24) * (1 + 1 / 2 ^ 21) ≤ (1 + 1 / 2 ^ 19) ^ 2 := by norm_num
    have h1 := mul_le_mul_of_nonneg_left hk (by positivity : (0 : ℚ) ≤ s ^ 2)
    have h2 := mul_le_mul_of_nonneg_right hT2 (by norm_num : (0 : ℚ) ≤ 1 + 1 / 2 ^ 21)
    calc M ^ 2 ≤ (vx * vx + vy * vy) * (1 + 1 / 2 ^ 21) := hM2
      _ ≤ s ^ 2 * (1 + 33 / 2 ^ 24) * (1 + 1 / 2 ^ 21) := h2
      _ = s ^ 2 * ((1 + 33 / 2 ^ 24) * (1 + 1 / 2 ^ 21)) := by ring
      _ ≤ s ^ 2 * (1 + 1 / 2 ^ 19) ^ 2 := h1
      _ = (s * (1 + 1 / 2 ^ 19)) ^ 2 := by ring

end F32

namespace F32

end F32

/-! ## The speed clamp at binary32: rounding error -/

section SpeedError

set_option maxRecDepth 100000

namespace F32

theorem lit_zero : (0.0 : F32) = fin 0 := by decide!

theorem lit_one : (1.0 : F32) = fin 1 := by decide!

theorem fin_lt_fin (a b : ℚ) : (fin a : F32) < fin b ↔ a < b := by
  rw [lt_iff]
  simp [F32.lt]

end F32

/-- At binary32 `Clamp` of finite values with `min ≤ max` is a finite value of `[min, max]`. -/
theorem Clamp_fin (L l h : ℚ) (hlh : l ≤ h) :
    ∃ s : ℚ, Clamp (F32.fin L) (F32.fin l) (F32.fin h) = F32.fin s ∧ l ≤ s ∧ s ≤ h := by
  unfold Clamp
  simp only
  by_cases h1 : L < l
  · rw [if_pos ((F32.fin_lt_fin L l).mpr h1),
      if_neg (fun hc => absurd ((F32.fin_lt_fin h l).mp hc) (not_lt.mpr hlh))]
    exact ⟨l, rfl, le_refl l, hlh⟩
  · rw [if_neg (fun hc => h1 ((F32.fin_lt_fin L l).mp hc))]
    by_cases h2 : h < L
    · rw [if_pos ((F32.fin_lt_fin h L).mpr h2)]
      exact ⟨h, rfl, hlh, le_refl h⟩
    · rw [if_neg (fun hc => h2 ((F32.fin_lt_fin h L).mp hc))]
      exact ⟨L, rfl, not_lt.mp h1, not_lt.mp h2⟩

/-- The speed clamp at binary32, with its rounding error: for a finite velocity `(a, b)` of
length between `2 ^ (-30)` and `2 ^ 30` and limits `2 ^ (-30) ≤ min ≤ max ≤ 2 ^ 30`, the
velocity written by lines 173 to 175 is a finite vector `(vx, vy)` whose exact length and whose
length `M` as computed by `Vector2Length` both lie between `min * (1 - 2 ^ (-19))` and
`max * (1 + 2 ^ (-19))`. -/
theorem speed_near_clamp (a b l h : ℚ) (ha : |a| ≤ 2 ^ 30) (hb : |b| ≤ 2 ^ 30)
    (hS : 1 / 2 ^ 60 ≤ a * a + b * b) (hl : 1 / 2 ^ 30 ≤ l) (hlh : l ≤ h) (hh : h ≤ 2 ^ 30) :
    ∃ vx vy M : ℚ,
      Vector2Scale (Vector2Normalize (⟨F32.fin a, F32.fin b⟩ : Vector2 F32))
          (Clamp (Vector2Length (⟨F32.fin a, F32.fin b⟩ : Vector2 F32))
            (F32.fin l) (F32.fin h)) = ⟨F32.fin vx, F32.fin vy⟩ ∧
      (l * (1 - 1 / 2 ^ 19)) ^ 2 ≤ vx * vx + vy * vy ∧
      vx * vx + vy * vy ≤ (h * (1 + 1 / 2 ^ 19)) ^ 2 ∧
      Vector2Length (⟨F32.fin vx, F32.fin vy⟩ : Vector2 F32) = F32.fin M ∧
      l * (1 - 1 / 2 ^ 19) ≤ M ∧ M ≤ h * (1 + 1 / 2 ^ 19) := by
  obtain ⟨L, hL, hLpos, hS1, hS2⟩ := F32.length_fin a b
    (le_trans ha (by norm_num)) (le_trans hb (by norm_num)) (le_trans (by norm_num) hS)
  have ha0 : 0 ≤ a * a := mul_self_nonneg a
  have hb0 : 0 ≤ b * b := mul_self_nonneg b
  have hSn : 0 ≤ a * a + b * b := add_nonneg ha0 hb0
  have ha2 : a * a ≤ 2 ^ 60 := by
    have : |a| * |a| ≤ 2 ^ 30 * 2 ^ 30 := mul_le_mul ha ha (abs_nonneg _) (by positivity)
    rw [abs_mul_abs_self] at this
    linarith
  have hb2 : b * b ≤ 2 ^ 60 := by
    have : |b| * |b| ≤ 2 ^ 30 * 2 ^ 30 := mul_le_mul hb hb (abs_nonneg _) (by positivity)
    rw [abs_mul_abs_self] at this
    linarith
  -- the range of the length
  have hL2 : L ≤ 2 ^ 41 := by
    have h1 : L ^ 2 ≤ (2 ^ 41 : ℚ) ^ 2 := by
      have h2 : (a * a + b * b) * (1 + 1 / 2 ^ 21) ≤ (2 ^ 60 + 2 ^ 60) * (1 + 1 / 2 ^ 21) :=
        mul_le_mul_of_nonneg_right (by linarith) (by norm_num)
      have : ((2 : ℚ) ^ 60 + 2 ^ 60) * (1 + 1 / 2 ^ 21) ≤ (2 ^ 41) ^ 2 := by norm_num
      linarith
    exact (pow_le_pow_iff_left₀ hLpos.le (by positivity) two_ne_zero).mp h1
  have hL1 : 1 / 2 ^ 41 ≤ L := by
    have h1 : (1 / 2 ^ 41 : ℚ) ^ 2 ≤ L ^ 2 := by
      have h2 : 1 / 2 ^ 60 * (1 - 1 / 2 ^ 21) ≤ (a * a + b * b) * (1 - 1 / 2 ^ 21) :=
        mul_le_mul_of_nonneg_right hS (by norm_num)
      have : ((1 : ℚ) / 2 ^ 41) ^ 2 ≤ 1 / 2 ^ 60 * (1 - 1 / 2 ^ 21) := by norm_num
      linarith
    exact (pow_le_pow_iff_left₀ (by positivity) hLpos.le two_ne_zero).mp h1
  -- each component is at most the length, up to rounding
  have hSL : a * a + b * b ≤ (L * (1 + 1 / 2 ^ 20)) ^ 2 := by
    have hk : (1 : ℚ) ≤ (1 - 1 / 2 ^ 21) * (1 + 1 / 2 ^ 20) ^ 2 := by norm_num
    have h1 := mul_le_mul_of_nonneg_left hk hSn
    have h2 := mul_le_mul_of_nonneg_right hS1 (by positivity : (0 : ℚ) ≤ (1 + 1 / 2 ^ 20) ^ 2)
    calc a * a + b * b = (a * a + b * b) * 1 := by ring
      _ ≤ (a * a + b * b) * ((1 - 1 / 2 ^ 21) * (1 + 1 / 2 ^ 20) ^ 2) := h1
      _ = (a * a + b * b) * (1 - 1 / 2 ^ 21) * (1 + 1 / 2 ^ 20) ^ 2 := by ring
      _ ≤ L ^ 2 * (1 + 1 / 2 ^ 20) ^ 2 := h2
      _ = (L * (1 + 1 / 2 ^ 20)) ^ 2 := by ring
  have haL : |a| ≤ L * (1 + 1 / 2 ^ 20) :=
    F32.abs_le_of_mul_self_le_sq a _ (by positivity) (by linarith)
  have hbL : |b| ≤ L * (1 + 1 / 2 ^ 20) :=
    F32.abs_le_of_mul_self_le_sq b _ (by positivity) (by linarith)
  -- the reciprocal of the length
  have hinv : |1 / L| ≤ 2 ^ 100 := by
    rw [abs_of_pos (by positivity)]
    rw [div_le_iff₀ hLpos]
    have : (1 : ℚ) ≤ 2 ^ 100 * (1 / 2 ^ 41) := by norm_num
    have := mul_le_mul_of_nonneg_left hL1 (by positivity : (0 : ℚ) ≤ 2 ^ 100)
    linarith
  obtain ⟨il, hil, hile, _⟩ := F32.rnd_fin (1 / L) hinv
  obtain ⟨nx, hnx, hnxe⟩ := F32.normalize_component a L il hL1 hL2 haL hile
  obtain ⟨ny, hny, hnye⟩ := F32.normalize_component b L il hL1 hL2 hbL hile
  obtain ⟨s, hs, hs1, hs2⟩ := Clamp_fin L l h hlh
  have hs1' : 1 / 2 ^ 30 ≤ s := le_trans hl hs1
  have hs2' : s ≤ 2 ^ 30 := le_trans hs2 hh
  have hspos : 0 < s := lt_of_lt_of_le (by positivity) hs1'
  obtain ⟨vx, hvx, hvxe⟩ := F32.scale_component a L nx s hL1 hL2 haL hnxe hs1' hs2'
  obtain ⟨vy, hvy, hvye⟩ := F32.scale_component b L ny s hL1 hL2 hbL hnye hs1' hs2'
  obtain ⟨hT1, hT2⟩ := F32.scaled_sq_sum a b L s vx vy hLpos hspos haL hbL hvxe hvye hS1 hS2
  obtain ⟨M, hM, hM1, hM2⟩ := F32.scaled_length s vx vy hs1' hs2' hT1 hT2
  have hlen : Vector2Length (⟨F32.fin a, F32.fin b⟩ : Vector2 F32) = F32.fin L := hL
  have hnorm : Vector2Normalize (⟨F32.fin a, F32.fin b⟩ : Vector2 F32)
      = ⟨F32.fin nx, F32.fin ny⟩ := by
    unfold Vector2Normalize
    simp only
    have hL' : sqrtf (F32.fin a * F32.fin a + F32.fin b * F32.fin b) = F32.fin L := hL
    rw [hL', F32.lit_zero, if_pos ((F32.fin_lt_fin 0 L).mpr hLpos), F32.lit_one,
      F32.fin_div_fin 1 L (ne_of_gt hLpos), hil, hnx, hny]
  have hlpos : 0 < l := lt_of_lt_of_le (by positivity) hl
  have hlo : l * (1 - 1 / 2 ^ 19) ≤ s * (1 - 1 / 2 ^ 19) :=
    mul_le_mul_of_nonneg_right hs1 (by norm_num)
  have hhi : s * (1 + 1 / 2 ^ 19) ≤ h * (1 + 1 / 2 ^ 19) :=
    mul_le_mul_of_nonneg_right hs2 (by norm_num)
  have hl0 : 0 ≤ l * (1 - 1 / 2 ^ 19) := mul_nonneg hlpos.le (by norm_num)
  have hs0 : 0 ≤ s * (1 + 1 / 2 ^ 19) := mul_nonneg hspos.le (by norm_num)
  refine ⟨vx, vy, M, ?_, ?_, ?_, hM, le_trans hlo hM1, le_trans hM2 hhi⟩
  · rw [hlen, hnorm, hs]
    show (⟨F32.fin nx * F32.fin s, F32.fin ny * F32.fin s⟩ : Vector2 F32) = _
    rw [hvx, hvy]
  · have hk : ((1 : ℚ) - 1 / 2 ^ 19) ^ 2 ≤ 1 - 33 / 2 ^ 24 := by norm_num
    have h1 := mul_le_mul_of_nonneg_left hk (by positivity : (0 : ℚ) ≤ s ^ 2)
    calc (l * (1 - 1 / 2 ^ 19)) ^ 2 ≤ (s * (1 - 1 / 2 ^ 19)) ^ 2 :=
          pow_le_pow_left₀ hl0 hlo 2
      _ = s ^ 2 * (1 - 1 / 2 ^ 19) ^ 2 := by ring
      _ ≤ s ^ 2 * (1 - 33 / 2 ^ 24) := h1
      _ ≤ vx * vx + vy * vy := hT1
  · have hk : (1 : ℚ) + 33 / 2 ^ 24 ≤ (1 + 1 / 2 ^ 19) ^ 2 := by norm_num
    have h1 := mul_le_mul_of_nonneg_left hk (by positivity : (0 : ℚ) ≤ s ^ 2)
    calc vx * vx + vy * vy ≤ s ^ 2 * (1 + 33 / 2 ^ 24) := hT2
      _ ≤ s ^ 2 * (1 + 1 / 2 ^ 19) ^ 2 := h1
      _ = (s * (1 + 1 / 2 ^ 19)) ^ 2 := by ring
      _ ≤ (h * (1 + 1 / 2 ^ 19)) ^ 2 := pow_le_pow_left₀ hs0 hhi 2

end SpeedError

/-! ## The speed clamp at binary32 -/

section Speed32

set_option maxRecDepth 100000

open F32

theorem update_start32 (dt : F32) (mouse : Vector2 F32) :
    update dt mouse start32 slot0 = lone_update dt mouse boid32 := by
  rw [update_slot_lone dt mouse start32 slot0 start32_spawned start32_others, start32_slot0]

theorem integrated_start32 (dt : F32) (mouse : Vector2 F32) :
    integrated_velocity dt (store_at dt mouse start32 slot0) slot0
      = lone_integrated dt { boid32 with target := mouse } := by
  rw [integrated_velocity_store_at_lone dt mouse start32 slot0 start32_others, start32_slot0]

/-- C4, as stated, fails in binary32. After `spawn_boid` at `(0, 0)` the only spawned boid has
mass 1 and speed limits 50 and 100. One call of `update` with `dt = 0.5` and target `(60, 80)`
integrates the velocity to `(15, 20)`, which is not zero, and ends with the velocity
`(29.9999981, 39.9999962)`, whose length is below `min_speed`, both the exact length and the
length `49.9999962` computed by `Vector2Length`. With target `(288, 384)` the integrated
velocity is `(72, 96)`, the final velocity is `(60.0000038, 80.0000076)`, and its length (exact,
or `100.000008` as computed) is above `max_speed`. -/
theorem speed_outside_interval :
    (∀ j : Fin MAX_N_BOIDS, (start32 j).is_spawned = true →
      (0.0 : F32) < (start32 j).mass ∧ (0.0 : F32) < (start32 j).min_speed ∧
      (start32 j).min_speed ≤ (start32 j).max_speed) ∧
    (0.0 : F32) < fin (1 / 2) ∧
    (start32 slot0).is_spawned = true ∧
    integrated_velocity (fin (1 / 2)) (store_at (fin (1 / 2)) ⟨fin 60, fin 80⟩ start32 slot0) slot0
      = ⟨fin 15, fin 20⟩ ∧
    (update (fin (1 / 2)) ⟨fin 60, fin 80⟩ start32 slot0).velocity
      = ⟨fin (15728639 / 524288), fin (10485759 / 262144)⟩ ∧
    Vector2Length (update (fin (1 / 2)) ⟨fin 60, fin 80⟩ start32 slot0).velocity
      = fin (13107199 / 262144) ∧
    Vector2Length (update (fin (1 / 2)) ⟨fin 60, fin 80⟩ start32 slot0).velocity
      < (start32 slot0).min_speed ∧
    (15728639 / 524288 : ℚ) ^ 2 + (10485759 / 262144 : ℚ) ^ 2 < 50 ^ 2 ∧
    integrated_velocity (fin (1 / 2)) (store_at (fin (1 / 2)) ⟨fin 288, fin 384⟩ start32 slot0)
      slot0 = ⟨fin 72, fin 96⟩ ∧
    (update (fin (1 / 2)) ⟨fin 288, fin 384⟩ start32 slot0).velocity
      = ⟨fin (15728641 / 262144), fin (10485761 / 131072)⟩ ∧
    Vector2Length (update (fin (1 / 2)) ⟨fin 288, fin 384⟩ start32 slot0).velocity
      = fin (13107201 / 131072) ∧
    (start32 slot0).max_speed
      < Vector2Length (update (fin (1 / 2)) ⟨fin 288, fin 384⟩ start32 slot0).velocity ∧
    (100 : ℚ) ^ 2 < (15728641 / 262144 : ℚ) ^ 2 + (10485761 / 131072 : ℚ) ^ 2 := by
  refine ⟨?_, by decide!, start32_spawned, ?_, ?_, ?_, ?_, by norm_num, ?_, ?_, ?_, ?_,
    by norm_num⟩
  · intro j hj
    by_cases hj0 : j = slot0
    · rw [hj0, start32_slot0]
      decide!
    · rw [start32_others j hj0] at hj
      exact absurd hj (by decide)
  · rw [integrated_start32]
    decide!
  · rw [update_start32]
    decide!
  · rw [update_start32]
    decide!
  · rw [update_start32, start32_slot0]
    decide!
  · rw [integrated_start32]
    decide!
  · rw [update_start32]
    decide!
  · rw [update_start32]
    decide!
  · rw [update_start32, start32_slot0]
    decide!

/-- C4, amended: for every array, `dt` and target, a spawned boid ends `update` with the
velocity `normalize(w) * s`, computed in binary32, where `w` is its velocity after the force
integration of line 171 and `s = Clamp(|w|, min_speed, max_speed)`. When
`min_speed ≤ max_speed` and `|w|` is not NaN, the factor `s` lies in
`[min_speed, max_speed]`. When `w = (a, b)` is finite with `|a|, |b| ≤ 2³⁰` and
`a² + b² ≥ 2⁻⁶⁰`, and `2⁻³⁰ ≤ min_speed ≤ max_speed ≤ 2³⁰`, the final velocity is finite and
its length lies in `[min_speed * (1 - 2⁻¹⁹), max_speed * (1 + 2⁻¹⁹)]`, both the exact length
`√(vx² + vy²)` and the length computed by `Vector2Length`. -/
theorem update_speed_clamp (dt : F32) (mouse : Vector2 F32) (BOIDS : Store F32)
    (i : Fin MAX_N_BOIDS) (hi : (BOIDS i).is_spawned = true) :
    (update dt mouse BOIDS i).velocity =
      Vector2Scale (Vector2Normalize (integrated_velocity dt (store_at dt mouse BOIDS i) i))
        (Clamp (Vector2Length (integrated_velocity dt (store_at dt mouse BOIDS i) i))
          (BOIDS i).min_speed (BOIDS i).max_speed) ∧
    ((BOIDS i).min_speed ≤ (BOIDS i).max_speed →
      Vector2Length (integrated_velocity dt (store_at dt mouse BOIDS i) i) ≠ nan →
      (BOIDS i).min_speed ≤
        Clamp (Vector2Length (integrated_velocity dt (store_at dt mouse BOIDS i) i))
          (BOIDS i).min_speed (BOIDS i).max_speed ∧
      Clamp (Vector2Length (integrated_velocity dt (store_at dt mouse BOIDS i) i))
          (BOIDS i).min_speed (BOIDS i).max_speed ≤ (BOIDS i).max_speed) ∧
    (∀ a b l h : ℚ,
      integrated_velocity dt (store_at dt mouse BOIDS i) i = ⟨fin a, fin b⟩ →
      (BOIDS i).min_speed = fin l → (BOIDS i).max_speed = fin h →
      |a| ≤ 2 ^ 30 → |b| ≤ 2 ^ 30 → 1 / 2 ^ 60 ≤ a * a + b * b →
      1 / 2 ^ 30 ≤ l → l ≤ h → h ≤ 2 ^ 30 →
      ∃ vx vy M : ℚ,
        (update dt mouse BOIDS i).velocity = ⟨fin vx, fin vy⟩ ∧
        (l * (1 - 1 / 2 ^ 19)) ^ 2 ≤ vx * vx + vy * vy ∧
        vx * vx + vy * vy ≤ (h * (1 + 1 / 2 ^ 19)) ^ 2 ∧
        Vector2Length (update dt mouse BOIDS i).velocity = fin M ∧
        l * (1 - 1 / 2 ^ 19) ≤ M ∧ M ≤ h * (1 + 1 / 2 ^ 19)) := by
  have hS : store_at dt mouse BOIDS i i = { BOIDS i with target := mouse } := by
    rw [store_at_eq, Function.update_same]
  have hvel : (update dt mouse BOIDS i).velocity =
      Vector2Scale (Vector2Normalize (integrated_velocity dt (store_at dt mouse BOIDS i) i))
        (Clamp (Vector2Length (integrated_velocity dt (store_at dt mouse BOIDS i) i))
          (BOIDS i).min_speed (BOIDS i).max_speed) := by
    rw [update_of_spawned dt mouse BOIDS i hi]
    show clamped_velocity dt (store_at dt mouse BOIDS i) i = _
    unfold clamped_velocity
    simp only [hS]
  refine ⟨hvel, fun hle hv => Clamp_bounds32 _ _ _ hle hv, ?_⟩
  intro a b l h hw hmin hmax ha hb hab hl hlh hh
  obtain ⟨vx, vy, M, h1, h2, h3, h4, h5, h6⟩ := speed_near_clamp a b l h ha hb hab hl hlh hh
  rw [hvel, hw, hmin, hmax, h1]
  exact ⟨vx, vy, M, rfl, h2, h3, h4, h5, h6⟩

theorem update_speed_clamp_witness :
    (start32 slot0).is_spawned = true ∧
    (update (fin (1 / 2)) ⟨fin 60, fin 80⟩ start32 slot0).velocity =
      Vector2Scale
        (Vector2Normalize
          (integrated_velocity (fin (1 / 2))
            (store_at (fin (1 / 2)) ⟨fin 60, fin 80⟩ start32 slot0) slot0))
        (Clamp
          (Vector2Length
            (integrated_velocity (fin (1 / 2))
              (store_at (fin (1 / 2)) ⟨fin 60, fin 80⟩ start32 slot0) slot0))
          (start32 slot0).min_speed (start32 slot0).max_speed) ∧
    ∃ vx vy M : ℚ,
      (update (fin (1 / 2)) ⟨fin 60, fin 80⟩ start32 slot0).velocity = ⟨fin vx, fin vy⟩ ∧
      (50 * (1 - 1 / 2 ^ 19)) ^ 2 ≤ vx * vx + vy * vy ∧
      vx * vx + vy * vy ≤ (100 * (1 + 1 / 2 ^ 19)) ^ 2 ∧
      Vector2Length (update (fin (1 / 2)) ⟨fin 60, fin 80⟩ start32 slot0).velocity = fin M ∧
      50 * (1 - 1 / 2 ^ 19) ≤ M ∧ M ≤ 100 * (1 + 1 / 2 ^ 19) :=
  have h := update_speed_clamp (fin (1 / 2)) ⟨fin 60, fin 80⟩ start32 slot0 start32_spawned
  ⟨start32_spawned, h.1,
    h.2.2 15 20 50 100 (by rw [integrated_start32]; decide!)
      (by rw [start32_slot0]; decide!) (by rw [start32_slot0]; decide!)
      (by rw [abs_of_pos] <;> norm_num) (by rw [abs_of_pos] <;> norm_num)
      (by norm_num) (by norm_num) (by norm_num) (by norm_num)⟩

end Speed32

/-! ## The scenario claims at binary32 -/

section Scenario32Claims

set_option maxRecDepth 100000

open F32

/-- C8, as stated, fails. The distance along x to the target does not keep falling: it is 0
after the second call and 5 after the third, because the boid cannot fly slower than
`min_speed` and passes the target. In binary32 the speed does not stay in
`[min_speed, max_speed]` either: it is 50 after each of the first 16 calls and `49.9999962`,
below `min_speed`, after call 17. -/
theorem scenario32_overshoots :
    x_distance32 2 = fin 0 ∧ x_distance32 3 = fin 5 ∧
    x_distance32 2 < x_distance32 3 ∧
    Vector2Length (scenario32 16 slot0).velocity = fin 50 ∧
    (scenario32 17 slot0).velocity = ⟨fin (13107199 / 262144), fin 0⟩ ∧
    Vector2Length (scenario32 17 slot0).velocity = fin (13107199 / 262144) ∧
    Vector2Length (scenario32 17 slot0).velocity < (scenario32 17 slot0).min_speed := by
  have h2 : scenario32 2 slot0 = boid32_at (5 * ((2 : Nat) : ℚ)) 50 := by
    rw [scenario32_slot0, scenario32_iterate 2 (by decide) (by decide)]
  have h3 : scenario32 3 slot0 = boid32_at (5 * ((3 : Nat) : ℚ)) 50 := by
    rw [scenario32_slot0, scenario32_iterate 3 (by decide) (by decide)]
  have h16 : scenario32 16 slot0 = boid32_at (5 * ((16 : Nat) : ℚ)) 50 := by
    rw [scenario32_slot0, scenario32_iterate 16 (by decide) (by decide)]
  have h17 : scenario32 17 slot0 = boid32_at 85 (13107199 / 262144) := by
    rw [scenario32_slot0, scenario32_iterate_17]
  unfold x_distance32
  rw [h2, h3, h16, h17]
  decide!

/-- C8, amended (binary32): after `n` calls, `1 ≤ n ≤ 16`, the boid is at `(5 n, 0)` with
velocity `(50, 0)`; its distance along x to the target is `|10 - 5 n|` (5, 0, 5, 10, ...: it
falls for the first two calls and then grows by 5 per call), and `|velocity| = 50 = min_speed`
lies in `[min_speed, max_speed]`. -/
theorem scenario32_first_steps (n : Nat) (h1 : 1 ≤ n) (h2 : n ≤ 16) :
    (scenario32 n slot0).position = ⟨fin (5 * (n : ℚ)), fin 0⟩ ∧
    (scenario32 n slot0).velocity = ⟨fin 50, fin 0⟩ ∧
    x_distance32 n = fin |10 - 5 * (n : ℚ)| ∧
    Vector2Length (scenario32 n slot0).velocity = fin 50 ∧
    (scenario32 n slot0).min_speed ≤ Vector2Length (scenario32 n slot0).velocity ∧
    Vector2Length (scenario32 n slot0).velocity ≤ (scenario32 n slot0).max_speed := by
  have h : scenario32 n slot0 = boid32_at (5 * (n : ℚ)) 50 := by
    rw [scenario32_slot0, scenario32_iterate n h1 h2]
  unfold x_distance32
  rw [h]
  refine ⟨rfl, rfl, ?_, ?_, ?_, ?_⟩
  · show fabsf (fin 10 - fin (5 * (n : ℚ))) = fin |10 - 5 * (n : ℚ)|
    interval_cases n <;> decide!
  · show Vector2Length (⟨fin 50, fin 0⟩ : Vector2 F32) = fin 50
    decide!
  · show boid32.min_speed ≤ Vector2Length (⟨fin 50, fin 0⟩ : Vector2 F32)
    decide!
  · show Vector2Length (⟨fin 50, fin 0⟩ : Vector2 F32) ≤ boid32.max_speed
    decide!

theorem scenario32_first_steps_witness :
    (scenario32 3 slot0).position = ⟨fin (5 * ((3 : Nat) : ℚ)), fin 0⟩ ∧
    Vector2Length (scenario32 3 slot0).velocity = fin 50 :=
  ⟨(scenario32_first_steps 3 (by decide) (by decide)).1,
    (scenario32_first_steps 3 (by decide) (by decide)).2.2.2.1⟩

end Scenario32Claims

/-! ## An agent with no one else in its group; the influence weight -/

section IsolatedGroup32

set_option maxRecDepth 100000

open F32

/-- C14, as stated, fails in binary32. For the positions `(0, 0)` and `(2⁻¹³, 0)` the distance
is `2⁻¹³`, not 0, and the influence weight is exactly 1: the `double` quotient
`1 / (1 + 2⁻²⁶)` rounds to `1.0f`. For the positions `(0, 0)` and `(2⁷⁰, 0)` the squared
difference overflows, the distance is `+∞` and the weight is 0, outside `(0, 1]`. -/
theorem influence_one_off_zero :
    Vector2Distance (⟨fin 0, fin 0⟩ : Vector2 F32) ⟨fin (1 / 8192), fin 0⟩ = fin (1 / 8192) ∧
    influence (⟨fin 0, fin 0⟩ : Vector2 F32) ⟨fin (1 / 8192), fin 0⟩ = fin 1 ∧
    Vector2Distance (⟨fin 0, fin 0⟩ : Vector2 F32) ⟨fin (2 ^ 70), fin 0⟩ = inf false ∧
    influence (⟨fin 0, fin 0⟩ : Vector2 F32) ⟨fin (2 ^ 70), fin 0⟩ = fin 0 := by
  decide!

theorem zero_le_distance (a b c d : ℚ) :
    (fin 0 : F32) ≤ Vector2Distance (⟨fin a, fin b⟩ : Vector2 F32) ⟨fin c, fin d⟩ := by
  unfold Vector2Distance
  exact zero_le_sqrt _
    (zero_le_add _ _ (zero_le_mul_self _ (fin_sub_fin_ne_nan a c))
      (zero_le_mul_self _ (fin_sub_fin_ne_nan b d)))

/-- C14, amended (binary32): for every pair of finite positions the influence weight, computed
as the `double` expression `1.0 / (1.0 + distance * distance)` and stored in a `float`, is a
finite number of `[0, 1]`; the `double` divisor is at least 1, so the division never has a
zero divisor; the weight is 1 when the distance is 0. The weight is the factor applied by the
inner loop to the separation direction. -/
theorem influence_unit_interval (a b c d : ℚ) :
    (∃ w : ℚ, influence (⟨fin a, fin b⟩ : Vector2 F32) ⟨fin c, fin d⟩ = fin w ∧
      0 ≤ w ∧ w ≤ 1) ∧
    (∀ v : ℚ,
      Vector2Distance (⟨fin a, fin b⟩ : Vector2 F32) ⟨fin c, fin d⟩
        * Vector2Distance (⟨fin a, fin b⟩ : Vector2 F32) ⟨fin c, fin d⟩ = fin v →
      1 ≤ round64 (1 + v)) ∧
    (Vector2Distance (⟨fin a, fin b⟩ : Vector2 F32) ⟨fin c, fin d⟩ = fin 0 →
      influence (⟨fin a, fin b⟩ : Vector2 F32) ⟨fin c, fin d⟩ = fin 1) ∧
    (∀ (BOIDS : Store F32) (i j : Fin MAX_N_BOIDS) (loc : Locals F32),
      (BOIDS j).is_spawned = true → j ≠ i →
      Vector2Distance (BOIDS i).position (BOIDS j).position ≤ (BOIDS i).separation_radius →
      (neighbor_body BOIDS i j loc).separation_vec =
        Vector2Add loc.separation_vec
          (Vector2Scale
            (Vector2Normalize (Vector2Subtract (BOIDS i).position (BOIDS j).position))
            (influence (BOIDS i).position (BOIDS j).position))) := by
  have hd := zero_le_distance a b c d
  have hne : Vector2Distance (⟨fin a, fin b⟩ : Vector2 F32) ⟨fin c, fin d⟩ ≠ nan :=
    ne_nan_of_le_right _ _ hd
  have hsq := zero_le_mul_self _ hne
  refine ⟨inv_one_add32_unit _ hsq, ?_, ?_, ?_⟩
  · intro v hv
    rw [hv] at hsq
    have hv0 : 0 ≤ v := by simpa [le_iff, F32.le] using hsq
    exact one_le_round64_one_add v hv0
  · intro h0
    unfold influence
    simp only [h0]
    decide!
  · intro BOIDS i j loc hs hji hnear
    rw [neighbor_body_separation_vec, if_pos ⟨hs, hji, hnear⟩]
    rfl

end IsolatedGroup32

/-! ## One step of a lone boid -/

section LoneStep

variable {F : Type} [Add F] [Sub F] [Mul F] [Div F] [Neg F] [OfScientific F] [LibM F] [WideExpr F]
  [LT F] [LE F] [∀ a b : F, Decidable (a < b)] [∀ a b : F, Decidable (a ≤ b)]

/-- C15, amended: in an array whose only spawned boid has position `p`, velocity `v` and mass
`m`, one call of `update` with `dt` and target `t` finds no neighbour (`separation_vec` stays
zero, `group_velocity` is `v`), rotates `v` by the angle `a` from `v` to `normalize(v)`,
limited in magnitude to `alignment_score * dt` (the angle `atan2f(det, dot)` is computed in
floating point and need not be 0), and ends with
`velocity' = normalize(w) * Clamp(|w|, min_speed, max_speed)`, where
`w = v_r + ((v_r * -1 + 0 * separation_score) + (t - p) * target_score) * (1 / m) * dt` and
`v_r = rotate(v, a)`, and with `position' = p + velocity' * dt`; every operation is the
floating-point one, in this order. No other slot changes. -/
theorem lone_boid_pipeline (dt : F) (t : Vector2 F) (BOIDS : Store F) (i : Fin MAX_N_BOIDS)
    (hi : (BOIDS i).is_spawned = true)
    (hlone : ∀ j : Fin MAX_N_BOIDS, j ≠ i → (BOIDS j).is_spawned = false) :
    let boid := BOIDS i
    let angle := Vector2Angle boid.velocity (Vector2Normalize boid.velocity)
    let angle_step := boid.alignment_score * dt
    let a := if angle_step < fabsf angle then (if angle < 0.0 then -angle_step else angle_step)
      else angle
    let v_r := Vector2Rotate boid.velocity a
    let net_force :=
      Vector2Add
        (Vector2Add (Vector2Scale v_r (-1.0)) (Vector2Scale Vector2Zero boid.separation_score))
        (Vector2Scale (Vector2Subtract t boid.position) boid.target_score)
    let w := Vector2Add v_r (Vector2Scale (Vector2Scale net_force (1.0 / boid.mass)) dt)
    let velocity' :=
      Vector2Scale (Vector2Normalize w) (Clamp (Vector2Length w) boid.min_speed boid.max_speed)
    (neighbors (store_at dt t BOIDS i) i).separation_vec = Vector2Zero ∧
    (neighbors (store_at dt t BOIDS i) i).group_velocity = boid.velocity ∧
    alignment_angle dt (store_at dt t BOIDS i) i = a ∧
    integrated_velocity dt (store_at dt t BOIDS i) i = w ∧
    (update dt t BOIDS i).velocity = velocity' ∧
    (update dt t BOIDS i).position = Vector2Add boid.position (Vector2Scale velocity' dt) ∧
    (update dt t BOIDS i).target = t ∧
    ∀ j : Fin MAX_N_BOIDS, j ≠ i → update dt t BOIDS j = BOIDS j := by
  intro boid angle angle_step a v_r net_force w velocity'
  obtain ⟨_, hSi, hSlone⟩ := store_at_lone dt t BOIDS i hlone
  have hn := neighbors_lone (store_at dt t BOIDS i) i hSlone
  refine ⟨?_, ?_, ?_, ?_, ?_, ?_, ?_, ?_⟩
  · rw [hn]
  · rw [hn, hSi]
  · rw [alignment_angle_store_at_lone dt t BOIDS i hlone]
    rfl
  · rw [integrated_velocity_store_at_lone dt t BOIDS i hlone]
    rfl
  · rw [update_slot_lone dt t BOIDS i hi hlone]
    rfl
  · rw [update_slot_lone dt t BOIDS i hi hlone]
    rfl
  · rw [update_slot_lone dt t BOIDS i hi hlone]
    rfl
  · intro j hj
    exact update_of_not_spawned dt t BOIDS j (hlone j hj)

end LoneStep

section LoneStep32

set_option maxRecDepth 100000

open F32

theorem cruise32_slot0 :
    cruise32 slot0 =
      { boid32 with
        target := ⟨fin 60, fin 80⟩
        velocity := ⟨fin (15728639 / 524288), fin (10485759 / 262144)⟩
        position := ⟨fin (15728639 / 1048576), fin (10485759 / 524288)⟩ } := by
  unfold cruise32
  rw [update_start32]
  exact lone_update_eq _ _ _ _ _ (by decide!) (by decide!)

theorem cruise32_others (j : Fin MAX_N_BOIDS) (hj : j ≠ slot0) :
    (cruise32 j).is_spawned = false := by
  unfold cruise32
  rw [update_of_not_spawned _ _ _ j (start32_others j hj)]
  exact start32_others j hj

theorem lone_boid_pipeline_witness :
    (cruise32 slot0).is_spawned = true ∧
    (∀ j : Fin MAX_N_BOIDS, j ≠ slot0 → (cruise32 j).is_spawned = false) ∧
    (neighbors (store_at (fin (1 / 2)) ⟨fin 60, fin 80⟩ cruise32 slot0) slot0).group_velocity
      = ⟨fin (15728639 / 524288), fin (10485759 / 262144)⟩ ∧
    (update (fin (1 / 2)) ⟨fin 60, fin 80⟩ cruise32 slot0).target = ⟨fin 60, fin 80⟩ :=
  have hs : (cruise32 slot0).is_spawned = true := by
    rw [cruise32_slot0]
    rfl
  have h := lone_boid_pipeline (fin (1 / 2)) ⟨fin 60, fin 80⟩ cruise32 slot0 hs cruise32_others
  ⟨hs, cruise32_others, by rw [h.2.1, cruise32_slot0], h.2.2.2.2.2.2.1⟩

/-- C15, as stated, fails in binary32. The array `cruise32` is reached by `spawn_boid` at
`(0, 0)` and one call of `update` (`dt = 0.5`, target `(60, 80)`); its only spawned boid has
mass 1 and the non-zero velocity `(29.9999981, 39.9999962)`. In the next call with the same
`dt` and target, `alignment_score * dt` is positive, `normalize(v)` is not parallel to `v` in
floating point (`det = -2⁻¹⁹`), and the angle passed to `Vector2Rotate` is not 0. -/
theorem lone_boid_turns :
    (cruise32 slot0).is_spawned = true ∧
    (∀ j : Fin MAX_N_BOIDS, j ≠ slot0 → (cruise32 j).is_spawned = false) ∧
    (cruise32 slot0).velocity = ⟨fin (15728639 / 524288), fin (10485759 / 262144)⟩ ∧
    (cruise32 slot0).velocity ≠ Vector2Zero ∧
    (0.0 : F32) < (cruise32 slot0).mass ∧
    (0.0 : F32) < (cruise32 slot0).alignment_score * fin (1 / 2) ∧
    (cruise32 slot0).velocity.x * (Vector2Normalize (cruise32 slot0).velocity).y
      - (cruise32 slot0).velocity.y * (Vector2Normalize (cruise32 slot0).velocity).x
      = fin (-1 / 524288) ∧
    alignment_angle (fin (1 / 2)) (store_at (fin (1 / 2)) ⟨fin 60, fin 80⟩ cruise32 slot0) slot0
      ≠ fin 0 := by
  have hs : (cruise32 slot0).is_spawned = true := by
    rw [cruise32_slot0]
    rfl
  refine ⟨hs, cruise32_others, ?_, ?_, ?_, ?_, ?_, ?_⟩
  · rw [cruise32_slot0]
  · rw [cruise32_slot0]
    decide!
  · rw [cruise32_slot0]
    decide!
  · rw [cruise32_slot0]
    decide!
  · rw [cruise32_slot0]
    decide!
  · rw [alignment_angle_store_at_lone _ _ cruise32 slot0 cruise32_others, cruise32_slot0]
    have hangle :
        Vector2Angle (⟨fin (15728639 / 524288), fin (10485759 / 262144)⟩ : Vector2 F32)
          (Vector2Normalize ⟨fin (15728639 / 524288), fin (10485759 / 262144)⟩)
        = F32.atan2 (fin (-1 / 524288)) (fin (6553599 / 131072)) := by
      have hdet :
          (fin (15728639 / 524288) : F32)
              * (Vector2Normalize
                  (⟨fin (15728639 / 524288), fin (10485759 / 262144)⟩ : Vector2 F32)).y
            - fin (10485759 / 262144)
              * (Vector2Normalize
                  (⟨fin (15728639 / 524288), fin (10485759 / 262144)⟩ : Vector2 F32)).x
          = fin (-1 / 524288) := by decide!
      have hdot :
          (fin (15728639 / 524288) : F32)
              * (Vector2Normalize
                  (⟨fin (15728639 / 524288), fin (10485759 / 262144)⟩ : Vector2 F32)).x
            + fin (10485759 / 262144)
              * (Vector2Normalize
                  (⟨fin (15728639 / 524288), fin (10485759 / 262144)⟩ : Vector2 F32)).y
          = fin (6553599 / 131072) := by decide!
      unfold Vector2Angle
      simp only [hdet, hdot]
      rfl
    have hne : F32.atan2 (fin (-1 / 524288)) (fin (6553599 / 131072)) ≠ fin 0 := by
      apply atan2_ne_zero
      · norm_num
      · push_cast
        rw [abs_of_neg (by norm_num), abs_of_pos (by norm_num)]
        norm_num
    have hstep : (boid32.alignment_score * fin (1 / 2) : F32) = fin (13421773 / 134217728) := by
      decide!
    unfold lone_angle
    simp only [hangle, hstep]
    split
    · split
      · decide!
      · decide!
    · exact hne

end LoneStep32

/-! ## One step of a lone boid in exact arithmetic -/

section LoneStepExact

open Real

/-- In exact arithmetic (the angle need not be 0 in binary32): in an array whose only
spawned boid has position `p`, non-zero velocity `v` and mass `m > 0`, and for which
`alignment_score * dt ≥ 0`, one call of `update` with `dt` and target `t` rotates the velocity
by the angle 0 in the alignment stage and ends with
`velocity' = normalize(w) * clamp(|w|, min_speed, max_speed)`, where
`w = v + ((t - p) * target_score - v) * (dt / m)`, and `position' = p + velocity' * dt`. -/
theorem lone_boid_step_exact (dt : ℝ) (t : Vector2 ℝ) (BOIDS : Store ℝ) (i : Fin MAX_N_BOIDS)
    (hi : (BOIDS i).is_spawned = true)
    (hlone : ∀ j : Fin MAX_N_BOIDS, j ≠ i → (BOIDS j).is_spawned = false)
    (hv : (BOIDS i).velocity ≠ Vector2Zero) (hm : 0 < (BOIDS i).mass)
    (h0 : 0 ≤ (BOIDS i).alignment_score * dt) :
    alignment_angle dt (store_at dt t BOIDS i) i = 0 ∧
    (update dt t BOIDS i).velocity =
      Vector2Scale
        (Vector2Normalize
          (Vector2Add (BOIDS i).velocity
            (Vector2Scale
              (Vector2Subtract
                (Vector2Scale (Vector2Subtract t (BOIDS i).position) (BOIDS i).target_score)
                (BOIDS i).velocity)
              (dt / (BOIDS i).mass))))
        (Clamp
          (Vector2Length
            (Vector2Add (BOIDS i).velocity
              (Vector2Scale
                (Vector2Subtract
                  (Vector2Scale (Vector2Subtract t (BOIDS i).position) (BOIDS i).target_score)
                  (BOIDS i).velocity)
                (dt / (BOIDS i).mass))))
          (BOIDS i).min_speed (BOIDS i).max_speed) ∧
    (update dt t BOIDS i).position =
      Vector2Add (BOIDS i).position (Vector2Scale (update dt t BOIDS i).velocity dt) := by
  obtain ⟨_, hSi, hSlone⟩ := store_at_lone dt t BOIDS i hlone
  have h0S : 0 ≤ (store_at dt t BOIDS i i).alignment_score * dt := by
    rw [hSi]; exact h0
  have hangle := alignment_angle_lone dt (store_at dt t BOIDS i) i hSlone h0S
  have hint : integrated_velocity dt (store_at dt t BOIDS i) i =
      Vector2Add (BOIDS i).velocity
        (Vector2Scale
          (Vector2Subtract
            (Vector2Scale (Vector2Subtract t (BOIDS i).position) (BOIDS i).target_score)
            (BOIDS i).velocity)
          (dt / (BOIDS i).mass)) := by
    rw [integrated_velocity_lone dt (store_at dt t BOIDS i) i hSlone h0S, hSi]
    simp only [Vector2Add, Vector2Scale, Vector2Subtract]
    ext
    · show _ = _
      ring
    · show _ = _
      ring
  have hcl : clamped_velocity dt (store_at dt t BOIDS i) i =
      Vector2Scale (Vector2Normalize (integrated_velocity dt (store_at dt t BOIDS i) i))
        (Clamp (Vector2Length (integrated_velocity dt (store_at dt t BOIDS i) i))
          (BOIDS i).min_speed (BOIDS i).max_speed) := by
    unfold clamped_velocity
    simp only [hSi]
  rw [hint] at hcl
  refine ⟨hangle, ?_, ?_⟩
  · rw [update_of_spawned dt t BOIDS i hi, hcl]
  · rw [update_of_spawned dt t BOIDS i hi]

end LoneStepExact

end Boids
